import Mathlib

/-!
Verification of the OVH availability-monitor core (`backend/server_monitor.py`)
and the Telegram callback parser (`backend/telegram_utils.py`).

The Python code is shallowly embedded as pure Lean functions.  External
collaborators (availability snapshot source, price HTTP service, order HTTP
service, notification transport, clock) are passed in as explicit arguments
or oracle functions; mutation of the monitor's shared state is modelled by
explicit state passing.  Timestamps are modelled as integer seconds (the
source stores ISO strings and parses them back; the string round-trip is a
faithful carrier of the instant at seconds granularity).  Python dicts with
string keys are modelled as insertion-ordered association lists, with
assignment `d[k] = v` modelled by `setKeyA` (update in place, append when
fresh), matching Python 3.7+ dict semantics.
-/

set_option maxHeartbeats 1600000

namespace OVH

/-! ## Association-list model of Python string-keyed dicts -/

/-- `d.get(k)`: first value stored under key `k`. -/
def lookupA {β : Type} (m : List (String × β)) (k : String) : Option β :=
  match m with
  | [] => none
  | p :: rest => if p.1 = k then some p.2 else lookupA rest k

/-- `d[k] = v`: replace the value at an existing key in place, otherwise
append the pair (Python dicts have unique keys and keep insertion
order). -/
def setKeyA {β : Type} : List (String × β) → String → β → List (String × β)
  | [], k, v => [(k, v)]
  | p :: rest, k, v =>
      if p.1 = k then (k, v) :: rest else p :: setKeyA rest k v

/-- `del d[k]`. -/
def removeA {β : Type} (m : List (String × β)) (k : String) :
    List (String × β) :=
  m.filter (fun p => ¬ p.1 = k)

/-- Python `str.endswith`. -/
def strEndsWith (s suffix : String) : Bool :=
  suffix.data.isSuffixOf s.data

/-! ## Data model -/

/-- The `config_info` dict built at `server_monitor.py:190-195`. -/
structure ConfigInfo where
  memory : String
  storage : String
  display : String
  options : List String
deriving DecidableEq

/-- One entry of the availability snapshot: either the legacy flat
`datacenter -> status` shape or the configuration-aware shape
(`server_monitor.py:165-185`). -/
inductive ConfigData where
  | flat (status : String)
  | configured (memory storage : String) (options : List String)
      (datacenters : List (String × String))
deriving DecidableEq

/-- The availability snapshot returned by the external source: a dict from
configuration key to entry. -/
abbrev Snapshot := List (String × ConfigData)

/-- A history entry as appended at `server_monitor.py:538-549, 638-649,
798-810`. -/
structure HistoryEntry where
  timestamp : Int
  datacenter : String
  status : String
  changeType : String
  oldStatus : Option String
  config : Option ConfigInfo
deriving DecidableEq

/-- A subscription dict (`server_monitor.py:97-109`). -/
structure Subscription where
  planCode : String
  datacenters : List String
  notifyAvailable : Bool
  notifyUnavailable : Bool
  autoOrder : Bool
  autoOrderQuantity : Int
  serverName : Option String
  lastStatus : List (String × String)
  history : List HistoryEntry
  createdAt : Int
deriving DecidableEq

/-- Entry of `self.price_cache` (`server_monitor.py:36-38`). -/
structure PriceEntry where
  price : String
  timestamp : Int
deriving DecidableEq

/-- The process-wide mutable monitor state shared by all subscriptions:
price cache plus the permanent valid-plan-code set. -/
structure MonState where
  priceCache : List (String × PriceEntry)
  validPlanCodes : List String
deriving DecidableEq

/-- Response of the internal price HTTP endpoint, as read by the code:
HTTP-level success, the `success` flag, truthiness of `price`, the
`prices.withTax` field and the currency code. -/
structure PriceResp where
  httpOk : Bool
  success : Bool
  hasPrice : Bool
  withTax : Option Int
  currencyCode : String

/-- Oracle for the price service: `(plan_code, datacenter, options)`. -/
abbrev PriceApi := String → String → List String → PriceResp

/-- One record of `notifications_to_send` (`server_monitor.py:268-274`). -/
structure NotifRec where
  dc : String
  status : String
  oldStatus : Option String
  statusKey : String
  changeType : String
deriving DecidableEq

/-- An order request submitted to the quick-order endpoint
(`server_monitor.py:447-453`); `statusKey` records the triggering
notification record, `orderIndex` the copy number within the batch. -/
structure OrderReq where
  planCode : String
  datacenter : String
  statusKey : String
  options : List String
  skipPriceCheck : Bool
  skipDuplicateCheck : Bool
  orderIndex : Nat
deriving DecidableEq

/-- Oracle for the order service: success of one submitted request. -/
abbrev OrderApi := OrderReq → Bool

/-- A call made to the price service: either the auto-order price
verification (`server_monitor.py:409-432`) or the external lookup inside
`_get_price_info` (`server_monitor.py:1222-1247`).  `ok` records whether
the call succeeded (and hence marked the plan code valid). -/
structure PriceEvent where
  isVerification : Bool
  planCode : String
  datacenter : String
  options : List String
  ok : Bool
deriving DecidableEq

/-- An outbound notification: grouped availability alert
(`send_availability_alert_grouped`) or a single alert
(`send_availability_alert`).  `recs` lists the underlying change records
the message covers. -/
structure NotificationEvent where
  planCode : String
  grouped : Bool
  recs : List NotifRec
  configDisplay : Option String
  durationSec : Option Int
  priceText : Option String
deriving DecidableEq

/-- State threaded through one `check_availability_change` run. -/
structure RunState where
  sub : Subscription
  mon : MonState
  notifs : List NotificationEvent
  orders : List OrderReq
  orderResults : List Bool
  priceEvents : List PriceEvent
deriving DecidableEq

/-! ## Price cache (`_get_price_cache_key`, `_get_cached_price`,
`_set_cached_price`, `_get_price_info`) -/

/-- `self.price_cache_ttl = 3 * 24 * 3600` seconds. -/
def priceCacheTtl : Int := 3 * 24 * 3600

/-- Insert into a sorted list of strings (ascending, stable). -/
def insertSorted (x : String) : List String → List String
  | [] => [x]
  | y :: rest => if x ≤ y then x :: y :: rest else y :: insertSorted x rest

/-- Python `sorted` on a list of strings: lexicographic ascending order
(modelled by a stable insertion sort). -/
def sortStrings (l : List String) : List String :=
  l.foldr insertSorted []

/-- `_get_price_cache_key` (`server_monitor.py:1120-1133`). -/
def priceCacheKey (planCode : String) (options : List String) : String :=
  planCode ++ "|" ++ String.intercalate "," (sortStrings options)

/-- `_get_cached_price` (`server_monitor.py:1135-1164`): return the cached
price when the entry is younger than the TTL, lazily evict an expired
entry. -/
def getCachedPrice (mon : MonState) (planCode : String) (options : List String)
    (now : Int) : Option String × MonState :=
  let key := priceCacheKey planCode options
  match lookupA mon.priceCache key with
  | some e =>
      if now - e.timestamp < priceCacheTtl then (some e.price, mon)
      else (none, { mon with priceCache := removeA mon.priceCache key })
  | none => (none, mon)

/-- `_set_cached_price` (`server_monitor.py:1166-1180`). -/
def setCachedPrice (mon : MonState) (planCode : String) (options : List String)
    (priceText : String) (now : Int) : MonState :=
  { mon with priceCache :=
      setKeyA mon.priceCache (priceCacheKey planCode options) ⟨priceText, now⟩ }

/-- `set.add`: adding to the permanent valid-plan-code set. -/
def addValid (l : List String) (x : String) : List String :=
  if x ∈ l then l else l ++ [x]

/-- Price text formatting at `server_monitor.py:1238-1239`
(`f"{currency_symbol}{with_tax:.2f}/月"`; the numeric rendering is
presentation and carried as `toString`). -/
def formatPrice (currency : String) (withTax : Int) : String :=
  (if currency = "EUR" then "€" else if currency = "USD" then "$" else currency)
    ++ toString withTax ++ "/月"

/-- The external-lookup tail of `_get_price_info`
(`server_monitor.py:1208-1256`): query the price API, and on a full success
cache the formatted price and mark the plan code permanently valid. -/
def getPriceExternal (api : PriceApi) (mon : MonState) (planCode dc : String)
    (options : List String) (now : Int) :
    Option String × MonState × Option PriceEvent :=
  let r := api planCode dc options
  if r.httpOk ∧ r.success ∧ r.hasPrice then
    match r.withTax with
    | some wt =>
        let pt := formatPrice r.currencyCode wt
        (some pt,
         { priceCache :=
             setKeyA mon.priceCache (priceCacheKey planCode options) ⟨pt, now⟩,
           validPlanCodes := addValid mon.validPlanCodes planCode },
         some ⟨false, planCode, dc, options, true⟩)
    | none => (none, mon, some ⟨false, planCode, dc, options, false⟩)
  else (none, mon, some ⟨false, planCode, dc, options, false⟩)

/-- The options extraction at `server_monitor.py:1195-1201`: the
configuration's option codes when present and truthy, otherwise empty. -/
def priceInfoOptions (cfg : Option ConfigInfo) : List String :=
  match cfg with
  | some c => if c.options ≠ [] then c.options else []
  | none => []

/-- `_get_price_info` (`server_monitor.py:1182-1262`): consult the cache
first (a truthy cached price is returned without any external call),
otherwise perform one external lookup. -/
def getPriceInfo (api : PriceApi) (mon : MonState) (planCode dc : String)
    (cfg : Option ConfigInfo) (now : Int) :
    Option String × MonState × Option PriceEvent :=
  let options := priceInfoOptions cfg
  let cp := getCachedPrice mon planCode options now
  match cp.1 with
  | some p =>
      if p ≠ "" then (some p, cp.2, none)
      else getPriceExternal api cp.2 planCode dc options now
  | none => getPriceExternal api cp.2 planCode dc options now

/-! ## Change classification -/

/-- First-seen classification of the configuration-aware path
(`server_monitor.py:238-251`): a first observed "unavailable" notifies only
when notify-on-unavailable is set; any other first value notifies only when
notify-on-available is set. -/
def classifyConfigFirst (nA nU : Bool) (status : String) : Option String :=
  if status = "unavailable" then
    if nU then some "unavailable" else none
  else
    if nA then some "available" else none

/-- First-seen classification of the legacy flat path
(`server_monitor.py:697-710`).  The `notifyAvailable` test at line 708 is
indented outside the `else` branch, so it runs for every first-seen key and
overwrites the change type computed for a first-seen "unavailable". -/
def classifyLegacyFirst (nA nU : Bool) (status : String) : Option String :=
  let ct := if status = "unavailable" ∧ nU then some "unavailable" else none
  if nA then some "available" else ct

/-- Transition classification shared by both paths
(`server_monitor.py:252-265` and `server_monitor.py:711-725`): recovery
(unavailable → other) and loss (other → unavailable). -/
def classifyTransition (nA nU : Bool) (old status : String) : Option String :=
  if old = "unavailable" ∧ status ≠ "unavailable" then
    if nA then some "available" else none
  else if old ≠ "unavailable" ∧ status = "unavailable" then
    if nU then some "unavailable" else none
  else none

/-- The duplicate-trigger guard test (`server_monitor.py:223-228`): some
*other* status key of the same configuration already holds a
non-"unavailable" value in `lastStatus`. -/
def hasSameConfigStatus (lastStatus : List (String × String))
    (statusKey configKey : String) : Bool :=
  lastStatus.any (fun p =>
    ¬ p.1 = statusKey ∧ strEndsWith p.1 ("|" ++ configKey) ∧ ¬ p.2 = "unavailable")

/-- Handling of one `(datacenter, status)` item of a configuration-aware
snapshot entry (`server_monitor.py:199-277`): datacenter filter,
duplicate-trigger guard, change classification, and collection into
`notifications_to_send`. -/
def collectNotifsStep (sub : Subscription) (configKey : String)
    (acc : List NotifRec) (p : String × String) : List NotifRec :=
  let dc := p.1
  let status := p.2
  if sub.datacenters ≠ [] ∧ dc ∉ sub.datacenters then acc
  else
    let statusKey := dc ++ "|" ++ configKey
    let old := lookupA sub.lastStatus statusKey
    if old = none ∧ status ≠ "unavailable" ∧ sub.autoOrder = true ∧
        hasSameConfigStatus sub.lastStatus statusKey configKey = true then
      acc
    else
      match
        (match old with
         | none => classifyConfigFirst sub.notifyAvailable sub.notifyUnavailable status
         | some o => classifyTransition sub.notifyAvailable sub.notifyUnavailable o status)
      with
      | some ct => acc ++ [⟨dc, status, old, statusKey, ct⟩]
      | none => acc

/-- Per-datacenter collection of `notifications_to_send` for one
configuration-aware snapshot entry (`server_monitor.py:197-277`). -/
def collectNotifs (sub : Subscription) (configKey : String)
    (dcs : List (String × String)) : List NotifRec :=
  dcs.foldl (collectNotifsStep sub configKey) []

/-- `first_available_dc` (`server_monitor.py:282-287` and `395-400`): the
datacenter of the first collected record classified available. -/
def firstAvailableDc (ns : List NotifRec) : Option String :=
  (ns.find? (fun n => n.changeType = "available" ∧ n.status ≠ "unavailable")).map
    (fun n => n.dc)

/-! ## History: truncation and duration scan -/

/-- `subscription["history"] = subscription["history"][-100:]` when longer
than 100 (`server_monitor.py:651-653`, `812-814`). -/
def truncateHistory (h : List HistoryEntry) : List HistoryEntry :=
  if h.length > 100 then h.drop (h.length - 100) else h

/-- Backward history scan of the configuration-aware unavailable path
(`server_monitor.py:570-583`): find the most recent `available` entry for
the datacenter; when the configuration display text is truthy, an entry
carrying a configuration is additionally required to match it (an entry
without a configuration is not skipped: `if cfg and ...`). -/
def durationFindGrouped (history : List HistoryEntry) (dc : String)
    (cfgDisplay : String) : Option Int :=
  (history.reverse.find? (fun e =>
    decide (e.datacenter = dc) && decide (e.changeType = "available") &&
    (if cfgDisplay ≠ "" then
       (match e.config with
        | some c => decide (c.display = cfgDisplay)
        | none => true)
     else true))).map (fun e => e.timestamp)

/-- Backward history scan of the legacy path (`server_monitor.py:740-752`):
same filter, except an entry without a configuration is skipped when a
display text is required (`cfg.get("display") != same_config_display` with
`cfg = {}` yields `None != display`). -/
def durationFindLegacy (history : List HistoryEntry) (dc : String)
    (cfgInfo : Option ConfigInfo) : Option Int :=
  (history.reverse.find? (fun e =>
    decide (e.datacenter = dc) && decide (e.changeType = "available") &&
    (match cfgInfo with
     | some ci =>
         if ci.display ≠ "" then
           (match e.config with
            | some c => decide (c.display = ci.display)
            | none => false)
         else true
     | none => true))).map (fun e => e.timestamp)

/-- Seconds elapsed since `t0`, clamped to be non-negative
(`server_monitor.py:601-604`). -/
def elapsedSec (now t0 : Int) : Int :=
  max 0 (now - t0)

/-! ## `check_availability_change`: the three sequential passes -/

/-- Aggregated result for one configuration stored in `config_results`
(`server_monitor.py:320-345`); `pendingDc` marks a deferred price query
task. -/
structure ConfigResult where
  configKey : String
  info : ConfigInfo
  notifs : List NotifRec
  priceText : Option String
  pendingDc : Option String
deriving DecidableEq

/-- A truthy price text: present and non-empty. -/
def truthyS (p : Option String) : Bool :=
  match p with
  | some s => ¬ s = ""
  | none => false

/-- The legacy flat-entry handling: datacenter filter
(`server_monitor.py:174-179`) followed by `_check_and_notify_change`
(`server_monitor.py:679-814`), which sends the alert (an "available" alert
resolves a price through `_get_price_info`), appends the history entry and
truncates.  The legacy path never writes `lastStatus`. -/
def legacyApply (api : PriceApi) (now : Int) (st : RunState)
    (dc status : String) : RunState :=
  let sub := st.sub
  if sub.datacenters ≠ [] ∧ dc ∉ sub.datacenters then st
  else
    let old := lookupA sub.lastStatus dc
    match
      (match old with
       | none => classifyLegacyFirst sub.notifyAvailable sub.notifyUnavailable status
       | some o => classifyTransition sub.notifyAvailable sub.notifyUnavailable o status)
    with
    | none => st
    | some ct =>
        let dur :=
          if ct = "unavailable" then
            (durationFindLegacy sub.history dc none).map (elapsedSec now)
          else none
        let priced :=
          if ct = "available" then getPriceInfo api st.mon sub.planCode dc none now
          else (none, st.mon, none)
        let nev : NotificationEvent :=
          ⟨sub.planCode, false, [⟨dc, status, old, dc, ct⟩], none, dur, priced.1⟩
        let entry : HistoryEntry := ⟨now, dc, status, ct, old, none⟩
        { st with
          mon := priced.2.1,
          priceEvents := st.priceEvents ++ priced.2.2.toList,
          notifs := st.notifs ++ [nev],
          sub := { sub with history := truncateHistory (sub.history ++ [entry]) } }

/-- State of the first pass: the run state plus the accumulated
`config_results`. -/
structure Loop1State where
  run : RunState
  results : List ConfigResult
deriving DecidableEq

/-- One step of the first pass over the snapshot
(`server_monitor.py:164-345`): legacy entries are handled inline; for a
configuration-aware entry the change records are collected and the price is
pre-resolved from the cache, deferring a cache miss to the concurrent query
pass. -/
def loop1Step (api : PriceApi) (now : Int) (st : Loop1State)
    (e : String × ConfigData) : Loop1State :=
  match e.2 with
  | .flat status => { st with run := legacyApply api now st.run e.1 status }
  | .configured memory storage options dcs =>
      let info : ConfigInfo := ⟨memory, storage, memory ++ " + " ++ storage, options⟩
      let sub := st.run.sub
      let ns := collectNotifs sub e.1 dcs
      let priced :=
        if ns ≠ [] then
          match firstAvailableDc ns with
          | some fdc =>
              if fdc ≠ "" then
                let cp := getCachedPrice st.run.mon sub.planCode info.options now
                match cp.1 with
                | some p =>
                    if p ≠ "" then ((some p, none), cp.2)
                    else ((none, some fdc), cp.2)
                | none => ((none, some fdc), cp.2)
              else ((none, none), st.run.mon)
          | none => ((none, none), st.run.mon)
        else ((none, none), st.run.mon)
      { run := { st.run with mon := priced.2 },
        results := st.results ++ [⟨e.1, info, ns, priced.1.1, priced.1.2⟩] }

/-- One deferred price-query task (`server_monitor.py:350-366`): run
`_get_price_info` for a configuration with a pending query; the result is
stored only when truthy. -/
def priceTaskStep (api : PriceApi) (now : Int) (planCode : String)
    (acc : List ConfigResult × RunState) (r : ConfigResult) :
    List ConfigResult × RunState :=
  match r.pendingDc with
  | some fdc =>
      let priced := getPriceInfo api acc.2.mon planCode fdc (some r.info) now
      let pt := if truthyS priced.1 then priced.1 else none
      (acc.1 ++ [{ r with priceText := pt, pendingDc := none }],
       { acc.2 with
         mon := priced.2.1,
         priceEvents := acc.2.priceEvents ++ priced.2.2.toList })
  | none => (acc.1 ++ [r], acc.2)

/-- The concurrent price-query pass (`server_monitor.py:347-366`). -/
def runPriceTasks (api : PriceApi) (now : Int) (planCode : String)
    (st : List ConfigResult × RunState) : List ConfigResult × RunState :=
  st.1.foldl (priceTaskStep api now planCode) ([], st.2)

/-- The optimistic status pin (`server_monitor.py:488-496`): immediately
after submitting the order batch, write the observed status into
`lastStatus` for every record of the group whose status key and status are
truthy and whose status is not "unavailable". -/
def pinStatus (m : List (String × String)) (avail : List NotifRec) :
    List (String × String) :=
  avail.foldl
    (fun acc n =>
      if n.statusKey ≠ "" then
        if n.status ≠ "" ∧ n.status ≠ "unavailable" then
          setKeyA acc n.statusKey n.status
        else acc
      else acc)
    m

/-- The auto-order block for one available-classified group
(`server_monitor.py:384-506`): optional one-shot price verification when
the plan code is not yet in the permanent valid set, concurrent submission
of datacenter × quantity order requests, the optimistic status pin, and
collection of the submission outcomes (used for logging only). -/
def autoOrderApply (api : PriceApi) (oapi : OrderApi)
    (st : RunState) (r : ConfigResult) (avail : List NotifRec) : RunState :=
  let sub := st.sub
  let planCode := sub.planCode
  let isValid0 := planCode ∈ st.mon.validPlanCodes
  let verified :=
    if isValid0 then ((true, st.mon), ([] : List PriceEvent))
    else
      match firstAvailableDc avail with
      | some fdc =>
          if fdc ≠ "" then
            let resp := api planCode fdc r.info.options
            let ok := resp.httpOk ∧ resp.success ∧ resp.hasPrice
            ((if ok then true else false,
              if ok then { st.mon with validPlanCodes := addValid st.mon.validPlanCodes planCode }
              else st.mon),
             [⟨true, planCode, fdc, r.info.options, if ok then true else false⟩])
          else ((false, st.mon), [])
      | none => ((false, st.mon), [])
  let isValid := verified.1.1
  let skipDup := decide (sub.autoOrderQuantity > 0)
  let cnt := if sub.autoOrderQuantity > 0 then sub.autoOrderQuantity.toNat else 1
  let newOrders := avail.flatMap (fun n =>
    (List.range cnt).map (fun i =>
      ⟨planCode, n.dc, n.statusKey, r.info.options, isValid, skipDup, i⟩))
  let results := newOrders.map (fun o => oapi o)
  { st with
    sub := { sub with lastStatus := pinStatus sub.lastStatus avail },
    mon := verified.1.2,
    orders := st.orders ++ newOrders,
    orderResults := st.orderResults ++ results,
    priceEvents := st.priceEvents ++ verified.2 }

/-- The grouped availability alert plus its history entries
(`server_monitor.py:508-549`, `send_availability_alert_grouped`): re-check
the cache when the resolved price is still falsy (twice: once before the
call at lines 516-521, once inside the alert at lines 845-855), emit one
grouped message covering all available datacenters, then append one history
entry per record. -/
def groupedAlertApply (now : Int) (st : RunState) (r : ConfigResult)
    (avail : List NotifRec) : RunState :=
  let sub := st.sub
  let fallback1 :=
    if truthyS r.priceText then (r.priceText, st.mon)
    else
      let cp := getCachedPrice st.mon sub.planCode r.info.options now
      (if truthyS cp.1 then cp.1 else r.priceText, cp.2)
  let fallback2 :=
    if truthyS fallback1.1 then fallback1
    else
      let cp := getCachedPrice fallback1.2 sub.planCode r.info.options now
      (if truthyS cp.1 then cp.1 else fallback1.1, cp.2)
  let nev : NotificationEvent :=
    ⟨sub.planCode, true, avail, some r.info.display, none, fallback2.1⟩
  let entries := avail.map (fun n =>
    (⟨now, n.dc, n.status, n.changeType, n.oldStatus, some r.info⟩ : HistoryEntry))
  { st with
    mon := fallback2.2,
    notifs := st.notifs ++ [nev],
    sub := { sub with history := sub.history ++ entries } }

/-- One single unavailable alert plus its history entry
(`server_monitor.py:551-649`): the elapsed-availability duration is
computed only for a genuine loss transition, by the backward history
scan. -/
def unavAlertApply (now : Int) (st : RunState) (r : ConfigResult)
    (n : NotifRec) : RunState :=
  let sub := st.sub
  let dur :=
    if n.changeType = "unavailable" ∧ n.oldStatus ≠ some "unavailable" ∧
        n.oldStatus ≠ none then
      (durationFindGrouped sub.history n.dc r.info.display).map (elapsedSec now)
    else none
  let nev : NotificationEvent :=
    ⟨sub.planCode, false, [n], some r.info.display, dur, none⟩
  let entry : HistoryEntry := ⟨now, n.dc, n.status, n.changeType, n.oldStatus, some r.info⟩
  { st with
    notifs := st.notifs ++ [nev],
    sub := { sub with history := sub.history ++ [entry] } }

/-- The third pass over one `config_results` entry
(`server_monitor.py:368-653`): auto-order for available groups of
auto-order subscriptions, the grouped available alert, the per-datacenter
unavailable alerts, and the history-length bound. -/
def processResult (api : PriceApi) (oapi : OrderApi) (now : Int)
    (st : RunState) (r : ConfigResult) : RunState :=
  let avail := r.notifs.filter (fun n => n.changeType = "available")
  let unav := r.notifs.filter (fun n => n.changeType = "unavailable")
  let st1 :=
    if avail ≠ [] ∧ st.sub.autoOrder = true then autoOrderApply api oapi st r avail
    else st
  let st2 :=
    if avail ≠ [] then groupedAlertApply now st1 r avail
    else st1
  let st3 := unav.foldl (fun s n => unavAlertApply now s r n) st2
  { st3 with sub := { st3.sub with history := truncateHistory st3.sub.history } }

/-- All status pairs written by the end-of-check merge
(`server_monitor.py:659-671`), in iteration order. -/
def snapStatusPairs (snap : Snapshot) : List (String × String) :=
  snap.flatMap (fun e =>
    match e.2 with
    | .flat status => [(e.1, status)]
    | .configured _ _ _ dcs => dcs.map (fun p => (p.1 ++ "|" ++ e.1, p.2)))

/-- The status keys produced by a snapshot. -/
def statusKeys (snap : Snapshot) : List String :=
  (snapStatusPairs snap).map (fun p => p.1)

/-- The end-of-check bulk merge (`server_monitor.py:655-673`): every key of
the snapshot overwrites the corresponding entry of a copy of `lastStatus`
(merge, not replace). -/
def bulkMerge (m : List (String × String)) (snap : Snapshot) :
    List (String × String) :=
  (snapStatusPairs snap).foldl (fun acc p => setKeyA acc p.1 p.2) m

/-- The first pass over the whole snapshot. -/
def loop1Run (api : PriceApi) (sub : Subscription) (mon : MonState)
    (snap : Snapshot) (now : Int) : Loop1State :=
  snap.foldl (loop1Step api now) ⟨⟨sub, mon, [], [], [], []⟩, []⟩

/-- The first pass followed by the concurrent price-query pass. -/
def taskedRun (api : PriceApi) (sub : Subscription) (mon : MonState)
    (snap : Snapshot) (now : Int) : List ConfigResult × RunState :=
  runPriceTasks api now sub.planCode
    ((loop1Run api sub mon snap now).results, (loop1Run api sub mon snap now).run)

/-- Everything of `check_availability_change` before the final bulk merge:
the collection pass, the concurrent price-query pass, and the
notification/order pass. -/
def runLoops (api : PriceApi) (oapi : OrderApi) (sub : Subscription)
    (mon : MonState) (snap : Snapshot) (now : Int) : RunState :=
  (taskedRun api sub mon snap now).1.foldl (processResult api oapi now)
    (taskedRun api sub mon snap now).2

/-- `check_availability_change` (`server_monitor.py:137-677`): an empty
snapshot is logged and skipped; otherwise the three passes run, followed by
the bulk status merge. -/
def checkAvailabilityChange (api : PriceApi) (oapi : OrderApi)
    (sub : Subscription) (mon : MonState) (snap : Snapshot) (now : Int) :
    RunState :=
  if snap = [] then ⟨sub, mon, [], [], [], []⟩
  else
    let r := runLoops api oapi sub mon snap now
    { r with sub := { r.sub with lastStatus := bulkMerge r.sub.lastStatus snap } }

/-! ## Subscription store: `add_subscription` -/

/-- `int(auto_order_quantity) if auto_order_quantity else 0`
(`server_monitor.py:88,109`). -/
def normQty (q : Int) : Int :=
  if q = 0 then 0 else q

/-- Update the first subscription matching the plan code, as
`next((s for s in self.subscriptions if ...), None)` finds the first
match. -/
def updateFirstMatch (store : List Subscription) (planCode : String)
    (f : Subscription → Subscription) : List Subscription :=
  match store with
  | [] => []
  | s :: rest =>
      if s.planCode = planCode then f s :: rest
      else s :: updateFirstMatch rest planCode f

/-- The in-place update applied to an existing subscription
(`server_monitor.py:82-94`): filters, flags and name are replaced;
`lastStatus`, `history` and `createdAt` are left untouched (the history
field always exists in the model, so the `if "history" not in existing`
backfill is a no-op). -/
def updateExisting (datacenters : List String)
    (notifyAvailable notifyUnavailable : Bool) (serverName : Option String)
    (autoOrder : Bool) (autoOrderQuantity : Int) (s : Subscription) :
    Subscription :=
  { s with
    datacenters := datacenters,
    notifyAvailable := notifyAvailable,
    notifyUnavailable := notifyUnavailable,
    autoOrder := autoOrder,
    autoOrderQuantity := normQty autoOrderQuantity,
    serverName := serverName }

/-- `add_subscription` (`server_monitor.py:65-118`): a duplicate plan code
updates the existing entry's configuration only, ignoring the passed
`last_status` and `history`; a fresh plan code appends a new
subscription. -/
def addSubscription (store : List Subscription) (planCode : String)
    (datacenters : List String) (notifyAvailable notifyUnavailable : Bool)
    (serverName : Option String) (lastStatus : Option (List (String × String)))
    (history : Option (List HistoryEntry)) (autoOrder : Bool)
    (autoOrderQuantity : Int) (now : Int) : List Subscription :=
  if store.any (fun s => s.planCode = planCode) then
    updateFirstMatch store planCode
      (updateExisting datacenters notifyAvailable notifyUnavailable serverName
        autoOrder autoOrderQuantity)
  else
    store ++ [⟨planCode, datacenters, notifyAvailable, notifyUnavailable,
      autoOrder, normQty autoOrderQuantity, serverName,
      lastStatus.getD [], history.getD [], now⟩]

/-! ## Concrete oracles and counterexample inputs for closed evaluations -/

/-- A price service whose calls always fail. -/
def failApi : PriceApi := fun _ _ _ => ⟨false, false, false, none, "EUR"⟩

/-- An order service whose submissions always fail. -/
def failOrderApi : OrderApi := fun _ => false

/-- C7 counterexample input: a subscription restored with a 101-entry
history, checked against a legacy snapshot that changes nothing. -/
def c7Sub : Subscription :=
  ⟨"ks1", [], true, false, false, 0, none, [("gra", "unavailable")],
    List.replicate 101 ⟨0, "gra", "available", "available", none, none⟩, 0⟩

/-- C4 counterexample input: an auto-order subscription observing a
first-seen empty-string status (a non-"unavailable", hence
available-classified, value). -/
def c4Sub : Subscription := ⟨"ks1", [], true, false, true, 0, none, [], [], 0⟩

/-- C4 counterexample snapshot. -/
def c4Snap : Snapshot := [("ck", ConfigData.configured "m" "s" [] [("gra", "")])]

/-! ## Invariants used in the proofs -/

/-- Invariant of the first pass, relative to the starting subscription
`sub0` and a status key `key` that must never be notified or ordered: the
fields read by the change classification are unchanged (only the history
may have been rewritten), no collected or emitted record carries `key`,
and no orders exist yet. -/
def Loop1KeyInv (sub0 : Subscription) (key : String) (st : Loop1State) : Prop :=
  st.run.sub.lastStatus = sub0.lastStatus
  ∧ st.run.sub.datacenters = sub0.datacenters
  ∧ st.run.sub.notifyAvailable = sub0.notifyAvailable
  ∧ st.run.sub.notifyUnavailable = sub0.notifyUnavailable
  ∧ st.run.sub.autoOrder = sub0.autoOrder
  ∧ (∀ ev ∈ st.run.notifs, ∀ n ∈ ev.recs, n.statusKey ≠ key)
  ∧ (∀ r ∈ st.results, ∀ n ∈ r.notifs, n.statusKey ≠ key)
  ∧ st.run.orders = []

/-- Invariant of the third pass for a status key `key` suppressed by the
duplicate-trigger guard: no emitted record or order carries `key`, and
`lastStatus` has no entry for `key`. -/
def RunKeyInv (key : String) (st : RunState) : Prop :=
  (∀ ev ∈ st.notifs, ∀ n ∈ ev.recs, n.statusKey ≠ key)
  ∧ (∀ o ∈ st.orders, o.statusKey ≠ key)
  ∧ lookupA st.sub.lastStatus key = none

/-- The duplicate-trigger guard condition of `server_monitor.py:220-235`
for one `(datacenter, status)` item. -/
def GuardCond (sub : Subscription) (ck : String) (p : String × String) : Prop :=
  lookupA sub.lastStatus (p.1 ++ "|" ++ ck) = none ∧ p.2 ≠ "unavailable" ∧
    sub.autoOrder = true ∧
    hasSameConfigStatus sub.lastStatus (p.1 ++ "|" ++ ck) ck = true

/-- Relation between two run states: the price-event log grew by some
suffix `ap`, and the permanent valid-plan-code set grew exactly by the
plan codes of the successful events of `ap`. -/
def EventDelta (st st' : RunState) : Prop :=
  ∃ ap, st'.priceEvents = st.priceEvents ++ ap ∧
    ∀ x, (x ∈ st'.mon.validPlanCodes ↔
      x ∈ st.mon.validPlanCodes ∨ ∃ e ∈ ap, e.ok = true ∧ e.planCode = x)

/-- Invariant for a round whose plan code is already permanently valid:
the subscription still carries that plan code, membership persists, no
price-verification call has been made, and every submitted order skips the
price check. -/
def MemberInv (plan : String) (st : RunState) : Prop :=
  st.sub.planCode = plan
  ∧ plan ∈ st.mon.validPlanCodes
  ∧ (∀ e ∈ st.priceEvents, e.isVerification = false)
  ∧ (∀ o ∈ st.orders, o.skipPriceCheck = true)

/-! ## Claim-side (spec) definitions for refinement claims -/

/-- The history-entry filter as the claim words it (claim C8): keep entries
for the notified datacenter whose change type is "available"; when a
configuration display is present, skip entries whose configuration display
differs (an entry carrying no configuration has no display that could
differ). -/
def specMatches (dc : String) (cfgDisplay : Option String)
    (e : HistoryEntry) : Bool :=
  decide (e.datacenter = dc) && decide (e.changeType = "available") &&
  (match cfgDisplay with
   | some d =>
       (match e.config with
        | some c => decide (c.display = d)
        | none => true)
   | none => true)

/-- The elapsed-availability duration as the claim words it (claim C8):
scan the history from newest to oldest, stop at the first remaining match,
report `now - T0` clamped to be non-negative; no match means no
duration. -/
def specDurationReport (history : List HistoryEntry) (dc : String)
    (cfgDisplay : Option String) (now : Int) : Option Int :=
  match history.reverse.find? (specMatches dc cfgDisplay) with
  | some e => some (max 0 (now - e.timestamp))
  | none => none


/-! ## JSON values, their compact encoding, and `json.loads`
(`telegram_utils.py:7-16` parses callback data with `json.loads`; the
callback payload is the JSON encoding of a value). -/

mutual

/-- A JSON-serializable value: the data model of Python's `json` module
(`None`/bool/int/str/list/dict with string keys). -/
inductive Json where
  | null : Json
  | bool (b : Bool) : Json
  | num (i : Int) : Json
  | str (s : List Char) : Json
  | arr (xs : JsonList) : Json
  | obj (fs : JsonFields) : Json

/-- A list of JSON values (kept mutual for structural recursion). -/
inductive JsonList where
  | nil : JsonList
  | cons (hd : Json) (tl : JsonList) : JsonList

/-- The ordered key/value pairs of a JSON object. -/
inductive JsonFields where
  | nil : JsonFields
  | cons (k : List Char) (v : Json) (tl : JsonFields) : JsonFields

end

/-- Lower-case hexadecimal digit, as `json.dumps` emits in `\u00xx`. -/
def hexDigit (n : Nat) : Char :=
  if n < 10 then Char.ofNat (48 + n) else Char.ofNat (87 + n)

/-- `json.dumps` string escaping: `\"` and `\\`, the short escapes
`\b \t \n \f \r`, `\u00xx` for the remaining control characters, and
every other character unchanged. -/
def escapeChar (c : Char) : List Char :=
  if c = '"' then ['\\', '"']
  else if c = '\\' then ['\\', '\\']
  else if c = Char.ofNat 8 then ['\\', 'b']
  else if c = Char.ofNat 9 then ['\\', 't']
  else if c = Char.ofNat 10 then ['\\', 'n']
  else if c = Char.ofNat 12 then ['\\', 'f']
  else if c = Char.ofNat 13 then ['\\', 'r']
  else if c.toNat < 32 then
    ['\\', 'u', '0', '0', hexDigit (c.toNat / 16), hexDigit (c.toNat % 16)]
  else [c]

/-- A JSON string literal: quoted, characters escaped. -/
def serStr (s : List Char) : List Char :=
  '"' :: (s.flatMap escapeChar ++ ['"'])

/-- Decimal digits of a natural number, most significant first. -/
def natDigits (n : Nat) : List Char :=
  if n < 10 then [Char.ofNat (48 + n)]
  else natDigits (n / 10) ++ [Char.ofNat (48 + n % 10)]
  termination_by n
  decreasing_by exact Nat.div_lt_self (by omega) (by omega)

/-- `repr` of a Python int: optional minus sign, then decimal digits. -/
def intChars (i : Int) : List Char :=
  if i < 0 then '-' :: natDigits i.natAbs else natDigits i.toNat

mutual

/-- The JSON encoding of a value, in compact form (separators `,` and
`:`, as produced by `json.dumps` with compact separators). -/
def serVal : Json → List Char
  | .null => ['n', 'u', 'l', 'l']
  | .num i => intChars i
  | .bool true => ['t', 'r', 'u', 'e']
  | .str s => serStr s
  | .bool false => ['f', 'a', 'l', 's', 'e']
  | .arr xs => ('[' :: serItems xs) ++ [']']
  | .obj fs => ('{' :: serFields fs) ++ ['}']

/-- Comma-separated encodings of the elements of an array. -/
def serItems : JsonList → List Char
  | .nil => []
  | .cons x .nil => serVal x
  | .cons x (.cons y tl) => (serVal x ++ [',']) ++ serItems (.cons y tl)

/-- Comma-separated `key:value` encodings of the members of an object. -/
def serFields : JsonFields → List Char
  | .nil => []
  | .cons k v .nil => (serStr k ++ [':']) ++ serVal v
  | .cons k v (.cons k2 v2 tl) =>
      ((serStr k ++ [':']) ++ (serVal v ++ [','])) ++
        serFields (.cons k2 v2 tl)

end

/-- Value of a hexadecimal digit character, if it is one. -/
def hexVal (c : Char) : Option Nat :=
  if 48 ≤ c.toNat ∧ c.toNat ≤ 57 then some (c.toNat - 48)
  else if 97 ≤ c.toNat ∧ c.toNat ≤ 102 then some (c.toNat - 87)
  else if 65 ≤ c.toNat ∧ c.toNat ≤ 70 then some (c.toNat - 55)
  else none

/-- Parse the body of a JSON string literal (after the opening quote) up
to and including the closing quote; return the decoded characters and
the remaining input. -/
def parseStr : List Char → Option (List Char × List Char)
  | [] => none
  | c :: rest =>
    if c = '"' then some ([], rest)
    else if c = '\\' then
      match rest with
      | [] => none
      | e :: rest2 =>
        if e = '"' then (parseStr rest2).map (fun p => ('"' :: p.1, p.2))
        else if e = '\\' then
          (parseStr rest2).map (fun p => ('\\' :: p.1, p.2))
        else if e = '/' then
          (parseStr rest2).map (fun p => ('/' :: p.1, p.2))
        else if e = 'b' then
          (parseStr rest2).map (fun p => (Char.ofNat 8 :: p.1, p.2))
        else if e = 'f' then
          (parseStr rest2).map (fun p => (Char.ofNat 12 :: p.1, p.2))
        else if e = 'n' then
          (parseStr rest2).map (fun p => (Char.ofNat 10 :: p.1, p.2))
        else if e = 'r' then
          (parseStr rest2).map (fun p => (Char.ofNat 13 :: p.1, p.2))
        else if e = 't' then
          (parseStr rest2).map (fun p => (Char.ofNat 9 :: p.1, p.2))
        else if e = 'u' then
          match rest2 with
          | h1 :: h2 :: h3 :: h4 :: rest3 =>
            match hexVal h1, hexVal h2, hexVal h3, hexVal h4 with
            | some a, some b, some c2, some d =>
              let code := ((a * 16 + b) * 16 + c2) * 16 + d
              if Nat.isValidChar code then
                (parseStr rest3).map (fun p => (Char.ofNat code :: p.1, p.2))
              else none
            | _, _, _, _ => none
          | _ => none
        else none
    else (parseStr rest).map (fun p => (c :: p.1, p.2))

/-- Longest digit prefix of the input, and the remaining input. -/
def takeDigits : List Char → List Char × List Char
  | [] => ([], [])
  | c :: rest =>
      if c.isDigit then
        let p := takeDigits rest
        (c :: p.1, p.2)
      else ([], c :: rest)

/-- Value of a string of decimal digits. -/
def digitsToNat (ds : List Char) : Nat :=
  ds.foldl (fun a c => a * 10 + (c.toNat - 48)) 0

/-- Parse a JSON integer: optional minus sign, then at least one digit. -/
def parseNumber : List Char → Option (Int × List Char)
  | [] => none
  | c :: rest =>
      if c = '-' then
        let p := takeDigits rest
        if p.1 = [] then none else some (-(digitsToNat p.1 : Int), p.2)
      else
        let p := takeDigits (c :: rest)
        if p.1 = [] then none else some ((digitsToNat p.1 : Int), p.2)

mutual

/-- Parse one JSON value (fueled; fuel bounds the nesting depth). -/
def parseVal : Nat → List Char → Option (Json × List Char)
  | 0, _ => none
  | Nat.succ fuel, l =>
    match l with
    | [] => none
    | c :: rest =>
      if c = 'n' then
        match rest with
        | 'u' :: 'l' :: 'l' :: r => some (Json.null, r)
        | _ => none
      else if c = 't' then
        match rest with
        | 'r' :: 'u' :: 'e' :: r => some (Json.bool true, r)
        | _ => none
      else if c = 'f' then
        match rest with
        | 'a' :: 'l' :: 's' :: 'e' :: r => some (Json.bool false, r)
        | _ => none
      else if c = '"' then
        (parseStr rest).map (fun p => (Json.str p.1, p.2))
      else if c = '[' then
        match rest with
        | ']' :: r => some (Json.arr JsonList.nil, r)
        | _ => (parseItems fuel rest).map (fun p => (Json.arr p.1, p.2))
      else if c = '{' then
        match rest with
        | '}' :: r => some (Json.obj JsonFields.nil, r)
        | _ => (parseFields fuel rest).map (fun p => (Json.obj p.1, p.2))
      else
        (parseNumber (c :: rest)).map (fun p => (Json.num p.1, p.2))

/-- Parse the comma-separated elements of an array, up to and including
the closing bracket. -/
def parseItems : Nat → List Char → Option (JsonList × List Char)
  | 0, _ => none
  | Nat.succ fuel, l =>
    match parseVal fuel l with
    | some (v, r) =>
      match r with
      | ',' :: r2 =>
          (parseItems fuel r2).map (fun p => (JsonList.cons v p.1, p.2))
      | ']' :: r2 => some (JsonList.cons v JsonList.nil, r2)
      | _ => none
    | none => none

/-- Parse the comma-separated members of an object, up to and including
the closing brace. -/
def parseFields : Nat → List Char → Option (JsonFields × List Char)
  | 0, _ => none
  | Nat.succ fuel, l =>
    match l with
    | '"' :: r0 =>
      match parseStr r0 with
      | some (k, r1) =>
        match r1 with
        | ':' :: r2 =>
          match parseVal fuel r2 with
          | some (v, r3) =>
            match r3 with
            | ',' :: r4 =>
                (parseFields fuel r4).map
                  (fun p => (JsonFields.cons k v p.1, p.2))
            | '}' :: r4 => some (JsonFields.cons k v JsonFields.nil, r4)
            | _ => none
          | none => none
        | _ => none
      | none => none
    | _ => none

end

/-- `json.loads`: parse one value and require the input to be consumed. -/
def parseJson (s : List Char) : Option Json :=
  match parseVal (s.length + 1) s with
  | some (v, []) => some v
  | _ => none

mutual

/-- Fuel needed by `parseVal` on the encoding of a value. -/
def sizeVal : Json → Nat
  | .null => 1
  | .bool _ => 1
  | .num _ => 1
  | .str _ => 1
  | .arr xs => sizeItems xs + 1
  | .obj fs => sizeFields fs + 1

/-- Fuel needed by `parseItems` on the encoded elements. -/
def sizeItems : JsonList → Nat
  | .nil => 0
  | .cons x tl => sizeVal x + sizeItems tl + 1

/-- Fuel needed by `parseFields` on the encoded members. -/
def sizeFields : JsonFields → Nat
  | .nil => 0
  | .cons _ v tl => sizeVal v + sizeFields tl + 1

end

/-- Whether the input does not continue with a digit (so a number just
parsed cannot swallow anything further). -/
def headNotDigit : List Char → Bool
  | [] => true
  | c :: _ => !c.isDigit

/-! ## UTF-8 (`str.encode`/`bytes.decode("utf-8")`) -/

/-- The UTF-8 bytes of one character. -/
def utf8EncodeChar (c : Char) : List Nat :=
  let n := c.toNat
  if n < 128 then [n]
  else if n < 2048 then [192 + n / 64, 128 + n % 64]
  else if n < 65536 then [224 + n / 4096, 128 + n / 64 % 64, 128 + n % 64]
  else [240 + n / 262144, 128 + n / 4096 % 64, 128 + n / 64 % 64,
        128 + n % 64]

/-- `str.encode("utf-8")`: the UTF-8 bytes of a string. -/
def utf8Encode (s : List Char) : List Nat := s.flatMap utf8EncodeChar

/-- `bytes.decode("utf-8")` (strict, fueled by the number of characters
still to decode): decode a UTF-8 byte string, rejecting malformed,
overlong, surrogate and out-of-range sequences. -/
def utf8DecodeF : Nat → List Nat → Option (List Char)
  | _, [] => some []
  | 0, _ :: _ => none
  | Nat.succ f, b0 :: rest =>
    if b0 < 128 then (utf8DecodeF f rest).map (fun cs => Char.ofNat b0 :: cs)
    else if b0 < 192 then none
    else if b0 < 224 then
      match rest with
      | b1 :: r =>
        if 128 ≤ b1 ∧ b1 < 192 then
          let n := (b0 - 192) * 64 + (b1 - 128)
          if 128 ≤ n ∧ Nat.isValidChar n then
            (utf8DecodeF f r).map (fun cs => Char.ofNat n :: cs)
          else none
        else none
      | [] => none
    else if b0 < 240 then
      match rest with
      | b1 :: b2 :: r =>
        if (128 ≤ b1 ∧ b1 < 192) ∧ (128 ≤ b2 ∧ b2 < 192) then
          let n := (b0 - 224) * 4096 + (b1 - 128) * 64 + (b2 - 128)
          if 2048 ≤ n ∧ Nat.isValidChar n then
            (utf8DecodeF f r).map (fun cs => Char.ofNat n :: cs)
          else none
        else none
      | _ => none
    else if b0 < 248 then
      match rest with
      | b1 :: b2 :: b3 :: r =>
        if (128 ≤ b1 ∧ b1 < 192) ∧ (128 ≤ b2 ∧ b2 < 192) ∧
            (128 ≤ b3 ∧ b3 < 192) then
          let n := (b0 - 240) * 262144 + (b1 - 128) * 4096 +
            (b2 - 128) * 64 + (b3 - 128)
          if 65536 ≤ n ∧ Nat.isValidChar n then
            (utf8DecodeF f r).map (fun cs => Char.ofNat n :: cs)
          else none
        else none
      | _ => none
    else none

/-- `bytes.decode("utf-8")`: the input length bounds the number of
decoded characters, so it serves as fuel. -/
def utf8Decode (bs : List Nat) : Option (List Char) :=
  utf8DecodeF bs.length bs

/-! ## Base64 (`base64.b64decode` and the standard encoding) -/

/-- The standard base64 alphabet. -/
def b64alpha : List Char :=
  ['A', 'B', 'C', 'D', 'E', 'F', 'G', 'H', 'I', 'J', 'K', 'L', 'M',
   'N', 'O', 'P', 'Q', 'R', 'S', 'T', 'U', 'V', 'W', 'X', 'Y', 'Z',
   'a', 'b', 'c', 'd', 'e', 'f', 'g', 'h', 'i', 'j', 'k', 'l', 'm',
   'n', 'o', 'p', 'q', 'r', 's', 't', 'u', 'v', 'w', 'x', 'y', 'z',
   '0', '1', '2', '3', '4', '5', '6', '7', '8', '9', '+', '/']

/-- Character for a 6-bit group. -/
def b64enc6 (n : Nat) : Char := b64alpha.getD n 'A'

/-- 6-bit value of an alphabet character, if it is one. -/
def b64dec6 (c : Char) : Option Nat := b64alpha.indexOf? c

/-- `base64.b64encode`: encode bytes in 3-byte groups, `=`-padded. -/
def b64encode : List Nat → List Char
  | [] => []
  | [a] => [b64enc6 (a / 4), b64enc6 (a % 4 * 16), '=', '=']
  | [a, b] => [b64enc6 (a / 4), b64enc6 (a % 4 * 16 + b / 16),
               b64enc6 (b % 16 * 4), '=']
  | a :: b :: c :: rest =>
      b64enc6 (a / 4) :: b64enc6 (a % 4 * 16 + b / 16) ::
        b64enc6 (b % 16 * 4 + c / 64) :: b64enc6 (c % 64) :: b64encode rest

/-- `base64.b64decode` on `=`-padded input: decode 4-character groups,
the last group possibly padded (leftover low bits ignored, as by
`binascii`). -/
def b64decode : List Char → Option (List Nat)
  | [] => some []
  | w :: x :: y :: z :: rest =>
    (match b64dec6 w, b64dec6 x with
     | some wv, some xv =>
       if y = '=' ∧ z = '=' ∧ rest = [] then
         some [wv * 4 + xv / 16]
       else
         match b64dec6 y with
         | some yv =>
           if z = '=' ∧ rest = [] then
             some [wv * 4 + xv / 16, xv % 16 * 16 + yv / 4]
           else
             match b64dec6 z with
             | some zv =>
                 (b64decode rest).map (fun bs =>
                   (wv * 4 + xv / 16) :: (xv % 16 * 16 + yv / 4) ::
                     (yv % 4 * 64 + zv) :: bs)
             | none => none
         | none => none
     | _, _ => none)
  | _ => none

/-- Strip the trailing run of `=` padding characters. -/
def stripPadding : List Char → List Char
  | [] => []
  | c :: rest =>
    match stripPadding rest with
    | [] => if c = '=' then [] else [c]
    | r => c :: r

/-- The base64 encoding before padding is appended: what `stripPadding`
recovers from `b64encode`. -/
def b64encodeRaw : List Nat → List Char
  | [] => []
  | [a] => [b64enc6 (a / 4), b64enc6 (a % 4 * 16)]
  | [a, b] => [b64enc6 (a / 4), b64enc6 (a % 4 * 16 + b / 16),
               b64enc6 (b % 16 * 4)]
  | a :: b :: c :: rest =>
      b64enc6 (a / 4) :: b64enc6 (a % 4 * 16 + b / 16) ::
        b64enc6 (b % 16 * 4 + c / 64) :: b64enc6 (c % 64) ::
          b64encodeRaw rest

/-! ## `parse_callback_data` (`telegram_utils.py:7-16`) -/

/-- The re-padding of `telegram_utils.py:10-13`: append `=` until the
length is a multiple of 4. -/
def padTo4 (p : List Char) : List Char :=
  let m := p.length % 4
  if m ≠ 0 then p ++ List.replicate (4 - m) '=' else p

/-- A callback query as read by `parse_callback_data`: only its `data`
field matters (`callback_query.get("data", "")`). -/
structure CallbackQuery where
  data : Option String

/-- `parse_callback_data` (`telegram_utils.py:7-16`): take the `data`
field (default `""`); if it starts with `"b64:"`, strip that prefix,
re-pad to a multiple of 4, base64-decode, UTF-8-decode and JSON-parse;
otherwise JSON-parse the field directly. -/
def parseCallbackData (q : CallbackQuery) : Option Json :=
  let s := (q.data.getD "").data
  if ['b', '6', '4', ':'].isPrefixOf s then
    let p := s.drop 4
    match b64decode (padTo4 p) with
    | some bytes =>
      match utf8Decode bytes with
      | some d => parseJson d
      | none => none
    | none => none
  else parseJson s

/-! ## Association-list lemmas -/

theorem lookupA_eq_none {β : Type} (m : List (String × β)) (k : String)
    (h : ∀ p ∈ m, p.1 ≠ k) : lookupA m k = none := by
  induction m with
  | nil => rfl
  | cons p rest ih =>
      simp only [lookupA]
      rw [if_neg (h p (by simp))]
      exact ih (fun q hq => h q (by simp [hq]))

theorem lookupA_setKeyA_self {β : Type} (m : List (String × β)) (k : String)
    (v : β) : lookupA (setKeyA m k v) k = some v := by
  induction m with
  | nil => simp [setKeyA, lookupA]
  | cons q rest ih =>
      simp only [setKeyA]
      by_cases hq : q.1 = k
      · rw [if_pos hq]; simp [lookupA]
      · rw [if_neg hq]
        simp only [lookupA]
        rw [if_neg hq]
        exact ih

theorem lookupA_setKeyA_ne {β : Type} (m : List (String × β)) (k k' : String)
    (v : β) (hne : k ≠ k') : lookupA (setKeyA m k v) k' = lookupA m k' := by
  induction m with
  | nil =>
      simp only [setKeyA, lookupA]
      rw [if_neg hne]
  | cons q rest ih =>
      simp only [setKeyA]
      by_cases hq : q.1 = k
      · rw [if_pos hq]
        simp only [lookupA]
        rw [if_neg hne, if_neg (by rw [hq]; exact hne)]
      · rw [if_neg hq]
        simp only [lookupA]
        by_cases hq' : q.1 = k'
        · rw [if_pos hq', if_pos hq']
        · rw [if_neg hq', if_neg hq']
          exact ih

theorem setKeyA_id {β : Type} (m : List (String × β)) (k : String) (v : β)
    (h : lookupA m k = some v) : setKeyA m k v = m := by
  induction m with
  | nil => simp [lookupA] at h
  | cons q rest ih =>
      simp only [setKeyA]
      by_cases hq : q.1 = k
      · rw [if_pos hq]
        simp only [lookupA, if_pos hq, Option.some.injEq] at h
        rw [← hq, ← h]
      · rw [if_neg hq]
        simp only [lookupA, if_neg hq] at h
        rw [ih h]

theorem lookupA_foldSet_notmem (ps : List (String × String))
    (m : List (String × String)) (k : String) (h : ∀ q ∈ ps, q.1 ≠ k) :
    lookupA (ps.foldl (fun acc q => setKeyA acc q.1 q.2) m) k = lookupA m k := by
  induction ps generalizing m with
  | nil => rfl
  | cons q rest ih =>
      simp only [List.foldl_cons]
      rw [ih _ (fun p hp => h p (by simp [hp]))]
      exact lookupA_setKeyA_ne m q.1 k q.2 (h q (by simp))

theorem lookupA_foldSet_mem (ps : List (String × String))
    (m : List (String × String)) (k : String) (v : String)
    (hnd : (ps.map (fun p => p.1)).Nodup) (hmem : (k, v) ∈ ps) :
    lookupA (ps.foldl (fun acc q => setKeyA acc q.1 q.2) m) k = some v := by
  induction ps generalizing m with
  | nil => exact absurd hmem (List.not_mem_nil _)
  | cons q rest ih =>
      simp only [List.foldl_cons]
      simp only [List.map_cons, List.nodup_cons] at hnd
      rcases List.mem_cons.mp hmem with he | hm
      · rw [← he]
        rw [lookupA_foldSet_notmem rest _ k]
        · exact lookupA_setKeyA_self m k v
        · intro p hp hpk
          rw [← he] at hnd
          exact hnd.1 (List.mem_map.mpr ⟨p, hp, hpk⟩)
      · exact ih _ hnd.2 hm

theorem foldSet_id (ps : List (String × String)) (m : List (String × String))
    (h : ∀ q ∈ ps, lookupA m q.1 = some q.2) :
    ps.foldl (fun acc q => setKeyA acc q.1 q.2) m = m := by
  induction ps with
  | nil => rfl
  | cons q rest ih =>
      simp only [List.foldl_cons]
      rw [setKeyA_id m q.1 q.2 (h q (by simp))]
      exact ih (fun p hp => h p (by simp [hp]))

theorem bulkMerge_lookup_mem (snap : Snapshot) (m : List (String × String))
    (k v : String) (hnd : (statusKeys snap).Nodup)
    (hmem : (k, v) ∈ snapStatusPairs snap) :
    lookupA (bulkMerge m snap) k = some v :=
  lookupA_foldSet_mem _ m k v hnd hmem

theorem bulkMerge_id (snap : Snapshot) (m : List (String × String))
    (h : ∀ q ∈ snapStatusPairs snap, lookupA m q.1 = some q.2) :
    bulkMerge m snap = m :=
  foldSet_id _ m h

/-! ## History bound (claim C7) -/

theorem truncateHistory_length (l : List HistoryEntry) :
    (truncateHistory l).length = min l.length 100 := by
  unfold truncateHistory
  split
  · rw [List.length_drop]; omega
  · omega

theorem truncateHistory_le (l : List HistoryEntry) :
    (truncateHistory l).length ≤ 100 := by
  rw [truncateHistory_length]; omega

theorem processResult_history_le (api : PriceApi) (oapi : OrderApi) (now : Int)
    (st : RunState) (r : ConfigResult) :
    ((processResult api oapi now st r).sub.history).length ≤ 100 := by
  unfold processResult
  exact truncateHistory_le _

theorem legacyApply_history (api : PriceApi) (now : Int) (st : RunState)
    (dc status : String) :
    (legacyApply api now st dc status).sub.history = st.sub.history ∨
      ((legacyApply api now st dc status).sub.history).length ≤ 100 := by
  simp only [legacyApply]
  split
  · exact Or.inl rfl
  · split
    · exact Or.inl rfl
    · exact Or.inr (truncateHistory_le _)

theorem loop1Step_history (api : PriceApi) (now : Int) (st : Loop1State)
    (e : String × ConfigData) :
    (loop1Step api now st e).run.sub.history = st.run.sub.history ∨
      ((loop1Step api now st e).run.sub.history).length ≤ 100 := by
  unfold loop1Step
  match e with
  | (ck, ConfigData.flat status) => exact legacyApply_history api now st.run ck status
  | (ck, ConfigData.configured memory storage options dcs) => exact Or.inl rfl

theorem loop1_fold_history_le (api : PriceApi) (now : Int) (snap : Snapshot)
    (st : Loop1State) (h : (st.run.sub.history).length ≤ 100) :
    (((snap.foldl (loop1Step api now) st).run.sub.history)).length ≤ 100 := by
  induction snap generalizing st with
  | nil => exact h
  | cons e rest ih =>
      simp only [List.foldl_cons]
      apply ih
      rcases loop1Step_history api now st e with he | hle
      · rw [he]; exact h
      · exact hle

theorem runPriceTasks_fold_sub (api : PriceApi) (now : Int) (planCode : String)
    (rs : List ConfigResult) (acc : List ConfigResult × RunState) :
    ((rs.foldl (priceTaskStep api now planCode) acc).2).sub = acc.2.sub := by
  induction rs generalizing acc with
  | nil => rfl
  | cons r rest ih =>
      simp only [List.foldl_cons]
      rw [ih]
      unfold priceTaskStep
      match hr : r.pendingDc with
      | some fdc => rfl
      | none => rfl

theorem runPriceTasks_sub (api : PriceApi) (now : Int) (planCode : String)
    (st : List ConfigResult × RunState) :
    ((runPriceTasks api now planCode st).2).sub = st.2.sub := by
  unfold runPriceTasks
  exact runPriceTasks_fold_sub api now planCode st.1 ([], st.2)

theorem loop3_fold_history_le (api : PriceApi) (oapi : OrderApi) (now : Int)
    (rs : List ConfigResult) (st : RunState)
    (h : (st.sub.history).length ≤ 100) :
    (((rs.foldl (processResult api oapi now) st)).sub.history).length ≤ 100 := by
  induction rs generalizing st with
  | nil => exact h
  | cons r rest ih =>
      simp only [List.foldl_cons]
      exact ih _ (processResult_history_le api oapi now st r)

theorem runLoops_history_le (api : PriceApi) (oapi : OrderApi)
    (sub : Subscription) (mon : MonState) (snap : Snapshot) (now : Int)
    (h : sub.history.length ≤ 100) :
    ((runLoops api oapi sub mon snap now).sub.history).length ≤ 100 := by
  unfold runLoops
  apply loop3_fold_history_le
  unfold taskedRun
  rw [runPriceTasks_sub]
  unfold loop1Run
  exact loop1_fold_history_le api now snap _ h

/-- Counterexample to claim C7 as stated: a completed change check on a
subscription whose (restored) history holds 101 entries leaves all 101
entries in place when the snapshot is legacy-flat and produces no
notification — no truncation site runs, so the history exceeds 100 after
the check. -/
theorem C7_counterexample :
    ((checkAvailabilityChange failApi failOrderApi c7Sub ⟨[], []⟩
      [("gra", ConfigData.flat "unavailable")] 100).sub.history).length = 101 := by
  rfl

/-- C7 (amended): after a completed change check on a subscription whose
history held at most 100 entries beforehand, the history again has at most
100 entries; and the truncation operation applied after appends keeps
exactly the most recent 100 entries — appending a 101st entry to a
100-entry history leaves exactly 100 entries with the oldest one
dropped. -/
theorem C7_history_bound :
    (∀ (api : PriceApi) (oapi : OrderApi) (sub : Subscription) (mon : MonState)
        (snap : Snapshot) (now : Int), sub.history.length ≤ 100 →
      ((checkAvailabilityChange api oapi sub mon snap now).sub.history).length ≤ 100)
    ∧ (∀ (h : List HistoryEntry) (e : HistoryEntry), h.length = 100 →
        truncateHistory (h ++ [e]) = h.drop 1 ++ [e]
        ∧ (truncateHistory (h ++ [e])).length = 100) := by
  constructor
  · intro api oapi sub mon snap now h
    unfold checkAvailabilityChange
    split
    · exact h
    · exact runLoops_history_le api oapi sub mon snap now h
  · intro h e hlen
    constructor
    · unfold truncateHistory
      rw [if_pos (by simp [hlen])]
      simp only [List.length_append, hlen, List.length_singleton]
      rw [List.drop_append_of_le_length (by omega)]
    · rw [truncateHistory_length]
      simp [hlen]

/-- Witness for C7_history_bound at a concrete input. -/
theorem C7_history_bound_witness :
    ((checkAvailabilityChange failApi failOrderApi
      ⟨"ks1", [], true, false, false, 0, none, [], [], 0⟩ ⟨[], []⟩
      [("gra", ConfigData.flat "available")] 100).sub.history).length ≤ 100 :=
  C7_history_bound.1 failApi failOrderApi _ _ _ 100 (by simp)

/-! ## First-seen policy (claim C3) -/

/-- Claim C3 is violated by the legacy flat path: for a first-seen
"unavailable" status under a subscription with notify-on-unavailable
disabled (and notify-on-available enabled), `_check_and_notify_change`
emits one notification classified "available" — the `notifyAvailable` test
at `server_monitor.py:708` is indented outside the `else` branch of the
first-seen case and fires for every first observed value.  This theorem
evaluates the embedded code at that failing input. -/
theorem C3_first_seen_legacy_bug :
    (checkAvailabilityChange failApi failOrderApi
      ⟨"ks1", [], true, false, false, 0, none, [], [], 0⟩ ⟨[], []⟩
      [("gra", ConfigData.flat "unavailable")] 100).notifs =
    [⟨"ks1", false, [⟨"gra", "unavailable", none, "gra", "available"⟩],
      none, none, none⟩] := by
  rfl

/-! ## Optimistic status pin (claim C4) -/

theorem pinStatus_lookup_notmem (avail : List NotifRec)
    (m : List (String × String)) (k : String)
    (h : ∀ n ∈ avail, n.statusKey ≠ k) :
    lookupA (pinStatus m avail) k = lookupA m k := by
  induction avail generalizing m with
  | nil => rfl
  | cons n rest ih =>
      simp only [pinStatus, List.foldl_cons] at *
      rw [ih _ (fun p hp => h p (by simp [hp]))]
      split
      · split
        · exact lookupA_setKeyA_ne m n.statusKey k n.status (h n (by simp))
        · rfl
      · rfl

theorem pinStatus_lookup_mem (avail : List NotifRec)
    (m : List (String × String)) (n : NotifRec)
    (hnd : (avail.map (fun q => q.statusKey)).Nodup) (hn : n ∈ avail)
    (h1 : n.statusKey ≠ "") (h2 : n.status ≠ "") (h3 : n.status ≠ "unavailable") :
    lookupA (pinStatus m avail) n.statusKey = some n.status := by
  induction avail generalizing m with
  | nil => exact absurd hn (List.not_mem_nil n)
  | cons q rest ih =>
      simp only [List.map_cons, List.nodup_cons] at hnd
      rcases List.mem_cons.mp hn with he | hm
      · rw [← he] at hnd ⊢
        simp only [pinStatus, List.foldl_cons]
        rw [if_pos h1, if_pos ⟨h2, h3⟩]
        have hother : ∀ p ∈ rest, p.statusKey ≠ n.statusKey := by
          intro p hp hpk
          exact hnd.1 (List.mem_map.mpr ⟨p, hp, hpk⟩)
        calc lookupA (rest.foldl _ (setKeyA m n.statusKey n.status)) n.statusKey
            = lookupA (pinStatus (setKeyA m n.statusKey n.status) rest) n.statusKey := rfl
          _ = lookupA (setKeyA m n.statusKey n.status) n.statusKey :=
              pinStatus_lookup_notmem rest _ _ hother
          _ = some n.status := lookupA_setKeyA_self m n.statusKey n.status
      · simp only [pinStatus, List.foldl_cons]
        exact ih _ hnd.2 hm

theorem classifyTransition_same (nA nU : Bool) (s : String) :
    classifyTransition nA nU s s = none := by
  unfold classifyTransition
  by_cases hs : s = "unavailable"
  · simp [hs]
  · simp [hs]

/-- Counterexample to claim C4 as stated: for the available-classified
group containing the empty-string status, the order batch is submitted
(one order request), yet during per-key processing `lastStatus` is *not*
set for that group's status key — the pin at `server_monitor.py:494`
requires a truthy status.  (The key is only written later by the bulk
merge.) -/
theorem C4_counterexample :
    ((runLoops failApi failOrderApi c4Sub ⟨[], []⟩ c4Snap 100).orders).length = 1
    ∧ lookupA (runLoops failApi failOrderApi c4Sub ⟨[], []⟩ c4Snap 100).sub.lastStatus
        "gra|ck" = none := by
  exact ⟨rfl, rfl⟩

/-- C4 (amended): immediately after the order batch is submitted and
before any responses are collected, `lastStatus[k]` is set to the observed
status for every status key `k` of the group whose observed status is
non-empty (an empty-string status is skipped by the pin and deferred to
the end-of-cycle bulk merge); the submission outcomes do not influence the
pinned state or the submitted batch; and a key whose old status equals its
new status fires no further transition. -/
theorem C4_optimistic_pin (api : PriceApi) (oapi oapi2 : OrderApi)
    (st : RunState) (r : ConfigResult) (avail : List NotifRec)
    (hnd : (avail.map (fun q => q.statusKey)).Nodup) :
    (∀ n ∈ avail, n.statusKey ≠ "" → n.status ≠ "" → n.status ≠ "unavailable" →
      lookupA (autoOrderApply api oapi st r avail).sub.lastStatus n.statusKey
        = some n.status)
    ∧ (autoOrderApply api oapi st r avail).sub.lastStatus
        = (autoOrderApply api oapi2 st r avail).sub.lastStatus
    ∧ (autoOrderApply api oapi st r avail).orders
        = (autoOrderApply api oapi2 st r avail).orders
    ∧ (∀ (nA nU : Bool) (s : String), classifyTransition nA nU s s = none) := by
  refine ⟨?_, rfl, rfl, classifyTransition_same⟩
  intro n hn h1 h2 h3
  exact pinStatus_lookup_mem avail st.sub.lastStatus n hnd hn h1 h2 h3

/-- Witness for C4_optimistic_pin at a concrete input. -/
theorem C4_optimistic_pin_witness :
    lookupA (autoOrderApply failApi failOrderApi
      ⟨c4Sub, ⟨[], []⟩, [], [], [], []⟩ ⟨"ck", ⟨"m", "s", "m + s", []⟩, [], none, none⟩
      [⟨"gra", "available", none, "gra|ck", "available"⟩]).sub.lastStatus "gra|ck"
      = some "available" :=
  (C4_optimistic_pin failApi failOrderApi failOrderApi _ _ _ (by simp)).1
    ⟨"gra", "available", none, "gra|ck", "available"⟩ (by simp)
    (by simp) (by simp) (by simp)

/-! ## Duplicate `add_subscription` (claim C9) -/

theorem updateFirstMatch_decompose (pre post : List Subscription)
    (s : Subscription) (f : Subscription → Subscription)
    (hfirst : ∀ t ∈ pre, t.planCode ≠ s.planCode) :
    updateFirstMatch (pre ++ s :: post) s.planCode f = pre ++ f s :: post := by
  induction pre with
  | nil =>
      simp [updateFirstMatch]
  | cons t rest ih =>
      simp only [List.cons_append, updateFirstMatch]
      rw [if_neg (hfirst t (by simp))]
      exact congrArg (fun l => t :: l) (ih (fun u hu => hfirst u (by simp [hu])))

/-- C9: calling `add_subscription` with a plan code already in the store
updates only the datacenter filter, the two notify flags, `autoOrder`,
`autoOrderQuantity` and `serverName` of the (first) existing entry; the
existing `lastStatus`, `history` and `createdAt` are untouched and the
`last_status`/`history` arguments are ignored (the result does not depend
on them); no entry is added, the plan-code list is unchanged, and
plan-code uniqueness is preserved. -/
theorem C9_duplicate_add_subscription (pre post : List Subscription)
    (s : Subscription) (dcs : List String) (nA nU : Bool)
    (sn : Option String) (ls : Option (List (String × String)))
    (hist : Option (List HistoryEntry)) (ao : Bool) (q now : Int)
    (hfirst : ∀ t ∈ pre, t.planCode ≠ s.planCode) :
    addSubscription (pre ++ s :: post) s.planCode dcs nA nU sn ls hist ao q now
      = pre ++ updateExisting dcs nA nU sn ao q s :: post
    ∧ (updateExisting dcs nA nU sn ao q s).lastStatus = s.lastStatus
    ∧ (updateExisting dcs nA nU sn ao q s).history = s.history
    ∧ (updateExisting dcs nA nU sn ao q s).createdAt = s.createdAt
    ∧ (updateExisting dcs nA nU sn ao q s).planCode = s.planCode
    ∧ (addSubscription (pre ++ s :: post) s.planCode dcs nA nU sn ls hist ao q now).length
        = (pre ++ s :: post).length
    ∧ (addSubscription (pre ++ s :: post) s.planCode dcs nA nU sn ls hist ao q now).map
        (fun t => t.planCode) = (pre ++ s :: post).map (fun t => t.planCode) := by
  have hanya : (pre ++ s :: post).any (fun t => t.planCode = s.planCode) = true := by
    rw [List.any_eq_true]
    exact ⟨s, by simp, by simp⟩
  have hmain : addSubscription (pre ++ s :: post) s.planCode dcs nA nU sn ls hist ao q now
      = pre ++ updateExisting dcs nA nU sn ao q s :: post := by
    unfold addSubscription
    rw [if_pos hanya]
    exact updateFirstMatch_decompose pre post s _ hfirst
  refine ⟨hmain, rfl, rfl, rfl, rfl, ?_, ?_⟩
  · rw [hmain]; simp
  · rw [hmain]; simp [updateExisting]

/-- Witness for C9 at a concrete input: the duplicate add updates flags
only, keeps `lastStatus`/`history`, and preserves the store shape. -/
theorem C9_duplicate_add_subscription_witness :
    addSubscription [⟨"ks1", [], true, false, false, 0, none,
        [("gra", "available")], [⟨5, "gra", "available", "available", none, none⟩], 7⟩]
      "ks1" ["gra"] false true (some "name") (some [("x", "y")]) (some []) true 3 99
      = [⟨"ks1", ["gra"], false, true, true, 3, some "name",
          [("gra", "available")], [⟨5, "gra", "available", "available", none, none⟩], 7⟩] :=
  (C9_duplicate_add_subscription [] []
    ⟨"ks1", [], true, false, false, 0, none, [("gra", "available")],
      [⟨5, "gra", "available", "available", none, none⟩], 7⟩
    ["gra"] false true (some "name") (some [("x", "y")]) (some []) true 3 99
    (by simp)).1

/-! ## Price-cache TTL (claim C6) -/

theorem getCachedPrice_hit (mon : MonState) (plan : String)
    (opts : List String) (now : Int) (e : PriceEntry)
    (hl : lookupA mon.priceCache (priceCacheKey plan opts) = some e)
    (ha : now - e.timestamp < priceCacheTtl) :
    getCachedPrice mon plan opts now = (some e.price, mon) := by
  simp [getCachedPrice, hl, ha]

theorem getCachedPrice_expired (mon : MonState) (plan : String)
    (opts : List String) (now : Int) (e : PriceEntry)
    (hl : lookupA mon.priceCache (priceCacheKey plan opts) = some e)
    (ha : priceCacheTtl ≤ now - e.timestamp) :
    getCachedPrice mon plan opts now =
      (none, { mon with priceCache := removeA mon.priceCache (priceCacheKey plan opts) }) := by
  have hna : ¬ now - e.timestamp < priceCacheTtl := by omega
  simp [getCachedPrice, hl, hna]

theorem getCachedPrice_none (mon : MonState) (plan : String)
    (opts : List String) (now : Int)
    (hl : lookupA mon.priceCache (priceCacheKey plan opts) = none) :
    getCachedPrice mon plan opts now = (none, mon) := by
  simp [getCachedPrice, hl]

/-- C6: (i) the cache read returns the cached quote exactly when an entry
exists whose age is strictly below the 3-day TTL; (ii) an entry at or past
the TTL is deleted on read and reported as a miss; (iii) while an
unexpired (non-empty) entry exists for the extracted options,
`_get_price_info` returns it with no external lookup and no state change;
(iv) every quote the code stores is non-empty, so (iii)'s non-emptiness
hypothesis covers all entries the code itself writes. -/
theorem C6_price_cache_ttl :
    (∀ (mon : MonState) (plan : String) (opts : List String) (now : Int)
        (p : String),
      (getCachedPrice mon plan opts now).1 = some p ↔
        ∃ e, lookupA mon.priceCache (priceCacheKey plan opts) = some e ∧
          now - e.timestamp < priceCacheTtl ∧ p = e.price)
    ∧ (∀ (mon : MonState) (plan : String) (opts : List String) (now : Int)
        (e : PriceEntry),
        lookupA mon.priceCache (priceCacheKey plan opts) = some e →
        priceCacheTtl ≤ now - e.timestamp →
        (getCachedPrice mon plan opts now).1 = none ∧
        (getCachedPrice mon plan opts now).2.priceCache
          = removeA mon.priceCache (priceCacheKey plan opts))
    ∧ (∀ (api : PriceApi) (mon : MonState) (plan dc : String)
        (cfg : Option ConfigInfo) (now : Int) (e : PriceEntry),
        lookupA mon.priceCache (priceCacheKey plan (priceInfoOptions cfg)) = some e →
        now - e.timestamp < priceCacheTtl → e.price ≠ "" →
        getPriceInfo api mon plan dc cfg now = (some e.price, mon, none))
    ∧ (∀ (c : String) (wt : Int), formatPrice c wt ≠ "") := by
  refine ⟨?_, ?_, ?_, ?_⟩
  · intro mon plan opts now p
    match hl : lookupA mon.priceCache (priceCacheKey plan opts) with
    | some e =>
        by_cases ha : now - e.timestamp < priceCacheTtl
        · rw [getCachedPrice_hit mon plan opts now e hl ha]
          constructor
          · intro hp
            simp only [Option.some.injEq] at hp
            exact ⟨e, rfl, ha, hp.symm⟩
          · rintro ⟨e', he', ha', hpe⟩
            simp only [Option.some.injEq] at he'
            simp [hpe, he']
        · rw [getCachedPrice_expired mon plan opts now e hl (by omega)]
          constructor
          · intro hp; exact absurd hp (by simp)
          · rintro ⟨e', he', ha', hpe⟩
            simp only [Option.some.injEq] at he'
            rw [← he'] at ha'
            exact absurd ha' ha
    | none =>
        rw [getCachedPrice_none mon plan opts now hl]
        simp
  · intro mon plan opts now e hl ha
    rw [getCachedPrice_expired mon plan opts now e hl ha]
    exact ⟨rfl, rfl⟩
  · intro api mon plan dc cfg now e hl ha hp
    simp only [getPriceInfo]
    rw [getCachedPrice_hit mon plan (priceInfoOptions cfg) now e hl ha]
    simp [hp]
  · intro c wt h
    have hl : (formatPrice c wt).length = 0 := by rw [h]; rfl
    unfold formatPrice at hl
    rw [String.length_append, String.length_append] at hl
    have h2 : ("/月" : String).length = 2 := rfl
    omega

/-- Witness for C6 at a concrete input: an unexpired cache entry is
returned by `_get_price_info` with no external lookup. -/
theorem C6_price_cache_ttl_witness :
    getPriceInfo failApi ⟨[("ks1|", ⟨"€5/月", 50⟩)], []⟩ "ks1" "gra" none 100
      = (some "€5/月", ⟨[("ks1|", ⟨"€5/月", 50⟩)], []⟩, none) :=
  C6_price_cache_ttl.2.2.1 failApi ⟨[("ks1|", ⟨"€5/月", 50⟩)], []⟩ "ks1" "gra"
    none 100 ⟨"€5/月", 50⟩ (by rfl) (by decide) (by decide)

/-! ## Idempotent merge (claim C1) -/

theorem legacyApply_noop (api : PriceApi) (now : Int) (st : RunState)
    (dc status : String)
    (h : lookupA st.sub.lastStatus dc = some status) :
    legacyApply api now st dc status = st := by
  simp only [legacyApply, h, classifyTransition_same, ite_self]

theorem collectNotifsStep_noop (sub : Subscription) (ck : String)
    (acc : List NotifRec) (p : String × String)
    (h : lookupA sub.lastStatus (p.1 ++ "|" ++ ck) = some p.2) :
    collectNotifsStep sub ck acc p = acc := by
  simp only [collectNotifsStep, h, classifyTransition_same]
  split
  · rfl
  · simp

theorem collectNotifs_fold_noop (sub : Subscription) (ck : String)
    (dcs : List (String × String)) (acc : List NotifRec)
    (h : ∀ p ∈ dcs, lookupA sub.lastStatus (p.1 ++ "|" ++ ck) = some p.2) :
    dcs.foldl (collectNotifsStep sub ck) acc = acc := by
  induction dcs generalizing acc with
  | nil => rfl
  | cons p rest ih =>
      simp only [List.foldl_cons]
      rw [collectNotifsStep_noop sub ck acc p (h p (by simp))]
      exact ih _ (fun q hq => h q (by simp [hq]))

theorem collectNotifs_noop (sub : Subscription) (ck : String)
    (dcs : List (String × String))
    (h : ∀ p ∈ dcs, lookupA sub.lastStatus (p.1 ++ "|" ++ ck) = some p.2) :
    collectNotifs sub ck dcs = [] :=
  collectNotifs_fold_noop sub ck dcs [] h

theorem loop1Step_noop_configured (api : PriceApi) (now : Int)
    (st : Loop1State) (ck memory storage : String) (options : List String)
    (dcs : List (String × String))
    (h : collectNotifs st.run.sub ck dcs = []) :
    loop1Step api now st (ck, ConfigData.configured memory storage options dcs)
      = ⟨st.run, st.results ++
          [⟨ck, ⟨memory, storage, memory ++ " + " ++ storage, options⟩, [], none, none⟩]⟩ := by
  simp only [loop1Step, h]
  rfl

theorem loop1_fold_noop (api : PriceApi) (now : Int) (snap : Snapshot)
    (st : Loop1State)
    (h : ∀ q ∈ snapStatusPairs snap, lookupA st.run.sub.lastStatus q.1 = some q.2) :
    (snap.foldl (loop1Step api now) st).run = st.run ∧
    ∀ r ∈ (snap.foldl (loop1Step api now) st).results,
      r ∈ st.results ∨ (r.notifs = [] ∧ r.pendingDc = none) := by
  induction snap generalizing st with
  | nil => exact ⟨rfl, fun r hr => Or.inl hr⟩
  | cons e rest ih =>
      simp only [List.foldl_cons]
      match e with
      | (ck, ConfigData.flat status) =>
          have hq : (ck, status) ∈ snapStatusPairs ((ck, ConfigData.flat status) :: rest) := by
            simp [snapStatusPairs]
          have hstep : loop1Step api now st (ck, ConfigData.flat status) = st := by
            simp only [loop1Step]
            have := legacyApply_noop api now st.run ck status (h _ hq)
            rw [this]
          rw [hstep]
          apply ih
          intro q hqr
          apply h
          simp only [snapStatusPairs, List.flatMap_cons]
          exact List.mem_append.mpr (Or.inr hqr)
      | (ck, ConfigData.configured memory storage options dcs) =>
          have hns : collectNotifs st.run.sub ck dcs = [] := by
            apply collectNotifs_noop
            intro p hp
            refine h (p.1 ++ "|" ++ ck, p.2) ?_
            simp only [snapStatusPairs, List.flatMap_cons, List.mem_append]
            exact Or.inl (List.mem_map.mpr ⟨p, hp, rfl⟩)
          rw [loop1Step_noop_configured api now st ck memory storage options dcs hns]
          set st' : Loop1State := ⟨st.run, st.results ++
            [⟨ck, ⟨memory, storage, memory ++ " + " ++ storage, options⟩, [], none, none⟩]⟩ with hst'
          have hrest : ∀ q ∈ snapStatusPairs rest,
              lookupA st'.run.sub.lastStatus q.1 = some q.2 := by
            intro q hqr
            apply h
            simp only [snapStatusPairs, List.flatMap_cons]
            exact List.mem_append.mpr (Or.inr hqr)
          obtain ⟨h1, h2⟩ := ih st' hrest
          refine ⟨h1, ?_⟩
          intro r hr
          rcases h2 r hr with hmem | hempty
          · rw [hst'] at hmem
            simp only [List.mem_append] at hmem
            rcases hmem with hmem | hmem
            · exact Or.inl hmem
            · simp only [List.mem_singleton] at hmem
              rw [hmem]
              exact Or.inr ⟨rfl, rfl⟩
          · exact Or.inr hempty

theorem runPriceTasks_fold_noop (api : PriceApi) (now : Int) (planCode : String)
    (rs : List ConfigResult) (acc : List ConfigResult × RunState)
    (h : ∀ r ∈ rs, r.pendingDc = none) :
    rs.foldl (priceTaskStep api now planCode) acc = (acc.1 ++ rs, acc.2) := by
  induction rs generalizing acc with
  | nil => simp
  | cons r rest ih =>
      simp only [List.foldl_cons]
      have hstep : priceTaskStep api now planCode acc r = (acc.1 ++ [r], acc.2) := by
        unfold priceTaskStep
        rw [h r (by simp)]
      rw [hstep, ih _ (fun q hq => h q (by simp [hq]))]
      simp

theorem processResult_noop (api : PriceApi) (oapi : OrderApi) (now : Int)
    (st : RunState) (r : ConfigResult) (h : r.notifs = []) :
    processResult api oapi now st r =
      { st with sub := { st.sub with history := truncateHistory st.sub.history } } := by
  simp [processResult, h]

theorem loop3_fold_noop (api : PriceApi) (oapi : OrderApi) (now : Int)
    (rs : List ConfigResult) (st : RunState) (h : ∀ r ∈ rs, r.notifs = []) :
    ((rs.foldl (processResult api oapi now) st).sub.lastStatus = st.sub.lastStatus)
    ∧ ((rs.foldl (processResult api oapi now) st).notifs = st.notifs)
    ∧ ((rs.foldl (processResult api oapi now) st).orders = st.orders) := by
  induction rs generalizing st with
  | nil => exact ⟨rfl, rfl, rfl⟩
  | cons r rest ih =>
      simp only [List.foldl_cons]
      rw [processResult_noop api oapi now st r (h r (by simp))]
      obtain ⟨h1, h2, h3⟩ := ih { st with sub := { st.sub with history := truncateHistory st.sub.history } }
        (fun q hq => h q (by simp [hq]))
      exact ⟨h1, h2, h3⟩

theorem runLoops_noop (api : PriceApi) (oapi : OrderApi) (sub : Subscription)
    (mon : MonState) (snap : Snapshot) (now : Int)
    (h : ∀ q ∈ snapStatusPairs snap, lookupA sub.lastStatus q.1 = some q.2) :
    ((runLoops api oapi sub mon snap now).sub.lastStatus = sub.lastStatus)
    ∧ ((runLoops api oapi sub mon snap now).notifs = [])
    ∧ ((runLoops api oapi sub mon snap now).orders = []) := by
  obtain ⟨h1, h2⟩ := loop1_fold_noop api now snap ⟨⟨sub, mon, [], [], [], []⟩, []⟩ h
  have hpend : ∀ r ∈ (loop1Run api sub mon snap now).results, r.pendingDc = none := by
    intro r hr
    rcases h2 r hr with hmem | he
    · exact absurd hmem (List.not_mem_nil r)
    · exact he.2
  have hnempty : ∀ r ∈ (loop1Run api sub mon snap now).results, r.notifs = [] := by
    intro r hr
    rcases h2 r hr with hmem | he
    · exact absurd hmem (List.not_mem_nil r)
    · exact he.1
  have htask : taskedRun api sub mon snap now
      = ((loop1Run api sub mon snap now).results, (loop1Run api sub mon snap now).run) := by
    unfold taskedRun runPriceTasks
    rw [runPriceTasks_fold_noop api now sub.planCode
      (loop1Run api sub mon snap now).results _ hpend]
    simp
  obtain ⟨g1, g2, g3⟩ := loop3_fold_noop api oapi now
    (loop1Run api sub mon snap now).results (loop1Run api sub mon snap now).run hnempty
  have hrun : (loop1Run api sub mon snap now).run
      = (⟨⟨sub, mon, [], [], [], []⟩, []⟩ : Loop1State).run := h1
  unfold runLoops
  rw [htask]
  refine ⟨?_, ?_, ?_⟩
  · rw [g1, hrun]
  · rw [g2, hrun]
  · rw [g3, hrun]

/-- C1: applying the same snapshot twice is a no-op on the second pass —
after one `check_availability_change` run, a second run over the identical
snapshot (with arbitrary price/order services and a later clock) leaves
`lastStatus` exactly as the first run left it and produces zero
notifications and zero order submissions.  The snapshot's status keys are
assumed pairwise distinct, as they are for keys arising from Python
dicts. -/
theorem C1_idempotent_merge (api api2 : PriceApi) (oapi oapi2 : OrderApi)
    (sub : Subscription) (mon : MonState) (snap : Snapshot) (now now2 : Int)
    (hnd : (statusKeys snap).Nodup) :
    ((checkAvailabilityChange api2 oapi2
        (checkAvailabilityChange api oapi sub mon snap now).sub
        (checkAvailabilityChange api oapi sub mon snap now).mon
        snap now2).sub.lastStatus
      = (checkAvailabilityChange api oapi sub mon snap now).sub.lastStatus)
    ∧ ((checkAvailabilityChange api2 oapi2
        (checkAvailabilityChange api oapi sub mon snap now).sub
        (checkAvailabilityChange api oapi sub mon snap now).mon
        snap now2).notifs = [])
    ∧ ((checkAvailabilityChange api2 oapi2
        (checkAvailabilityChange api oapi sub mon snap now).sub
        (checkAvailabilityChange api oapi sub mon snap now).mon
        snap now2).orders = []) := by
  by_cases hsnap : snap = []
  · subst hsnap
    simp [checkAvailabilityChange]
  · have hc1 : checkAvailabilityChange api oapi sub mon snap now =
        (let r := runLoops api oapi sub mon snap now
         { r with sub := { r.sub with lastStatus := bulkMerge r.sub.lastStatus snap } }) := by
      unfold checkAvailabilityChange
      rw [if_neg hsnap]
    have hlast : (checkAvailabilityChange api oapi sub mon snap now).sub.lastStatus
        = bulkMerge (runLoops api oapi sub mon snap now).sub.lastStatus snap := by
      rw [hc1]
    have H : ∀ q ∈ snapStatusPairs snap,
        lookupA (checkAvailabilityChange api oapi sub mon snap now).sub.lastStatus q.1
          = some q.2 := by
      intro q hq
      rw [hlast]
      exact bulkMerge_lookup_mem snap _ q.1 q.2 hnd hq
    have hc2 : checkAvailabilityChange api2 oapi2
        (checkAvailabilityChange api oapi sub mon snap now).sub
        (checkAvailabilityChange api oapi sub mon snap now).mon snap now2 =
        (let r := runLoops api2 oapi2
            (checkAvailabilityChange api oapi sub mon snap now).sub
            (checkAvailabilityChange api oapi sub mon snap now).mon snap now2
         { r with sub := { r.sub with lastStatus := bulkMerge r.sub.lastStatus snap } }) := by
      unfold checkAvailabilityChange
      rw [if_neg hsnap]
    obtain ⟨g1, g2, g3⟩ := runLoops_noop api2 oapi2
      (checkAvailabilityChange api oapi sub mon snap now).sub
      (checkAvailabilityChange api oapi sub mon snap now).mon snap now2 H
    rw [hc2]
    refine ⟨?_, g2, g3⟩
    show bulkMerge (runLoops api2 oapi2 _ _ snap now2).sub.lastStatus snap = _
    rw [g1]
    apply bulkMerge_id
    exact H

/-- Witness for C1 at a concrete input. -/
theorem C1_idempotent_merge_witness :
    ((checkAvailabilityChange failApi failOrderApi
        (checkAvailabilityChange failApi failOrderApi
          ⟨"ks1", [], true, true, true, 2, none, [], [], 0⟩ ⟨[], []⟩
          [("gra", ConfigData.flat "available"),
           ("ck", ConfigData.configured "m" "s" [] [("gra", "x"), ("rbx", "unavailable")])] 100).sub
        (checkAvailabilityChange failApi failOrderApi
          ⟨"ks1", [], true, true, true, 2, none, [], [], 0⟩ ⟨[], []⟩
          [("gra", ConfigData.flat "available"),
           ("ck", ConfigData.configured "m" "s" [] [("gra", "x"), ("rbx", "unavailable")])] 100).mon
        [("gra", ConfigData.flat "available"),
         ("ck", ConfigData.configured "m" "s" [] [("gra", "x"), ("rbx", "unavailable")])] 200).notifs = []) :=
  (C1_idempotent_merge failApi failApi failOrderApi failOrderApi
    ⟨"ks1", [], true, true, true, 2, none, [], [], 0⟩ ⟨[], []⟩
    [("gra", ConfigData.flat "available"),
     ("ck", ConfigData.configured "m" "s" [] [("gra", "x"), ("rbx", "unavailable")])]
    100 200 (by decide)).2.1

/-! ## Duplicate-trigger guard (claim C2) -/

theorem strEndsWith_append (a b : String) : strEndsWith (a ++ b) b = true := by
  unfold strEndsWith
  rw [String.data_append, List.isSuffixOf_iff_suffix]
  exact List.suffix_append a.data b.data

theorem string_append_cancel_right (a b c : String) (h : a ++ c = b ++ c) :
    a = b := by
  apply String.ext
  have hd := congrArg String.data h
  rw [String.data_append, String.data_append] at hd
  exact List.append_cancel_right hd

theorem statusKey_inj (dc1 dc2 ck : String)
    (h : dc1 ++ "|" ++ ck = dc2 ++ "|" ++ ck) : dc1 = dc2 :=
  string_append_cancel_right dc1 dc2 "|"
    (string_append_cancel_right (dc1 ++ "|") (dc2 ++ "|") ck h)

theorem statusKey_ne (dc1 dc2 ck : String) (h : dc1 ≠ dc2) :
    dc1 ++ "|" ++ ck ≠ dc2 ++ "|" ++ ck :=
  fun he => h (statusKey_inj dc1 dc2 ck he)

theorem strEndsWith_statusKey (dc ck : String) :
    strEndsWith (dc ++ "|" ++ ck) ("|" ++ ck) = true := by
  rw [String.append_assoc]
  exact strEndsWith_append dc ("|" ++ ck)

theorem hasSameConfigStatus_intro (m : List (String × String))
    (sk ck : String) (q : String × String) (hq : q ∈ m) (h1 : q.1 ≠ sk)
    (h2 : strEndsWith q.1 ("|" ++ ck) = true) (h3 : q.2 ≠ "unavailable") :
    hasSameConfigStatus m sk ck = true := by
  unfold hasSameConfigStatus
  rw [List.any_eq_true]
  refine ⟨q, hq, ?_⟩
  simp [h1, h2, h3]

theorem collectNotifsStep_suppressed (sub : Subscription) (ck : String)
    (acc : List NotifRec) (p : String × String) (hg : GuardCond sub ck p) :
    collectNotifsStep sub ck acc p = acc := by
  obtain ⟨h1, h2, h3, h4⟩ := hg
  simp only [collectNotifsStep]
  split
  · rfl
  · rw [if_pos ⟨h1, h2, h3, h4⟩]

theorem collectNotifsStep_cases (sub : Subscription) (ck : String)
    (acc : List NotifRec) (p : String × String) :
    collectNotifsStep sub ck acc p = acc ∨
    (¬ GuardCond sub ck p ∧ ∃ ct, collectNotifsStep sub ck acc p
      = acc ++ [⟨p.1, p.2, lookupA sub.lastStatus (p.1 ++ "|" ++ ck),
                 p.1 ++ "|" ++ ck, ct⟩]) := by
  simp only [collectNotifsStep]
  split
  · exact Or.inl rfl
  · split
    · exact Or.inl rfl
    · rename_i hguard
      split
      · rename_i ct heq
        exact Or.inr ⟨hguard, ct, rfl⟩
      · exact Or.inl rfl

theorem collectNotifs_fold_mem (sub : Subscription) (ck : String)
    (dcs : List (String × String)) (acc : List NotifRec) :
    ∀ n ∈ dcs.foldl (collectNotifsStep sub ck) acc,
      n ∈ acc ∨ ∃ p ∈ dcs, ¬ GuardCond sub ck p ∧
        n.statusKey = p.1 ++ "|" ++ ck ∧ n.status = p.2 := by
  induction dcs generalizing acc with
  | nil => exact fun n hn => Or.inl hn
  | cons p rest ih =>
      intro n hn
      simp only [List.foldl_cons] at hn
      rcases ih (collectNotifsStep sub ck acc p) n hn with hacc | ⟨q, hq, hg, hk, hs⟩
      · rcases collectNotifsStep_cases sub ck acc p with he | ⟨hg, ct, he⟩
        · rw [he] at hacc
          exact Or.inl hacc
        · rw [he] at hacc
          rcases List.mem_append.mp hacc with h1 | h1
          · exact Or.inl h1
          · simp only [List.mem_singleton] at h1
            refine Or.inr ⟨p, by simp, hg, ?_, ?_⟩
            · rw [h1]
            · rw [h1]
      · exact Or.inr ⟨q, by simp [hq], hg, hk, hs⟩

theorem collectNotifs_mem (sub : Subscription) (ck : String)
    (dcs : List (String × String)) :
    ∀ n ∈ collectNotifs sub ck dcs,
      ∃ p ∈ dcs, ¬ GuardCond sub ck p ∧
        n.statusKey = p.1 ++ "|" ++ ck ∧ n.status = p.2 := by
  intro n hn
  rcases collectNotifs_fold_mem sub ck dcs [] n hn with h | h
  · exact absurd h (List.not_mem_nil n)
  · exact h

theorem collectNotifs_keys (sub : Subscription) (ck : String)
    (dcs : List (String × String)) :
    ∀ n ∈ collectNotifs sub ck dcs,
      n.statusKey ∈ dcs.map (fun p => p.1 ++ "|" ++ ck) := by
  intro n hn
  obtain ⟨p, hp, _, hk, _⟩ := collectNotifs_mem sub ck dcs n hn
  exact List.mem_map.mpr ⟨p, hp, hk.symm⟩

theorem collectNotifs_keyfree_guard (sub : Subscription) (ck : String)
    (dcs : List (String × String)) (dc2 s2 : String)
    (hnd : (dcs.map (fun p => p.1 ++ "|" ++ ck)).Nodup)
    (hdcs : (dc2, s2) ∈ dcs) (hg : GuardCond sub ck (dc2, s2)) :
    ∀ n ∈ collectNotifs sub ck dcs, n.statusKey ≠ dc2 ++ "|" ++ ck := by
  intro n hn heq
  obtain ⟨p, hp, hng, hk, _⟩ := collectNotifs_mem sub ck dcs n hn
  have hkk : p.1 ++ "|" ++ ck = dc2 ++ "|" ++ ck := by rw [← hk, heq]
  have hpe : p = (dc2, s2) :=
    List.inj_on_of_nodup_map hnd hp hdcs hkk
  rw [hpe] at hng
  exact hng hg

theorem collectNotifsStep_congr (sub sub' : Subscription) (ck : String)
    (acc : List NotifRec) (p : String × String)
    (h1 : sub.lastStatus = sub'.lastStatus)
    (h2 : sub.datacenters = sub'.datacenters)
    (h3 : sub.notifyAvailable = sub'.notifyAvailable)
    (h4 : sub.notifyUnavailable = sub'.notifyUnavailable)
    (h5 : sub.autoOrder = sub'.autoOrder) :
    collectNotifsStep sub ck acc p = collectNotifsStep sub' ck acc p := by
  unfold collectNotifsStep
  rw [h1, h2, h3, h4, h5]

theorem collectNotifs_congr (sub sub' : Subscription) (ck : String)
    (dcs : List (String × String))
    (h1 : sub.lastStatus = sub'.lastStatus)
    (h2 : sub.datacenters = sub'.datacenters)
    (h3 : sub.notifyAvailable = sub'.notifyAvailable)
    (h4 : sub.notifyUnavailable = sub'.notifyUnavailable)
    (h5 : sub.autoOrder = sub'.autoOrder) :
    collectNotifs sub ck dcs = collectNotifs sub' ck dcs := by
  unfold collectNotifs
  have hf : collectNotifsStep sub ck = collectNotifsStep sub' ck := by
    funext acc p
    exact collectNotifsStep_congr sub sub' ck acc p h1 h2 h3 h4 h5
  rw [hf]

theorem legacyApply_proj (api : PriceApi) (now : Int) (st : RunState)
    (dc status : String) :
    (legacyApply api now st dc status).sub.lastStatus = st.sub.lastStatus
    ∧ (legacyApply api now st dc status).sub.datacenters = st.sub.datacenters
    ∧ (legacyApply api now st dc status).sub.notifyAvailable = st.sub.notifyAvailable
    ∧ (legacyApply api now st dc status).sub.notifyUnavailable = st.sub.notifyUnavailable
    ∧ (legacyApply api now st dc status).sub.autoOrder = st.sub.autoOrder
    ∧ (legacyApply api now st dc status).orders = st.orders
    ∧ (∀ ev ∈ (legacyApply api now st dc status).notifs,
        ev ∈ st.notifs ∨ ∀ n ∈ ev.recs, n.statusKey = dc) := by
  simp only [legacyApply]
  split
  · exact ⟨rfl, rfl, rfl, rfl, rfl, rfl, fun ev hev => Or.inl hev⟩
  · split
    · exact ⟨rfl, rfl, rfl, rfl, rfl, rfl, fun ev hev => Or.inl hev⟩
    · refine ⟨rfl, rfl, rfl, rfl, rfl, rfl, ?_⟩
      intro ev hev
      simp only [List.mem_append] at hev
      rcases hev with hev | hev
      · exact Or.inl hev
      · simp only [List.mem_singleton] at hev
        refine Or.inr ?_
        intro n hn
        rw [hev] at hn
        simp only [List.mem_singleton] at hn
        rw [hn]

theorem loop1Step_keyInv (api : PriceApi) (now : Int) (sub0 : Subscription)
    (key : String) (st : Loop1State) (e : String × ConfigData)
    (hinv : Loop1KeyInv sub0 key st)
    (hflat : ∀ status, e.2 = ConfigData.flat status → e.1 ≠ key)
    (hconf : ∀ memory storage options dcs,
        e.2 = ConfigData.configured memory storage options dcs →
        ∀ n ∈ collectNotifs sub0 e.1 dcs, n.statusKey ≠ key) :
    Loop1KeyInv sub0 key (loop1Step api now st e) := by
  obtain ⟨i1, i2, i3, i4, i5, i6, i7, i8⟩ := hinv
  match e with
  | (ck, ConfigData.flat status) =>
      obtain ⟨p1, p2, p3, p4, p5, p6, p7⟩ := legacyApply_proj api now st.run ck status
      refine ⟨p1.trans i1, p2.trans i2, p3.trans i3, p4.trans i4, p5.trans i5,
        ?_, i7, p6.trans i8⟩
      intro ev hev n hn
      rcases p7 ev hev with hold | hkey
      · exact i6 ev hold n hn
      · rw [hkey n hn]
        exact hflat status rfl
  | (ck, ConfigData.configured memory storage options dcs) =>
      simp only [loop1Step]
      refine ⟨i1, i2, i3, i4, i5, i6, ?_, i8⟩
      intro r hr n hn
      simp only [List.mem_append] at hr
      rcases hr with hr | hr
      · exact i7 r hr n hn
      · simp only [List.mem_singleton] at hr
        rw [hr] at hn
        have hcn : collectNotifs st.run.sub ck dcs = collectNotifs sub0 ck dcs :=
          collectNotifs_congr st.run.sub sub0 ck dcs i1 i2 i3 i4 i5
        rw [hcn] at hn
        exact hconf memory storage options dcs rfl n hn

theorem loop1_fold_keyInv (api : PriceApi) (now : Int) (sub0 : Subscription)
    (key : String) (entries : List (String × ConfigData)) (st : Loop1State)
    (hinv : Loop1KeyInv sub0 key st)
    (hclean : ∀ e ∈ entries,
      (∀ status, e.2 = ConfigData.flat status → e.1 ≠ key) ∧
      (∀ memory storage options dcs,
        e.2 = ConfigData.configured memory storage options dcs →
        ∀ n ∈ collectNotifs sub0 e.1 dcs, n.statusKey ≠ key)) :
    Loop1KeyInv sub0 key (entries.foldl (loop1Step api now) st) := by
  induction entries generalizing st with
  | nil => exact hinv
  | cons e rest ih =>
      simp only [List.foldl_cons]
      apply ih
      · exact loop1Step_keyInv api now sub0 key st e hinv
          (hclean e (by simp)).1 (hclean e (by simp)).2
      · exact fun e' he' => hclean e' (by simp [he'])

theorem priceTaskStep_proj (api : PriceApi) (now : Int) (planCode : String)
    (acc : List ConfigResult × RunState) (r : ConfigResult) :
    ((priceTaskStep api now planCode acc r).2.sub = acc.2.sub
    ∧ (priceTaskStep api now planCode acc r).2.notifs = acc.2.notifs
    ∧ (priceTaskStep api now planCode acc r).2.orders = acc.2.orders)
    ∧ (∀ r' ∈ (priceTaskStep api now planCode acc r).1,
        r' ∈ acc.1 ∨ r'.notifs = r.notifs) := by
  unfold priceTaskStep
  match hr : r.pendingDc with
  | some fdc =>
      refine ⟨⟨rfl, rfl, rfl⟩, ?_⟩
      intro r' hr'
      simp only [List.mem_append] at hr'
      rcases hr' with h | h
      · exact Or.inl h
      · simp only [List.mem_singleton] at h
        rw [h]
        exact Or.inr rfl
  | none =>
      refine ⟨⟨rfl, rfl, rfl⟩, ?_⟩
      intro r' hr'
      simp only [List.mem_append] at hr'
      rcases hr' with h | h
      · exact Or.inl h
      · simp only [List.mem_singleton] at h
        rw [h]
        exact Or.inr rfl

theorem runPriceTasks_fold_proj (api : PriceApi) (now : Int) (planCode : String)
    (rs : List ConfigResult) (acc : List ConfigResult × RunState) :
    ((rs.foldl (priceTaskStep api now planCode) acc).2.sub = acc.2.sub
    ∧ (rs.foldl (priceTaskStep api now planCode) acc).2.notifs = acc.2.notifs
    ∧ (rs.foldl (priceTaskStep api now planCode) acc).2.orders = acc.2.orders)
    ∧ (∀ r' ∈ (rs.foldl (priceTaskStep api now planCode) acc).1,
        r' ∈ acc.1 ∨ ∃ r ∈ rs, r'.notifs = r.notifs) := by
  induction rs generalizing acc with
  | nil => exact ⟨⟨rfl, rfl, rfl⟩, fun r' h => Or.inl h⟩
  | cons r rest ih =>
      simp only [List.foldl_cons]
      obtain ⟨⟨s1, s2, s3⟩, s4⟩ := priceTaskStep_proj api now planCode acc r
      obtain ⟨⟨t1, t2, t3⟩, t4⟩ := ih (priceTaskStep api now planCode acc r)
      refine ⟨⟨t1.trans s1, t2.trans s2, t3.trans s3⟩, ?_⟩
      intro r' hr'
      rcases t4 r' hr' with h | ⟨q, hq, hqe⟩
      · rcases s4 r' h with h' | h'
        · exact Or.inl h'
        · exact Or.inr ⟨r, by simp, h'⟩
      · exact Or.inr ⟨q, by simp [hq], hqe⟩

theorem autoOrderApply_keyInv (api : PriceApi) (oapi : OrderApi)
    (st : RunState) (r : ConfigResult) (avail : List NotifRec) (key : String)
    (hinv : RunKeyInv key st) (havail : ∀ n ∈ avail, n.statusKey ≠ key) :
    RunKeyInv key (autoOrderApply api oapi st r avail) := by
  obtain ⟨i1, i2, i3⟩ := hinv
  refine ⟨?_, ?_, ?_⟩
  · intro ev hev n hn
    exact i1 ev hev n hn
  · intro o ho
    simp only [autoOrderApply, List.mem_append] at ho
    rcases ho with ho | ho
    · exact i2 o ho
    · simp only [List.mem_flatMap, List.mem_map] at ho
      obtain ⟨n, hn, i, _, hoe⟩ := ho
      rw [← hoe]
      exact havail n hn
  · show lookupA (pinStatus st.sub.lastStatus avail) key = none
    rw [pinStatus_lookup_notmem avail st.sub.lastStatus key havail]
    exact i3

theorem groupedAlertApply_keyInv (now : Int) (st : RunState)
    (r : ConfigResult) (avail : List NotifRec) (key : String)
    (hinv : RunKeyInv key st) (havail : ∀ n ∈ avail, n.statusKey ≠ key) :
    RunKeyInv key (groupedAlertApply now st r avail) := by
  obtain ⟨i1, i2, i3⟩ := hinv
  refine ⟨?_, i2, i3⟩
  intro ev hev n hn
  simp only [groupedAlertApply, List.mem_append] at hev
  rcases hev with hev | hev
  · exact i1 ev hev n hn
  · simp only [List.mem_singleton] at hev
    rw [hev] at hn
    exact havail n hn

theorem unavAlertApply_keyInv (now : Int) (st : RunState) (r : ConfigResult)
    (n : NotifRec) (key : String) (hinv : RunKeyInv key st)
    (hn : n.statusKey ≠ key) : RunKeyInv key (unavAlertApply now st r n) := by
  obtain ⟨i1, i2, i3⟩ := hinv
  refine ⟨?_, i2, i3⟩
  intro ev hev m hm
  simp only [unavAlertApply, List.mem_append] at hev
  rcases hev with hev | hev
  · exact i1 ev hev m hm
  · simp only [List.mem_singleton] at hev
    rw [hev] at hm
    simp only [List.mem_singleton] at hm
    rw [hm]
    exact hn

theorem unavAlert_fold_keyInv (now : Int) (ns : List NotifRec)
    (st : RunState) (r : ConfigResult) (key : String) (hinv : RunKeyInv key st)
    (hns : ∀ n ∈ ns, n.statusKey ≠ key) :
    RunKeyInv key (ns.foldl (fun s n => unavAlertApply now s r n) st) := by
  induction ns generalizing st with
  | nil => exact hinv
  | cons n rest ih =>
      simp only [List.foldl_cons]
      exact ih _ (unavAlertApply_keyInv now st r n key hinv (hns n (by simp)))
        (fun m hm => hns m (by simp [hm]))

theorem runState_truncate_keyInv (key : String) (st : RunState)
    (hinv : RunKeyInv key st) :
    RunKeyInv key { st with sub := { st.sub with history := truncateHistory st.sub.history } } :=
  hinv

theorem processResult_keyInv (api : PriceApi) (oapi : OrderApi) (now : Int)
    (st : RunState) (r : ConfigResult) (key : String)
    (hinv : RunKeyInv key st) (hr : ∀ n ∈ r.notifs, n.statusKey ≠ key) :
    RunKeyInv key (processResult api oapi now st r) := by
  have havail : ∀ n ∈ r.notifs.filter (fun n => n.changeType = "available"),
      n.statusKey ≠ key :=
    fun n hn => hr n (List.mem_of_mem_filter hn)
  have hunav : ∀ n ∈ r.notifs.filter (fun n => n.changeType = "unavailable"),
      n.statusKey ≠ key :=
    fun n hn => hr n (List.mem_of_mem_filter hn)
  unfold processResult
  apply runState_truncate_keyInv
  apply unavAlert_fold_keyInv now _ _ r key _ hunav
  split
  · apply groupedAlertApply_keyInv now _ r _ key _ havail
    split
    · exact autoOrderApply_keyInv api oapi st r _ key hinv havail
    · exact hinv
  · split
    · exact autoOrderApply_keyInv api oapi st r _ key hinv havail
    · exact hinv

theorem loop3_fold_keyInv (api : PriceApi) (oapi : OrderApi) (now : Int)
    (rs : List ConfigResult) (st : RunState) (key : String)
    (hinv : RunKeyInv key st)
    (hrs : ∀ r ∈ rs, ∀ n ∈ r.notifs, n.statusKey ≠ key) :
    RunKeyInv key (rs.foldl (processResult api oapi now) st) := by
  induction rs generalizing st with
  | nil => exact hinv
  | cons r rest ih =>
      simp only [List.foldl_cons]
      exact ih _ (processResult_keyInv api oapi now st r key hinv (hrs r (by simp)))
        (fun q hq => hrs q (by simp [hq]))

theorem statusKeys_mem_flat (entries : List (String × ConfigData))
    (ck status : String) (he : (ck, ConfigData.flat status) ∈ entries) :
    ck ∈ statusKeys entries := by
  unfold statusKeys snapStatusPairs
  apply List.mem_map.mpr
  refine ⟨(ck, status), ?_, rfl⟩
  apply List.mem_flatMap.mpr
  exact ⟨(ck, ConfigData.flat status), he, by simp⟩

theorem statusKeys_mem_conf (entries : List (String × ConfigData))
    (ck memory storage : String) (options : List String)
    (dcs : List (String × String)) (p : String × String)
    (he : (ck, ConfigData.configured memory storage options dcs) ∈ entries)
    (hp : p ∈ dcs) : p.1 ++ "|" ++ ck ∈ statusKeys entries := by
  unfold statusKeys snapStatusPairs
  apply List.mem_map.mpr
  refine ⟨(p.1 ++ "|" ++ ck, p.2), ?_, rfl⟩
  apply List.mem_flatMap.mpr
  refine ⟨(ck, ConfigData.configured memory storage options dcs), he, ?_⟩
  simp only []
  exact List.mem_map.mpr ⟨p, hp, rfl⟩

theorem snapStatusPairs_mem_conf (entries : List (String × ConfigData))
    (ck memory storage : String) (options : List String)
    (dcs : List (String × String)) (p : String × String)
    (he : (ck, ConfigData.configured memory storage options dcs) ∈ entries)
    (hp : p ∈ dcs) : (p.1 ++ "|" ++ ck, p.2) ∈ snapStatusPairs entries := by
  unfold snapStatusPairs
  apply List.mem_flatMap.mpr
  refine ⟨(ck, ConfigData.configured memory storage options dcs), he, ?_⟩
  simp only []
  exact List.mem_map.mpr ⟨p, hp, rfl⟩

theorem statusKeys_decompose (pre post : List (String × ConfigData))
    (e : String × ConfigData) :
    statusKeys (pre ++ e :: post)
      = statusKeys pre ++ (statusKeys [e] ++ statusKeys post) := by
  unfold statusKeys snapStatusPairs
  rw [List.flatMap_append, List.flatMap_cons]
  simp [List.map_append]

/-- C2: for an auto-order subscription whose `lastStatus` already holds a
non-"unavailable" value under the status key `dc1|ck`, a snapshot whose
configuration `ck` introduces a first-seen key `dc2|ck` with a
non-"unavailable" status produces no notification record and no order for
`dc2|ck` in that round, the per-key passes never write `dc2|ck` into
`lastStatus`, and the key is written only by the end-of-cycle bulk merge
(which records the observed status). -/
theorem C2_duplicate_trigger_guard (api : PriceApi) (oapi : OrderApi)
    (sub : Subscription) (mon : MonState) (now : Int)
    (pre post : List (String × ConfigData))
    (ck memory storage : String) (options : List String)
    (dcs : List (String × String)) (dc1 dc2 v1 s2 : String)
    (hauto : sub.autoOrder = true)
    (hmem1 : (dc1 ++ "|" ++ ck, v1) ∈ sub.lastStatus)
    (hv1 : v1 ≠ "unavailable")
    (hdc : dc1 ≠ dc2)
    (hdcs : (dc2, s2) ∈ dcs)
    (hs2 : s2 ≠ "unavailable")
    (hold : lookupA sub.lastStatus (dc2 ++ "|" ++ ck) = none)
    (hnd : (statusKeys
      (pre ++ (ck, ConfigData.configured memory storage options dcs) :: post)).Nodup) :
    (∀ ev ∈ (checkAvailabilityChange api oapi sub mon
        (pre ++ (ck, ConfigData.configured memory storage options dcs) :: post)
        now).notifs, ∀ n ∈ ev.recs, n.statusKey ≠ dc2 ++ "|" ++ ck)
    ∧ (∀ o ∈ (checkAvailabilityChange api oapi sub mon
        (pre ++ (ck, ConfigData.configured memory storage options dcs) :: post)
        now).orders, o.statusKey ≠ dc2 ++ "|" ++ ck)
    ∧ lookupA (runLoops api oapi sub mon
        (pre ++ (ck, ConfigData.configured memory storage options dcs) :: post)
        now).sub.lastStatus (dc2 ++ "|" ++ ck) = none
    ∧ lookupA (checkAvailabilityChange api oapi sub mon
        (pre ++ (ck, ConfigData.configured memory storage options dcs) :: post)
        now).sub.lastStatus (dc2 ++ "|" ++ ck) = some s2 := by
  have hguard : GuardCond sub ck (dc2, s2) := by
    refine ⟨hold, hs2, hauto, ?_⟩
    exact hasSameConfigStatus_intro sub.lastStatus (dc2 ++ "|" ++ ck) ck
      (dc1 ++ "|" ++ ck, v1) hmem1 (statusKey_ne dc1 dc2 ck hdc)
      (strEndsWith_statusKey dc1 ck) hv1
  have hkey_entry : dc2 ++ "|" ++ ck ∈
      statusKeys [(ck, ConfigData.configured memory storage options dcs)] := by
    exact statusKeys_mem_conf _ ck memory storage options dcs (dc2, s2) (by simp) hdcs
  have hdecomp := statusKeys_decompose pre post
    (ck, ConfigData.configured memory storage options dcs)
  rw [hdecomp] at hnd
  obtain ⟨ndA, ndBC, disjA⟩ := List.nodup_append.mp hnd
  obtain ⟨ndB, ndC, disjBC⟩ := List.nodup_append.mp ndBC
  have hnotinA : dc2 ++ "|" ++ ck ∉ statusKeys pre := by
    intro hin
    exact disjA hin (List.mem_append.mpr (Or.inl hkey_entry))
  have hnotinC : dc2 ++ "|" ++ ck ∉ statusKeys post := by
    intro hin
    exact disjBC hkey_entry hin
  have hndB : (dcs.map (fun p => p.1 ++ "|" ++ ck)).Nodup := by
    have : statusKeys [(ck, ConfigData.configured memory storage options dcs)]
        = dcs.map (fun p => p.1 ++ "|" ++ ck) := by
      unfold statusKeys snapStatusPairs
      simp [List.map_map, Function.comp]
    rw [this] at ndB
    exact ndB
  have hclean : ∀ e ∈ pre ++ (ck, ConfigData.configured memory storage options dcs) :: post,
      (∀ status, e.2 = ConfigData.flat status → e.1 ≠ dc2 ++ "|" ++ ck) ∧
      (∀ memory' storage' options' dcs',
        e.2 = ConfigData.configured memory' storage' options' dcs' →
        ∀ n ∈ collectNotifs sub e.1 dcs', n.statusKey ≠ dc2 ++ "|" ++ ck) := by
    intro e he
    obtain ⟨ek, ed⟩ := e
    rcases List.mem_append.mp he with hpre | hrest
    · constructor
      · intro status hf hk
        have hf' : ed = ConfigData.flat status := hf
        subst hf'
        apply hnotinA
        rw [← hk]
        exact statusKeys_mem_flat pre ek status hpre
      · intro m' s' o' dcs' hf n hn hk
        have hf' : ed = ConfigData.configured m' s' o' dcs' := hf
        subst hf'
        apply hnotinA
        rw [← hk]
        obtain ⟨p, hp, _, hkey, _⟩ := collectNotifs_mem sub ek dcs' n hn
        rw [hkey]
        exact statusKeys_mem_conf pre ek m' s' o' dcs' p hpre hp
    · rcases List.mem_cons.mp hrest with heq | hpost
      · have hek : ek = ck := congrArg Prod.fst heq
        have hed : ed = ConfigData.configured memory storage options dcs :=
          congrArg Prod.snd heq
        constructor
        · intro status hf
          have hf' : ed = ConfigData.flat status := hf
          rw [hed] at hf'
          exact absurd hf' (by simp)
        · intro m' s' o' dcs' hf n hn
          have hf' : ed = ConfigData.configured m' s' o' dcs' := hf
          rw [hed] at hf'
          injection hf' with h1 h2 h3 h4
          rw [hek, ← h4] at hn
          exact collectNotifs_keyfree_guard sub ck dcs dc2 s2 hndB hdcs hguard n hn
      · constructor
        · intro status hf hk
          have hf' : ed = ConfigData.flat status := hf
          subst hf'
          apply hnotinC
          rw [← hk]
          exact statusKeys_mem_flat post ek status hpost
        · intro m' s' o' dcs' hf n hn hk
          have hf' : ed = ConfigData.configured m' s' o' dcs' := hf
          subst hf'
          apply hnotinC
          rw [← hk]
          obtain ⟨p, hp, _, hkey, _⟩ := collectNotifs_mem sub ek dcs' n hn
          rw [hkey]
          exact statusKeys_mem_conf post ek m' s' o' dcs' p hpost hp
  have hinv1 : Loop1KeyInv sub (dc2 ++ "|" ++ ck)
      (loop1Run api sub mon
        (pre ++ (ck, ConfigData.configured memory storage options dcs) :: post) now) := by
    unfold loop1Run
    apply loop1_fold_keyInv api now sub (dc2 ++ "|" ++ ck) _ _ ?_ hclean
    exact ⟨rfl, rfl, rfl, rfl, rfl,
      fun ev hev => absurd hev (List.not_mem_nil ev),
      fun r hr => absurd hr (List.not_mem_nil r), rfl⟩
  obtain ⟨i1, i2, i3, i4, i5, i6, i7, i8⟩ := hinv1
  obtain ⟨⟨t1, t2, t3⟩, t4⟩ := runPriceTasks_fold_proj api now sub.planCode
    (loop1Run api sub mon
      (pre ++ (ck, ConfigData.configured memory storage options dcs) :: post) now).results
    ([], (loop1Run api sub mon
      (pre ++ (ck, ConfigData.configured memory storage options dcs) :: post) now).run)
  have hinv2 : RunKeyInv (dc2 ++ "|" ++ ck)
      (taskedRun api sub mon
        (pre ++ (ck, ConfigData.configured memory storage options dcs) :: post) now).2 := by
    refine ⟨?_, ?_, ?_⟩
    · intro ev hev n hn
      have hev' := hev
      rw [show (taskedRun api sub mon _ now).2.notifs = _ from t2] at hev'
      exact i6 ev hev' n hn
    · intro o ho
      have ho' := ho
      rw [show (taskedRun api sub mon _ now).2.orders = _ from t3, i8] at ho'
      exact absurd ho' (List.not_mem_nil o)
    · rw [show (taskedRun api sub mon _ now).2.sub = _ from t1, i1]
      exact hold
  have hresults : ∀ r ∈ (taskedRun api sub mon
      (pre ++ (ck, ConfigData.configured memory storage options dcs) :: post) now).1,
      ∀ n ∈ r.notifs, n.statusKey ≠ dc2 ++ "|" ++ ck := by
    intro r hr n hn
    rcases t4 r hr with hnil | ⟨q, hq, hqe⟩
    · exact absurd hnil (List.not_mem_nil r)
    · rw [hqe] at hn
      exact i7 q hq n hn
  have hrun : RunKeyInv (dc2 ++ "|" ++ ck)
      (runLoops api oapi sub mon
        (pre ++ (ck, ConfigData.configured memory storage options dcs) :: post) now) := by
    unfold runLoops
    exact loop3_fold_keyInv api oapi now _ _ _ hinv2 hresults
  obtain ⟨r1, r2, r3⟩ := hrun
  have hsnapne : pre ++ (ck, ConfigData.configured memory storage options dcs) :: post ≠ [] := by
    simp
  have hnotifs : (checkAvailabilityChange api oapi sub mon
      (pre ++ (ck, ConfigData.configured memory storage options dcs) :: post) now).notifs
      = (runLoops api oapi sub mon
        (pre ++ (ck, ConfigData.configured memory storage options dcs) :: post) now).notifs := by
    unfold checkAvailabilityChange
    rw [if_neg hsnapne]
  have horders : (checkAvailabilityChange api oapi sub mon
      (pre ++ (ck, ConfigData.configured memory storage options dcs) :: post) now).orders
      = (runLoops api oapi sub mon
        (pre ++ (ck, ConfigData.configured memory storage options dcs) :: post) now).orders := by
    unfold checkAvailabilityChange
    rw [if_neg hsnapne]
  have hlast : (checkAvailabilityChange api oapi sub mon
      (pre ++ (ck, ConfigData.configured memory storage options dcs) :: post) now).sub.lastStatus
      = bulkMerge (runLoops api oapi sub mon
          (pre ++ (ck, ConfigData.configured memory storage options dcs) :: post) now).sub.lastStatus
        (pre ++ (ck, ConfigData.configured memory storage options dcs) :: post) := by
    unfold checkAvailabilityChange
    rw [if_neg hsnapne]
  refine ⟨?_, ?_, r3, ?_⟩
  · rw [hnotifs]
    exact r1
  · rw [horders]
    exact r2
  · rw [hlast]
    apply bulkMerge_lookup_mem
    · rw [hdecomp]
      exact hnd
    · exact snapStatusPairs_mem_conf _ ck memory storage options dcs (dc2, s2)
        (by simp) hdcs

/-- Witness for C2 at a concrete input: the guarded first-seen key is only
written by the bulk merge, with the observed status. -/
theorem C2_duplicate_trigger_guard_witness :
    lookupA (checkAvailabilityChange failApi failOrderApi
        ⟨"ks1", [], true, false, true, 0, none,
          [("gra" ++ "|" ++ "ck", "available")], [], 0⟩
        ⟨[], []⟩
        ([] ++ ("ck", ConfigData.configured "m" "s" [] [("rbx", "available")]) :: [])
        100).sub.lastStatus ("rbx" ++ "|" ++ "ck") = some "available" :=
  (C2_duplicate_trigger_guard failApi failOrderApi
    ⟨"ks1", [], true, false, true, 0, none,
      [("gra" ++ "|" ++ "ck", "available")], [], 0⟩
    ⟨[], []⟩ 100 [] [] "ck" "m" "s" [] [("rbx", "available")]
    "gra" "rbx" "available" "available"
    rfl (by simp) (by decide) (by decide) (by simp) (by decide) (by decide)
    (by decide)).2.2.2

/-! ## Duration computation (claim C8) -/

theorem durationFindGrouped_spec (h : List HistoryEntry) (dc d : String)
    (now : Int) :
    (durationFindGrouped h dc d).map (elapsedSec now)
      = specDurationReport h dc (if d = "" then none else some d) now := by
  unfold durationFindGrouped specDurationReport
  have hpred : (fun e : HistoryEntry =>
      decide (e.datacenter = dc) && decide (e.changeType = "available") &&
      (if d ≠ "" then
         (match e.config with
          | some c => decide (c.display = d)
          | none => true)
       else true))
      = specMatches dc (if d = "" then none else some d) := by
    funext e
    by_cases hd : d = ""
    · simp [hd, specMatches]
    · simp only [hd, ite_false, if_false, if_neg, not_false_iff, ne_eq, ite_true]
      simp only [specMatches, hd, ite_false]
  rw [hpred]
  cases h.reverse.find? (specMatches dc (if d = "" then none else some d)) with
  | none => rfl
  | some e => rfl

theorem durationFindLegacy_spec (h : List HistoryEntry) (dc : String)
    (now : Int) :
    (durationFindLegacy h dc none).map (elapsedSec now)
      = specDurationReport h dc none now := by
  unfold durationFindLegacy specDurationReport
  have hpred : (fun e : HistoryEntry =>
      decide (e.datacenter = dc) && decide (e.changeType = "available") &&
      (match (none : Option ConfigInfo) with
       | some ci =>
           if ci.display ≠ "" then
             (match e.config with
              | some c => decide (c.display = ci.display)
              | none => false)
           else true
       | none => true))
      = specMatches dc none := by
    funext e
    simp [specMatches]
  rw [hpred]
  cases h.reverse.find? (specMatches dc none) with
  | none => rfl
  | some e => rfl

/-- C8: the reported elapsed-availability duration matches the claim's
backward scan: (i) the configuration-aware scan equals the spec scan (the
configuration filter active exactly when the display text is non-empty);
(ii) the legacy scan, as invoked (no configuration), equals the spec scan;
(iii) an unavailable notification whose prior status was present and not
"unavailable" reports exactly the spec scan's duration over the history at
that point; (iv) otherwise no duration is reported. -/
theorem C8_duration_computation :
    (∀ (h : List HistoryEntry) (dc d : String) (now : Int),
      (durationFindGrouped h dc d).map (elapsedSec now)
        = specDurationReport h dc (if d = "" then none else some d) now)
    ∧ (∀ (h : List HistoryEntry) (dc : String) (now : Int),
      (durationFindLegacy h dc none).map (elapsedSec now)
        = specDurationReport h dc none now)
    ∧ (∀ (now : Int) (st : RunState) (r : ConfigResult) (n : NotifRec),
        n.changeType = "unavailable" → n.oldStatus ≠ some "unavailable" →
        n.oldStatus ≠ none →
        (unavAlertApply now st r n).notifs = st.notifs ++
          [⟨st.sub.planCode, false, [n], some r.info.display,
            specDurationReport st.sub.history n.dc
              (if r.info.display = "" then none else some r.info.display) now,
            none⟩])
    ∧ (∀ (now : Int) (st : RunState) (r : ConfigResult) (n : NotifRec),
        (n.oldStatus = some "unavailable" ∨ n.oldStatus = none) →
        (unavAlertApply now st r n).notifs = st.notifs ++
          [⟨st.sub.planCode, false, [n], some r.info.display, none, none⟩]) := by
  refine ⟨durationFindGrouped_spec, durationFindLegacy_spec, ?_, ?_⟩
  · intro now st r n h1 h2 h3
    have hc : n.changeType = "unavailable" ∧ n.oldStatus ≠ some "unavailable" ∧
        n.oldStatus ≠ none := ⟨h1, h2, h3⟩
    simp only [unavAlertApply, if_pos hc]
    rw [durationFindGrouped_spec]
  · intro now st r n hor
    have hc : ¬ (n.changeType = "unavailable" ∧ n.oldStatus ≠ some "unavailable" ∧
        n.oldStatus ≠ none) := by
      rcases hor with h | h
      · intro hcc
        exact hcc.2.1 h
      · intro hcc
        exact hcc.2.2 h
    simp only [unavAlertApply, if_neg hc]

/-- Witness for C8 at a concrete input. -/
theorem C8_duration_computation_witness :
    (unavAlertApply 100
      ⟨⟨"ks1", [], true, true, false, 0, none, [],
        [⟨40, "gra", "available", "available", none, none⟩], 0⟩,
       ⟨[], []⟩, [], [], [], []⟩
      ⟨"ck", ⟨"m", "s", "m + s", []⟩, [], none, none⟩
      ⟨"gra", "unavailable", some "available", "gra" ++ "|" ++ "ck", "unavailable"⟩).notifs
    = [⟨"ks1", false,
        [⟨"gra", "unavailable", some "available", "gra" ++ "|" ++ "ck", "unavailable"⟩],
        some "m + s",
        specDurationReport
          [⟨40, "gra", "available", "available", none, none⟩] "gra"
          (if ("m + s" : String) = "" then none else some "m + s") 100,
        none⟩] :=
  C8_duration_computation.2.2.1 100
    ⟨⟨"ks1", [], true, true, false, 0, none, [],
      [⟨40, "gra", "available", "available", none, none⟩], 0⟩,
     ⟨[], []⟩, [], [], [], []⟩
    ⟨"ck", ⟨"m", "s", "m + s", []⟩, [], none, none⟩
    ⟨"gra", "unavailable", some "available", "gra" ++ "|" ++ "ck", "unavailable"⟩
    (by decide) (by decide) (by decide)

/-! ## Permanent valid-plan-code set (claim C5) -/

theorem addValid_mem_iff (l : List String) (y x : String) :
    x ∈ addValid l y ↔ x ∈ l ∨ x = y := by
  unfold addValid
  by_cases hy : y ∈ l
  · rw [if_pos hy]
    constructor
    · exact Or.inl
    · rintro (h | h)
      · exact h
      · rw [h]; exact hy
  · rw [if_neg hy]
    simp

theorem getCachedPrice_valid (mon : MonState) (plan : String)
    (opts : List String) (now : Int) :
    (getCachedPrice mon plan opts now).2.validPlanCodes = mon.validPlanCodes := by
  unfold getCachedPrice
  match hl : lookupA mon.priceCache (priceCacheKey plan opts) with
  | some e =>
      by_cases ha : now - e.timestamp < priceCacheTtl
      · simp [hl, ha]
      · simp [hl, ha]
  | none => simp [hl]

theorem getPriceExternal_spec (api : PriceApi) (mon : MonState)
    (plan dc : String) (options : List String) (now : Int) :
    (∀ x, x ∈ (getPriceExternal api mon plan dc options now).2.1.validPlanCodes ↔
      x ∈ mon.validPlanCodes ∨
        ∃ e ∈ (getPriceExternal api mon plan dc options now).2.2.toList,
          e.ok = true ∧ e.planCode = x)
    ∧ (∀ e ∈ (getPriceExternal api mon plan dc options now).2.2.toList,
        e.planCode = plan ∧ e.isVerification = false) := by
  unfold getPriceExternal
  by_cases hc : (api plan dc options).httpOk ∧ (api plan dc options).success ∧
      (api plan dc options).hasPrice
  · rw [if_pos hc]
    match hw : (api plan dc options).withTax with
    | some wt =>
        constructor
        · intro x
          simp only [Option.toList_some, List.mem_singleton]
          rw [addValid_mem_iff]
          constructor
          · rintro (h | h)
            · exact Or.inl h
            · exact Or.inr ⟨⟨false, plan, dc, options, true⟩, rfl, rfl, h.symm⟩
          · rintro (h | ⟨e, he, hok, hpl⟩)
            · exact Or.inl h
            · rw [he] at hpl
              exact Or.inr hpl.symm
        · intro e he
          simp only [Option.toList_some, List.mem_singleton] at he
          rw [he]
          exact ⟨rfl, rfl⟩
    | none =>
        constructor
        · intro x
          simp only [Option.toList_some, List.mem_singleton]
          constructor
          · exact Or.inl
          · rintro (h | ⟨e, he, hok, _⟩)
            · exact h
            · rw [he] at hok
              simp at hok
        · intro e he
          simp only [Option.toList_some, List.mem_singleton] at he
          rw [he]
          exact ⟨rfl, rfl⟩
  · rw [if_neg hc]
    constructor
    · intro x
      simp only [Option.toList_some, List.mem_singleton]
      constructor
      · exact Or.inl
      · rintro (h | ⟨e, he, hok, _⟩)
        · exact h
        · rw [he] at hok
          simp at hok
    · intro e he
      simp only [Option.toList_some, List.mem_singleton] at he
      rw [he]
      exact ⟨rfl, rfl⟩

theorem getPriceInfo_eq_hit (api : PriceApi) (mon : MonState) (plan dc : String)
    (cfg : Option ConfigInfo) (now : Int) (p : String)
    (hcp : (getCachedPrice mon plan (priceInfoOptions cfg) now).1 = some p)
    (hp : ¬ p = "") :
    getPriceInfo api mon plan dc cfg now
      = (some p, (getCachedPrice mon plan (priceInfoOptions cfg) now).2, none) := by
  simp [getPriceInfo, hcp, hp]

theorem getPriceInfo_eq_ext (api : PriceApi) (mon : MonState) (plan dc : String)
    (cfg : Option ConfigInfo) (now : Int)
    (h : (getCachedPrice mon plan (priceInfoOptions cfg) now).1 = none ∨
         (getCachedPrice mon plan (priceInfoOptions cfg) now).1 = some "") :
    getPriceInfo api mon plan dc cfg now
      = getPriceExternal api (getCachedPrice mon plan (priceInfoOptions cfg) now).2
          plan dc (priceInfoOptions cfg) now := by
  rcases h with h | h
  · simp [getPriceInfo, h]
  · simp [getPriceInfo, h]

theorem getPriceInfo_spec (api : PriceApi) (mon : MonState) (plan dc : String)
    (cfg : Option ConfigInfo) (now : Int) :
    (∀ x, x ∈ (getPriceInfo api mon plan dc cfg now).2.1.validPlanCodes ↔
      x ∈ mon.validPlanCodes ∨
        ∃ e ∈ (getPriceInfo api mon plan dc cfg now).2.2.toList,
          e.ok = true ∧ e.planCode = x)
    ∧ (∀ e ∈ (getPriceInfo api mon plan dc cfg now).2.2.toList,
        e.planCode = plan ∧ e.isVerification = false) := by
  have hval := getCachedPrice_valid mon plan (priceInfoOptions cfg) now
  have hext := getPriceExternal_spec api
    (getCachedPrice mon plan (priceInfoOptions cfg) now).2 plan dc
    (priceInfoOptions cfg) now
  match hcp : (getCachedPrice mon plan (priceInfoOptions cfg) now).1 with
  | some p =>
      by_cases hp : p = ""
      · rw [getPriceInfo_eq_ext api mon plan dc cfg now (Or.inr (hp ▸ hcp))]
        constructor
        · intro x
          rw [(hext.1 x), hval]
        · exact hext.2
      · rw [getPriceInfo_eq_hit api mon plan dc cfg now p hcp hp]
        constructor
        · intro x
          simp only []
          rw [hval]
          simp
        · intro e he
          simp at he
  | none =>
      rw [getPriceInfo_eq_ext api mon plan dc cfg now (Or.inl hcp)]
      constructor
      · intro x
        rw [(hext.1 x), hval]
      · exact hext.2

theorem eventDelta_refl (st : RunState) : EventDelta st st :=
  ⟨[], by simp, fun x => by simp⟩

theorem eventDelta_of_proj (st st' : RunState)
    (h1 : st'.priceEvents = st.priceEvents)
    (h2 : st'.mon.validPlanCodes = st.mon.validPlanCodes) :
    EventDelta st st' :=
  ⟨[], by simp [h1], fun x => by simp [h2]⟩

theorem eventDelta_trans (a b c : RunState) (h1 : EventDelta a b)
    (h2 : EventDelta b c) : EventDelta a c := by
  obtain ⟨p1, e1, v1⟩ := h1
  obtain ⟨p2, e2, v2⟩ := h2
  refine ⟨p1 ++ p2, by rw [e2, e1, List.append_assoc], ?_⟩
  intro x
  rw [v2 x, v1 x]
  constructor
  · rintro ((h | ⟨e, he, hp⟩) | ⟨e, he, hp⟩)
    · exact Or.inl h
    · exact Or.inr ⟨e, List.mem_append.mpr (Or.inl he), hp⟩
    · exact Or.inr ⟨e, List.mem_append.mpr (Or.inr he), hp⟩
  · rintro (h | ⟨e, he, hp⟩)
    · exact Or.inl (Or.inl h)
    · rcases List.mem_append.mp he with h' | h'
      · exact Or.inl (Or.inr ⟨e, h', hp⟩)
      · exact Or.inr ⟨e, h', hp⟩

theorem eventDelta_set_history (st : RunState) (h : List HistoryEntry) :
    EventDelta st { st with sub := { st.sub with history := h } } :=
  eventDelta_of_proj st _ rfl rfl

theorem legacyApply_c5 (api : PriceApi) (now : Int) (st : RunState)
    (dc status : String) :
    EventDelta st (legacyApply api now st dc status)
    ∧ (legacyApply api now st dc status).sub.planCode = st.sub.planCode
    ∧ (legacyApply api now st dc status).orders = st.orders
    ∧ (∀ e ∈ (legacyApply api now st dc status).priceEvents,
        e ∈ st.priceEvents ∨ e.isVerification = false) := by
  simp only [legacyApply]
  split
  · exact ⟨eventDelta_refl st, rfl, rfl, fun e he => Or.inl he⟩
  · split
    · exact ⟨eventDelta_refl st, rfl, rfl, fun e he => Or.inl he⟩
    · rename_i ct hct
      refine ⟨?_, rfl, rfl, ?_⟩
      · by_cases hc : ct = "available"
        · rw [if_pos hc]
          refine ⟨(getPriceInfo api st.mon st.sub.planCode dc none now).2.2.toList,
            rfl, ?_⟩
          intro x
          exact (getPriceInfo_spec api st.mon st.sub.planCode dc none now).1 x
        · rw [if_neg hc]
          exact ⟨[], by simp, fun x => by simp⟩
      · intro e he
        by_cases hc : ct = "available"
        · rw [if_pos hc] at he
          simp only [List.mem_append] at he
          rcases he with he | he
          · exact Or.inl he
          · exact Or.inr ((getPriceInfo_spec api st.mon st.sub.planCode dc none
              now).2 e he).2
        · rw [if_neg hc] at he
          simp only [Option.toList_none, List.append_nil] at he
          exact Or.inl he

theorem loop1Step_c5 (api : PriceApi) (now : Int) (st : Loop1State)
    (e : String × ConfigData) :
    EventDelta st.run (loop1Step api now st e).run
    ∧ (loop1Step api now st e).run.sub.planCode = st.run.sub.planCode
    ∧ (loop1Step api now st e).run.orders = st.run.orders
    ∧ (∀ ev ∈ (loop1Step api now st e).run.priceEvents,
        ev ∈ st.run.priceEvents ∨ ev.isVerification = false) := by
  match e with
  | (ck, ConfigData.flat status) =>
      exact legacyApply_c5 api now st.run ck status
  | (ck, ConfigData.configured memory storage options dcs) =>
      refine ⟨?_, rfl, rfl, fun ev hev => Or.inl hev⟩
      apply eventDelta_of_proj
      · rfl
      simp only [loop1Step]
      split
      · split
        · split
          · split
            · split
              · exact getCachedPrice_valid st.run.mon st.run.sub.planCode options now
              · exact getCachedPrice_valid st.run.mon st.run.sub.planCode options now
            · exact getCachedPrice_valid st.run.mon st.run.sub.planCode options now
          · rfl
        · rfl
      · rfl

theorem priceTaskStep_c5 (api : PriceApi) (now : Int) (planCode : String)
    (acc : List ConfigResult × RunState) (r : ConfigResult) :
    EventDelta acc.2 (priceTaskStep api now planCode acc r).2
    ∧ (priceTaskStep api now planCode acc r).2.sub.planCode = acc.2.sub.planCode
    ∧ (priceTaskStep api now planCode acc r).2.orders = acc.2.orders
    ∧ (∀ e ∈ (priceTaskStep api now planCode acc r).2.priceEvents,
        e ∈ acc.2.priceEvents ∨ e.isVerification = false) := by
  unfold priceTaskStep
  match hr : r.pendingDc with
  | some fdc =>
      refine ⟨?_, rfl, rfl, ?_⟩
      · refine ⟨(getPriceInfo api acc.2.mon planCode fdc (some r.info) now).2.2.toList,
          rfl, ?_⟩
        intro x
        exact (getPriceInfo_spec api acc.2.mon planCode fdc (some r.info) now).1 x
      · intro e he
        simp only [List.mem_append] at he
        rcases he with he | he
        · exact Or.inl he
        · exact Or.inr ((getPriceInfo_spec api acc.2.mon planCode fdc
            (some r.info) now).2 e he).2
  | none =>
      exact ⟨eventDelta_refl acc.2, rfl, rfl, fun e he => Or.inl he⟩

theorem autoOrderApply_c5 (api : PriceApi) (oapi : OrderApi) (st : RunState)
    (r : ConfigResult) (avail : List NotifRec) :
    EventDelta st (autoOrderApply api oapi st r avail)
    ∧ (autoOrderApply api oapi st r avail).sub.planCode = st.sub.planCode := by
  refine ⟨?_, rfl⟩
  simp only [autoOrderApply]
  split
  · exact ⟨[], by simp, fun x => by simp⟩
  · split
    · rename_i fdc hf
      split
      · split
        · refine ⟨[⟨true, st.sub.planCode, fdc, r.info.options, true⟩],
            by simp, ?_⟩
          intro x
          simp only [List.mem_singleton]
          rw [addValid_mem_iff]
          constructor
          · rintro (h | h)
            · exact Or.inl h
            · exact Or.inr ⟨⟨true, st.sub.planCode, fdc, r.info.options, true⟩,
                rfl, rfl, h.symm⟩
          · rintro (h | ⟨e, he, hok', hpl⟩)
            · exact Or.inl h
            · rw [he] at hpl
              exact Or.inr hpl.symm
        · refine ⟨[⟨true, st.sub.planCode, fdc, r.info.options, false⟩],
            by simp, ?_⟩
          intro x
          simp only [List.mem_singleton]
          constructor
          · exact Or.inl
          · rintro (h | ⟨e, he, hok', _⟩)
            · exact h
            · rw [he] at hok'
              simp at hok'
      · exact ⟨[], by simp, fun x => by simp⟩
    · exact ⟨[], by simp, fun x => by simp⟩

theorem groupedAlertApply_c5 (now : Int) (st : RunState) (r : ConfigResult)
    (avail : List NotifRec) :
    EventDelta st (groupedAlertApply now st r avail)
    ∧ (groupedAlertApply now st r avail).sub.planCode = st.sub.planCode
    ∧ (groupedAlertApply now st r avail).orders = st.orders
    ∧ (groupedAlertApply now st r avail).priceEvents = st.priceEvents := by
  refine ⟨?_, rfl, rfl, rfl⟩
  apply eventDelta_of_proj
  · rfl
  simp only [groupedAlertApply]
  repeat' split
  all_goals simp [getCachedPrice_valid]

theorem unavAlertApply_c5 (now : Int) (st : RunState) (r : ConfigResult)
    (n : NotifRec) :
    EventDelta st (unavAlertApply now st r n)
    ∧ (unavAlertApply now st r n).sub.planCode = st.sub.planCode
    ∧ (unavAlertApply now st r n).orders = st.orders
    ∧ (unavAlertApply now st r n).priceEvents = st.priceEvents := by
  refine ⟨?_, rfl, rfl, rfl⟩
  exact eventDelta_of_proj _ _ rfl rfl

theorem unavAlert_fold_c5 (now : Int) (ns : List NotifRec) (st : RunState)
    (r : ConfigResult) :
    EventDelta st (ns.foldl (fun s n => unavAlertApply now s r n) st)
    ∧ (ns.foldl (fun s n => unavAlertApply now s r n) st).sub.planCode
        = st.sub.planCode
    ∧ (ns.foldl (fun s n => unavAlertApply now s r n) st).orders = st.orders
    ∧ (ns.foldl (fun s n => unavAlertApply now s r n) st).priceEvents
        = st.priceEvents := by
  induction ns generalizing st with
  | nil => exact ⟨eventDelta_refl st, rfl, rfl, rfl⟩
  | cons n rest ih =>
      simp only [List.foldl_cons]
      obtain ⟨d1, p1, o1, e1⟩ := unavAlertApply_c5 now st r n
      obtain ⟨d2, p2, o2, e2⟩ := ih (unavAlertApply now st r n)
      exact ⟨eventDelta_trans _ _ _ d1 d2, p2.trans p1, o2.trans o1, e2.trans e1⟩

theorem processResult_delta (api : PriceApi) (oapi : OrderApi) (now : Int)
    (st : RunState) (r : ConfigResult) :
    EventDelta st (processResult api oapi now st r)
    ∧ (processResult api oapi now st r).sub.planCode = st.sub.planCode := by
  unfold processResult
  have hauto : EventDelta st
      (if (r.notifs.filter (fun n => n.changeType = "available")) ≠ [] ∧
          st.sub.autoOrder = true
       then autoOrderApply api oapi st r
          (r.notifs.filter (fun n => n.changeType = "available"))
       else st)
      ∧ (if (r.notifs.filter (fun n => n.changeType = "available")) ≠ [] ∧
          st.sub.autoOrder = true
       then autoOrderApply api oapi st r
          (r.notifs.filter (fun n => n.changeType = "available"))
       else st).sub.planCode = st.sub.planCode := by
    split
    · exact autoOrderApply_c5 api oapi st r _
    · exact ⟨eventDelta_refl st, rfl⟩
  set st1 := (if (r.notifs.filter (fun n => n.changeType = "available")) ≠ [] ∧
      st.sub.autoOrder = true
    then autoOrderApply api oapi st r
        (r.notifs.filter (fun n => n.changeType = "available"))
    else st) with hst1
  have hgrp : EventDelta st1
      (if (r.notifs.filter (fun n => n.changeType = "available")) ≠ []
       then groupedAlertApply now st1 r
          (r.notifs.filter (fun n => n.changeType = "available"))
       else st1)
      ∧ (if (r.notifs.filter (fun n => n.changeType = "available")) ≠ []
       then groupedAlertApply now st1 r
          (r.notifs.filter (fun n => n.changeType = "available"))
       else st1).sub.planCode = st1.sub.planCode := by
    split
    · exact ⟨(groupedAlertApply_c5 now st1 r _).1, (groupedAlertApply_c5 now st1 r _).2.1⟩
    · exact ⟨eventDelta_refl st1, rfl⟩
  set st2 := (if (r.notifs.filter (fun n => n.changeType = "available")) ≠ []
    then groupedAlertApply now st1 r
        (r.notifs.filter (fun n => n.changeType = "available"))
    else st1) with hst2
  obtain ⟨d3, p3, _, _⟩ := unavAlert_fold_c5 now
    (r.notifs.filter (fun n => n.changeType = "unavailable")) st2 r
  set st3 := (r.notifs.filter (fun n => n.changeType = "unavailable")).foldl
    (fun s n => unavAlertApply now s r n) st2 with hst3
  constructor
  · apply eventDelta_trans _ st3
    · exact eventDelta_trans _ st2 _ (eventDelta_trans _ st1 _ hauto.1 hgrp.1) d3
    · exact eventDelta_set_history st3 (truncateHistory st3.sub.history)
  · show st3.sub.planCode = st.sub.planCode
    rw [p3, hgrp.2, hauto.2]

theorem loop1_fold_c5 (api : PriceApi) (now : Int)
    (entries : List (String × ConfigData)) (st : Loop1State) :
    EventDelta st.run (entries.foldl (loop1Step api now) st).run
    ∧ (entries.foldl (loop1Step api now) st).run.sub.planCode
        = st.run.sub.planCode
    ∧ (entries.foldl (loop1Step api now) st).run.orders = st.run.orders
    ∧ (∀ ev ∈ (entries.foldl (loop1Step api now) st).run.priceEvents,
        ev ∈ st.run.priceEvents ∨ ev.isVerification = false) := by
  induction entries generalizing st with
  | nil => exact ⟨eventDelta_refl st.run, rfl, rfl, fun ev hev => Or.inl hev⟩
  | cons e rest ih =>
      simp only [List.foldl_cons]
      obtain ⟨d1, p1, o1, v1⟩ := loop1Step_c5 api now st e
      obtain ⟨d2, p2, o2, v2⟩ := ih (loop1Step api now st e)
      refine ⟨eventDelta_trans _ _ _ d1 d2, p2.trans p1, o2.trans o1, ?_⟩
      intro ev hev
      rcases v2 ev hev with h | h
      · exact v1 ev h
      · exact Or.inr h

theorem tasks_fold_c5 (api : PriceApi) (now : Int) (planCode : String)
    (rs : List ConfigResult) (acc : List ConfigResult × RunState) :
    EventDelta acc.2 (rs.foldl (priceTaskStep api now planCode) acc).2
    ∧ (rs.foldl (priceTaskStep api now planCode) acc).2.sub.planCode
        = acc.2.sub.planCode
    ∧ (rs.foldl (priceTaskStep api now planCode) acc).2.orders = acc.2.orders
    ∧ (∀ ev ∈ (rs.foldl (priceTaskStep api now planCode) acc).2.priceEvents,
        ev ∈ acc.2.priceEvents ∨ ev.isVerification = false) := by
  induction rs generalizing acc with
  | nil => exact ⟨eventDelta_refl acc.2, rfl, rfl, fun ev hev => Or.inl hev⟩
  | cons r rest ih =>
      simp only [List.foldl_cons]
      obtain ⟨d1, p1, o1, v1⟩ := priceTaskStep_c5 api now planCode acc r
      obtain ⟨d2, p2, o2, v2⟩ := ih (priceTaskStep api now planCode acc r)
      refine ⟨eventDelta_trans _ _ _ d1 d2, p2.trans p1, o2.trans o1, ?_⟩
      intro ev hev
      rcases v2 ev hev with h | h
      · exact v1 ev h
      · exact Or.inr h

theorem loop3_fold_delta (api : PriceApi) (oapi : OrderApi) (now : Int)
    (rs : List ConfigResult) (st : RunState) :
    EventDelta st (rs.foldl (processResult api oapi now) st)
    ∧ (rs.foldl (processResult api oapi now) st).sub.planCode
        = st.sub.planCode := by
  induction rs generalizing st with
  | nil => exact ⟨eventDelta_refl st, rfl⟩
  | cons r rest ih =>
      simp only [List.foldl_cons]
      obtain ⟨d1, p1⟩ := processResult_delta api oapi now st r
      obtain ⟨d2, p2⟩ := ih (processResult api oapi now st r)
      exact ⟨eventDelta_trans _ _ _ d1 d2, p2.trans p1⟩

theorem runLoops_delta (api : PriceApi) (oapi : OrderApi) (sub : Subscription)
    (mon : MonState) (snap : Snapshot) (now : Int) :
    EventDelta ⟨sub, mon, [], [], [], []⟩
      (runLoops api oapi sub mon snap now) := by
  obtain ⟨d1, p1, o1, v1⟩ := loop1_fold_c5 api now snap ⟨⟨sub, mon, [], [], [], []⟩, []⟩
  obtain ⟨d2, p2, o2, v2⟩ := tasks_fold_c5 api now sub.planCode
    (loop1Run api sub mon snap now).results
    ([], (loop1Run api sub mon snap now).run)
  obtain ⟨d3, p3⟩ := loop3_fold_delta api oapi now
    (taskedRun api sub mon snap now).1 (taskedRun api sub mon snap now).2
  exact eventDelta_trans _ _ _ (eventDelta_trans _ _ _ d1 d2) d3

theorem checkAvailabilityChange_delta (api : PriceApi) (oapi : OrderApi)
    (sub : Subscription) (mon : MonState) (snap : Snapshot) (now : Int) :
    EventDelta ⟨sub, mon, [], [], [], []⟩
      (checkAvailabilityChange api oapi sub mon snap now) := by
  unfold checkAvailabilityChange
  split
  · exact eventDelta_refl _
  · have := runLoops_delta api oapi sub mon snap now
    apply eventDelta_trans _ (runLoops api oapi sub mon snap now) _ this
    exact eventDelta_of_proj _ _ rfl rfl

theorem memberInv_step (plan : String) (st st' : RunState)
    (hd : EventDelta st st') (hpc : st'.sub.planCode = st.sub.planCode)
    (hords : ∀ o ∈ st'.orders, o ∈ st.orders ∨ o.skipPriceCheck = true)
    (hevs : ∀ e ∈ st'.priceEvents, e ∈ st.priceEvents ∨ e.isVerification = false)
    (hinv : MemberInv plan st) : MemberInv plan st' := by
  obtain ⟨i1, i2, i3, i4⟩ := hinv
  obtain ⟨ap, he, hv⟩ := hd
  refine ⟨hpc.trans i1, (hv plan).mpr (Or.inl i2), ?_, ?_⟩
  · intro e hep
    rcases hevs e hep with h | h
    · exact i3 e h
    · exact h
  · intro o ho
    rcases hords o ho with h | h
    · exact i4 o h
    · exact h

theorem autoOrderApply_member (api : PriceApi) (oapi : OrderApi)
    (st : RunState) (r : ConfigResult) (avail : List NotifRec) (plan : String)
    (hinv : MemberInv plan st) :
    MemberInv plan (autoOrderApply api oapi st r avail) := by
  obtain ⟨i1, i2, i3, i4⟩ := hinv
  have hv : st.sub.planCode ∈ st.mon.validPlanCodes := by rw [i1]; exact i2
  refine ⟨i1, ?_, ?_, ?_⟩
  · show plan ∈ (autoOrderApply api oapi st r avail).mon.validPlanCodes
    simp only [autoOrderApply]
    rw [if_pos hv]
    exact i2
  · intro e he
    simp only [autoOrderApply] at he
    rw [if_pos hv] at he
    simp only [List.append_nil] at he
    exact i3 e he
  · intro o ho
    simp only [autoOrderApply] at ho
    rw [if_pos hv] at ho
    simp only [List.mem_append] at ho
    rcases ho with h | h
    · exact i4 o h
    · simp only [List.mem_flatMap, List.mem_map] at h
      obtain ⟨n, hn, i, hi, hoe⟩ := h
      rw [← hoe]

theorem processResult_member (api : PriceApi) (oapi : OrderApi) (now : Int)
    (st : RunState) (r : ConfigResult) (plan : String)
    (hinv : MemberInv plan st) :
    MemberInv plan (processResult api oapi now st r) := by
  unfold processResult
  have h1 : MemberInv plan
      (if (r.notifs.filter (fun n => n.changeType = "available")) ≠ [] ∧
          st.sub.autoOrder = true
       then autoOrderApply api oapi st r
          (r.notifs.filter (fun n => n.changeType = "available"))
       else st) := by
    split
    · exact autoOrderApply_member api oapi st r _ plan hinv
    · exact hinv
  set st1 := (if (r.notifs.filter (fun n => n.changeType = "available")) ≠ [] ∧
      st.sub.autoOrder = true
    then autoOrderApply api oapi st r
        (r.notifs.filter (fun n => n.changeType = "available"))
    else st) with hst1
  have h2 : MemberInv plan
      (if (r.notifs.filter (fun n => n.changeType = "available")) ≠ []
       then groupedAlertApply now st1 r
          (r.notifs.filter (fun n => n.changeType = "available"))
       else st1) := by
    split
    · obtain ⟨gd, gp, go, ge⟩ := groupedAlertApply_c5 now st1 r
        (r.notifs.filter (fun n => n.changeType = "available"))
      apply memberInv_step plan st1 _ gd gp ?_ ?_ h1
      · intro o ho
        rw [go] at ho
        exact Or.inl ho
      · intro e he
        rw [ge] at he
        exact Or.inl he
    · exact h1
  set st2 := (if (r.notifs.filter (fun n => n.changeType = "available")) ≠ []
    then groupedAlertApply now st1 r
        (r.notifs.filter (fun n => n.changeType = "available"))
    else st1) with hst2
  obtain ⟨d3, p3, o3, e3⟩ := unavAlert_fold_c5 now
    (r.notifs.filter (fun n => n.changeType = "unavailable")) st2 r
  have h3 : MemberInv plan
      ((r.notifs.filter (fun n => n.changeType = "unavailable")).foldl
        (fun s n => unavAlertApply now s r n) st2) := by
    apply memberInv_step plan st2 _ d3 p3 ?_ ?_ h2
    · intro o ho
      rw [o3] at ho
      exact Or.inl ho
    · intro e he
      rw [e3] at he
      exact Or.inl he
  exact ⟨h3.1, h3.2.1, h3.2.2.1, h3.2.2.2⟩

theorem loop3_fold_member (api : PriceApi) (oapi : OrderApi) (now : Int)
    (rs : List ConfigResult) (st : RunState) (plan : String)
    (hinv : MemberInv plan st) :
    MemberInv plan (rs.foldl (processResult api oapi now) st) := by
  induction rs generalizing st with
  | nil => exact hinv
  | cons r rest ih =>
      simp only [List.foldl_cons]
      exact ih _ (processResult_member api oapi now st r plan hinv)

theorem check_member (api : PriceApi) (oapi : OrderApi) (sub : Subscription)
    (mon : MonState) (snap : Snapshot) (now : Int)
    (hmem : sub.planCode ∈ mon.validPlanCodes) :
    MemberInv sub.planCode (checkAvailabilityChange api oapi sub mon snap now) := by
  have hinv0 : MemberInv sub.planCode (⟨sub, mon, [], [], [], []⟩ : RunState) :=
    ⟨rfl, hmem, fun e he => absurd he (List.not_mem_nil e),
      fun o ho => absurd ho (List.not_mem_nil o)⟩
  obtain ⟨d1, p1, o1, v1⟩ := loop1_fold_c5 api now snap ⟨⟨sub, mon, [], [], [], []⟩, []⟩
  have h1 : MemberInv sub.planCode (loop1Run api sub mon snap now).run := by
    apply memberInv_step sub.planCode _ _ d1 p1 ?_ ?_ hinv0
    · intro o ho
      rw [o1] at ho
      exact Or.inl ho
    · exact v1
  obtain ⟨d2, p2, o2, v2⟩ := tasks_fold_c5 api now sub.planCode
    (loop1Run api sub mon snap now).results
    ([], (loop1Run api sub mon snap now).run)
  have h2 : MemberInv sub.planCode (taskedRun api sub mon snap now).2 := by
    apply memberInv_step sub.planCode _ _ d2 p2 ?_ ?_ h1
    · intro o ho
      rw [o2] at ho
      exact Or.inl ho
    · exact v2
  have h3 : MemberInv sub.planCode (runLoops api oapi sub mon snap now) := by
    unfold runLoops
    exact loop3_fold_member api oapi now _ _ sub.planCode h2
  unfold checkAvailabilityChange
  split
  · exact hinv0
  · exact ⟨h3.1, h3.2.1, h3.2.2.1, h3.2.2.2⟩

/-- C5: (i) the permanent valid-plan-code set grows monotonically across a
change check and across `_get_price_info` (no operation removes a member);
(ii) after a change check, a plan code is a member exactly when it was one
before or some price call of that check (verification or lookup) succeeded
for it; (iii) in an auto-order round whose plan code is already a member,
no price-verification call is issued and every submitted order request
carries skipPriceCheck = true — with no assumption about the price cache,
hence even when the cache entry has expired. -/
theorem C5_permanent_valid_set :
    (∀ (api : PriceApi) (oapi : OrderApi) (sub : Subscription) (mon : MonState)
        (snap : Snapshot) (now : Int) (x : String),
      x ∈ mon.validPlanCodes →
      x ∈ (checkAvailabilityChange api oapi sub mon snap now).mon.validPlanCodes)
    ∧ (∀ (api : PriceApi) (mon : MonState) (plan dc : String)
        (cfg : Option ConfigInfo) (now : Int) (x : String),
      x ∈ mon.validPlanCodes →
      x ∈ (getPriceInfo api mon plan dc cfg now).2.1.validPlanCodes)
    ∧ (∀ (api : PriceApi) (oapi : OrderApi) (sub : Subscription) (mon : MonState)
        (snap : Snapshot) (now : Int) (x : String),
      x ∈ (checkAvailabilityChange api oapi sub mon snap now).mon.validPlanCodes ↔
      x ∈ mon.validPlanCodes ∨
        ∃ e ∈ (checkAvailabilityChange api oapi sub mon snap now).priceEvents,
          e.ok = true ∧ e.planCode = x)
    ∧ (∀ (api : PriceApi) (oapi : OrderApi) (sub : Subscription) (mon : MonState)
        (snap : Snapshot) (now : Int), sub.autoOrder = true →
      sub.planCode ∈ mon.validPlanCodes →
      ((checkAvailabilityChange api oapi sub mon snap now).priceEvents.filter
          (fun e => e.isVerification) = []
       ∧ ∀ o ∈ (checkAvailabilityChange api oapi sub mon snap now).orders,
           o.skipPriceCheck = true)) := by
  refine ⟨?_, ?_, ?_, ?_⟩
  · intro api oapi sub mon snap now x hx
    obtain ⟨ap, he, hv⟩ := checkAvailabilityChange_delta api oapi sub mon snap now
    exact (hv x).mpr (Or.inl hx)
  · intro api mon plan dc cfg now x hx
    exact ((getPriceInfo_spec api mon plan dc cfg now).1 x).mpr (Or.inl hx)
  · intro api oapi sub mon snap now x
    obtain ⟨ap, he, hv⟩ := checkAvailabilityChange_delta api oapi sub mon snap now
    have hap : (checkAvailabilityChange api oapi sub mon snap now).priceEvents = ap := by
      rw [he]
      simp
    rw [hv x, hap]
  · intro api oapi sub mon snap now _hauto hmem
    obtain ⟨i1, i2, i3, i4⟩ := check_member api oapi sub mon snap now hmem
    constructor
    · rw [List.filter_eq_nil_iff]
      intro e he
      rw [i3 e he]
      simp
    · exact i4

/-- Witness for C5 at a concrete input: with the plan code already in the
permanent valid set, an auto-order round issues no verification call and
every order skips the price check. -/
theorem C5_permanent_valid_set_witness :
    ((checkAvailabilityChange failApi failOrderApi
        ⟨"ks1", [], true, false, true, 0, none, [], [], 0⟩
        ⟨[], ["ks1"]⟩ c4Snap 100).priceEvents.filter
        (fun e => e.isVerification) = []
     ∧ ∀ o ∈ (checkAvailabilityChange failApi failOrderApi
        ⟨"ks1", [], true, false, true, 0, none, [], [], 0⟩
        ⟨[], ["ks1"]⟩ c4Snap 100).orders, o.skipPriceCheck = true) :=
  C5_permanent_valid_set.2.2.2 failApi failOrderApi
    ⟨"ks1", [], true, false, true, 0, none, [], [], 0⟩
    ⟨[], ["ks1"]⟩ c4Snap 100 rfl (by simp)

/-! ## Character and digit lemmas -/

theorem charToNat_ofNat {n : Nat} (h : Nat.isValidChar n) :
    (Char.ofNat n).toNat = n := by
  simp [Char.ofNat, h, Char.ofNatAux, Char.toNat, UInt32.toNat]

theorem isDigit_iff (c : Char) :
    c.isDigit = true ↔ 48 ≤ c.toNat ∧ c.toNat ≤ 57 := by
  simp [Char.isDigit, UInt32.le_def, BitVec.le_def, Char.toNat, UInt32.toNat]

theorem digit_ne (c d : Char) (h48 : 48 ≤ c.toNat) (h57 : c.toNat ≤ 57)
    (hd : d.toNat < 48 ∨ 57 < d.toNat) : c ≠ d := by
  intro h
  subst h
  omega

theorem natDigits_ne_nil (n : Nat) : natDigits n ≠ [] := by
  rw [natDigits]
  split <;> simp

theorem natDigits_bounds (n : Nat) :
    ∀ c ∈ natDigits n, 48 ≤ c.toNat ∧ c.toNat ≤ 57 := by
  induction n using Nat.strong_induction_on with
  | _ n ih =>
    rw [natDigits]
    split
    · intro c hc
      simp only [List.mem_singleton] at hc
      subst hc
      rw [charToNat_ofNat (Or.inl (by omega))]
      omega
    · intro c hc
      rw [List.mem_append] at hc
      rcases hc with h | h
      · exact ih (n / 10) (Nat.div_lt_self (by omega) (by omega)) c h
      · simp only [List.mem_singleton] at h
        subst h
        rw [charToNat_ofNat (Or.inl (by omega))]
        omega

theorem natDigits_head (n : Nat) :
    ∃ c cs, natDigits n = c :: cs ∧ 48 ≤ c.toNat ∧ c.toNat ≤ 57 := by
  cases h : natDigits n with
  | nil => exact absurd h (natDigits_ne_nil n)
  | cons c cs =>
    refine ⟨c, cs, rfl, ?_⟩
    have := natDigits_bounds n c (by rw [h]; simp)
    exact this

theorem digitsToNat_append (ds : List Char) (c : Char) :
    digitsToNat (ds ++ [c]) = digitsToNat ds * 10 + (c.toNat - 48) := by
  simp [digitsToNat, List.foldl_append]

theorem digitsToNat_natDigits (n : Nat) : digitsToNat (natDigits n) = n := by
  induction n using Nat.strong_induction_on with
  | _ n ih =>
    rw [natDigits]
    split
    · rename_i h
      simp only [digitsToNat, List.foldl_cons, List.foldl_nil]
      rw [charToNat_ofNat (Or.inl (by omega))]
      omega
    · rename_i h
      rw [digitsToNat_append,
        ih (n / 10) (Nat.div_lt_self (by omega) (by omega)),
        charToNat_ofNat (Or.inl (by omega))]
      omega

theorem takeDigits_split (ds rest : List Char)
    (hd : ∀ c ∈ ds, c.isDigit = true) (hr : headNotDigit rest = true) :
    takeDigits (ds ++ rest) = (ds, rest) := by
  induction ds with
  | nil =>
    simp only [List.nil_append]
    cases rest with
    | nil => rfl
    | cons c r =>
      simp only [headNotDigit, Bool.not_eq_true'] at hr
      simp [takeDigits, hr]
  | cons c ds ih =>
    simp only [List.cons_append, takeDigits, hd c (by simp), if_true,
      List.append_eq]
    rw [ih (fun x hx => hd x (by simp [hx]))]

theorem parseNumber_intChars (i : Int) (rest : List Char)
    (hr : headNotDigit rest = true) :
    parseNumber (intChars i ++ rest) = some (i, rest) := by
  by_cases hi : i < 0
  · rw [intChars, if_pos hi, List.cons_append, parseNumber]
    rw [if_pos rfl]
    rw [takeDigits_split (natDigits i.natAbs) rest
      (fun c hc => (isDigit_iff c).mpr (natDigits_bounds _ c hc)) hr]
    rw [if_neg (natDigits_ne_nil _)]
    rw [digitsToNat_natDigits]
    simp only [Option.some.injEq, Prod.mk.injEq, and_true]
    omega
  · obtain ⟨c, cs, hc, h48, h57⟩ := natDigits_head i.toNat
    rw [intChars, if_neg hi, hc, List.cons_append, parseNumber]
    rw [if_neg (digit_ne c '-' h48 h57 (by decide))]
    rw [show c :: (cs ++ rest) = (c :: cs) ++ rest from rfl, ← hc]
    rw [takeDigits_split (natDigits i.toNat) rest
      (fun x hx => (isDigit_iff x).mpr (natDigits_bounds _ x hx)) hr]
    rw [if_neg (natDigits_ne_nil _)]
    rw [digitsToNat_natDigits]
    simp only [Option.some.injEq, Prod.mk.injEq, and_true]
    omega

/-! ## String-literal roundtrip -/

theorem hexVal_hexDigit (k : Nat) (hk : k < 16) :
    hexVal (hexDigit k) = some k := by
  rw [hexDigit]
  by_cases h : k < 10
  · rw [if_pos h, hexVal, charToNat_ofNat (Or.inl (by omega))]
    rw [if_pos (by omega)]
    simp only [Option.some.injEq]
    omega
  · rw [if_neg h, hexVal, charToNat_ofNat (Or.inl (by omega))]
    rw [if_neg (by omega), if_pos (by omega)]
    simp only [Option.some.injEq]
    omega

theorem hexVal_zero : hexVal '0' = some 0 := by decide

theorem parseStr_flatMap (s rest : List Char) :
    parseStr (s.flatMap escapeChar ++ ('"' :: rest)) = some (s, rest) := by
  induction s with
  | nil =>
    rw [List.flatMap_nil, List.nil_append, parseStr.eq_def]
    simp
  | cons c s ih =>
    rw [List.flatMap_cons, List.append_assoc]
    by_cases h1 : c = '"'
    · subst h1
      rw [show escapeChar '"' = ['\\', '"'] from by decide]
      simp only [List.cons_append, List.nil_append]
      rw [parseStr.eq_def]
      simp [ih]
    · by_cases h2 : c = '\\'
      · subst h2
        rw [show escapeChar '\\' = ['\\', '\\'] from by decide]
        simp only [List.cons_append, List.nil_append]
        rw [parseStr.eq_def]
        simp [ih]
      · by_cases h3 : c = Char.ofNat 8
        · subst h3
          rw [show escapeChar (Char.ofNat 8) = ['\\', 'b'] from by decide]
          simp only [List.cons_append, List.nil_append]
          rw [parseStr.eq_def]
          simp [ih]
        · by_cases h4 : c = Char.ofNat 9
          · subst h4
            rw [show escapeChar (Char.ofNat 9) = ['\\', 't'] from by decide]
            simp only [List.cons_append, List.nil_append]
            rw [parseStr.eq_def]
            simp [ih]
          · by_cases h5 : c = Char.ofNat 10
            · subst h5
              rw [show escapeChar (Char.ofNat 10) = ['\\', 'n'] from
                by decide]
              simp only [List.cons_append, List.nil_append]
              rw [parseStr.eq_def]
              simp [ih]
            · by_cases h6 : c = Char.ofNat 12
              · subst h6
                rw [show escapeChar (Char.ofNat 12) = ['\\', 'f'] from
                  by decide]
                simp only [List.cons_append, List.nil_append]
                rw [parseStr.eq_def]
                simp [ih]
              · by_cases h7 : c = Char.ofNat 13
                · subst h7
                  rw [show escapeChar (Char.ofNat 13) = ['\\', 'r'] from
                    by decide]
                  simp only [List.cons_append, List.nil_append]
                  rw [parseStr.eq_def]
                  simp [ih]
                · by_cases h8 : c.toNat < 32
                  · rw [escapeChar, if_neg h1, if_neg h2, if_neg h3,
                      if_neg h4, if_neg h5, if_neg h6, if_neg h7, if_pos h8]
                    have hv16 : hexVal (hexDigit (c.toNat / 16)) =
                        some (c.toNat / 16) := hexVal_hexDigit _ (by omega)
                    have hv1 : hexVal (hexDigit (c.toNat % 16)) =
                        some (c.toNat % 16) := hexVal_hexDigit _ (by omega)
                    simp only [List.cons_append, List.nil_append]
                    rw [parseStr.eq_def]
                    simp only [hexVal_zero, hv16, hv1, ih]
                    have hcode :
                        ((0 * 16 + 0) * 16 + c.toNat / 16) * 16 +
                          c.toNat % 16 = c.toNat := by omega
                    simp only [hcode]
                    have hvalid : Nat.isValidChar c.toNat := c.valid
                    simp [hvalid, Char.ofNat_toNat]
                  · rw [escapeChar, if_neg h1, if_neg h2, if_neg h3,
                      if_neg h4, if_neg h5, if_neg h6, if_neg h7, if_neg h8]
                    rw [List.singleton_append, parseStr.eq_def]
                    simp [h1, h2, ih]

/-! ## Shape of encoded values -/

theorem intChars_head (i : Int) :
    ∃ c cs, intChars i = c :: cs ∧
      (c = '-' ∨ (48 ≤ c.toNat ∧ c.toNat ≤ 57)) := by
  rw [intChars]
  by_cases hi : i < 0
  · rw [if_pos hi]
    exact ⟨'-', _, rfl, Or.inl rfl⟩
  · rw [if_neg hi]
    obtain ⟨c, cs, hc, h48, h57⟩ := natDigits_head i.toNat
    exact ⟨c, cs, hc, Or.inr ⟨h48, h57⟩⟩

theorem serVal_head (v : Json) :
    ∃ c cs, serVal v = c :: cs ∧ c ≠ ']' ∧ c ≠ '}' ∧ c ≠ 'b' := by
  cases v with
  | null =>
    exact ⟨'n', ['u', 'l', 'l'], by rw [serVal], by decide, by decide,
      by decide⟩
  | bool b =>
    cases b with
    | true =>
      exact ⟨'t', ['r', 'u', 'e'], by rw [serVal], by decide, by decide,
        by decide⟩
    | false =>
      exact ⟨'f', ['a', 'l', 's', 'e'], by rw [serVal], by decide,
        by decide, by decide⟩
  | num i =>
    obtain ⟨c, cs, hc, hd⟩ := intChars_head i
    refine ⟨c, cs, by rw [serVal, hc], ?_, ?_, ?_⟩
    · rcases hd with h | ⟨h48, h57⟩
      · subst h; decide
      · exact digit_ne c ']' h48 h57 (by decide)
    · rcases hd with h | ⟨h48, h57⟩
      · subst h; decide
      · exact digit_ne c '}' h48 h57 (by decide)
    · rcases hd with h | ⟨h48, h57⟩
      · subst h; decide
      · exact digit_ne c 'b' h48 h57 (by decide)
  | str s =>
    refine ⟨'"', s.flatMap escapeChar ++ ['"'], ?_, by decide, by decide,
      by decide⟩
    rw [serVal, serStr]
  | arr xs =>
    refine ⟨'[', serItems xs ++ [']'], ?_, by decide, by decide, by decide⟩
    rw [serVal, List.cons_append]
  | obj fs =>
    refine ⟨'{', serFields fs ++ ['}'], ?_, by decide, by decide, by decide⟩
    rw [serVal, List.cons_append]

theorem serItems_shape (x : Json) (tl : JsonList) :
    ∃ T, serItems (JsonList.cons x tl) = serVal x ++ T := by
  cases tl with
  | nil => exact ⟨[], by rw [serItems, List.append_nil]⟩
  | cons y tl2 =>
    exact ⟨',' :: serItems (JsonList.cons y tl2),
      by rw [serItems, List.append_assoc]; rfl⟩

theorem serFields_head (k : List Char) (v : Json) (tl : JsonFields) :
    ∃ T, serFields (JsonFields.cons k v tl) = '"' :: T := by
  cases tl with
  | nil =>
    refine ⟨((k.flatMap escapeChar ++ ['"']) ++ [':']) ++ serVal v, ?_⟩
    rw [serFields, serStr]
    simp [List.append_assoc]
  | cons k2 v2 tl2 =>
    refine ⟨((k.flatMap escapeChar ++ ['"']) ++ [':']) ++
      ((serVal v ++ [',']) ++ serFields (JsonFields.cons k2 v2 tl2)), ?_⟩
    rw [serFields, serStr]
    simp [List.append_assoc]

theorem sizeVal_pos (v : Json) : 1 ≤ sizeVal v := by
  cases v <;> rw [sizeVal] <;> omega

/-! ## The parser inverts the encoder -/

theorem pvCons (f : Nat) (c : Char) (r : List Char) :
    parseVal (f + 1) (c :: r) =
      (if c = 'n' then
        (match r with
         | 'u' :: 'l' :: 'l' :: r2 => some (Json.null, r2)
         | _ => none)
      else if c = 't' then
        (match r with
         | 'r' :: 'u' :: 'e' :: r2 => some (Json.bool true, r2)
         | _ => none)
      else if c = 'f' then
        (match r with
         | 'a' :: 'l' :: 's' :: 'e' :: r2 => some (Json.bool false, r2)
         | _ => none)
      else if c = '"' then (parseStr r).map (fun p => (Json.str p.1, p.2))
      else if c = '[' then
        (match r with
         | ']' :: r2 => some (Json.arr JsonList.nil, r2)
         | _ => (parseItems f r).map (fun p => (Json.arr p.1, p.2)))
      else if c = '{' then
        (match r with
         | '}' :: r2 => some (Json.obj JsonFields.nil, r2)
         | _ => (parseFields f r).map (fun p => (Json.obj p.1, p.2)))
      else (parseNumber (c :: r)).map (fun p => (Json.num p.1, p.2))) := rfl

theorem piSucc (f : Nat) (l : List Char) :
    parseItems (f + 1) l =
      (match parseVal f l with
       | some (v, r) =>
         (match r with
          | ',' :: r2 =>
              (parseItems f r2).map (fun p => (JsonList.cons v p.1, p.2))
          | ']' :: r2 => some (JsonList.cons v JsonList.nil, r2)
          | _ => none)
       | none => none) := rfl

theorem pfSucc (f : Nat) (l : List Char) :
    parseFields (f + 1) l =
      (match l with
       | '"' :: r0 =>
         (match parseStr r0 with
          | some (k, r1) =>
            (match r1 with
             | ':' :: r2 =>
               (match parseVal f r2 with
                | some (v, r3) =>
                  (match r3 with
                   | ',' :: r4 =>
                       (parseFields f r4).map
                         (fun p => (JsonFields.cons k v p.1, p.2))
                   | '}' :: r4 =>
                       some (JsonFields.cons k v JsonFields.nil, r4)
                   | _ => none)
                | none => none)
             | _ => none)
          | none => none)
       | _ => none) := rfl

mutual

theorem parseVal_ser (v : Json) (fuel : Nat) (rest : List Char)
    (hf : sizeVal v ≤ fuel) (hr : headNotDigit rest = true) :
    parseVal fuel (serVal v ++ rest) = some (v, rest) := by
  obtain ⟨f, rfl⟩ : ∃ f, fuel = f + 1 :=
    ⟨fuel - 1, by have := sizeVal_pos v; omega⟩
  cases v with
  | null =>
    rw [serVal]
    simp only [List.cons_append, List.nil_append]
    rw [pvCons]
    simp
  | bool b =>
    cases b with
    | true =>
      rw [serVal]
      simp only [List.cons_append, List.nil_append]
      rw [pvCons]
      simp
    | false =>
      rw [serVal]
      simp only [List.cons_append, List.nil_append]
      rw [pvCons]
      simp
  | num i =>
    obtain ⟨c, cs, hc, hd⟩ := intChars_head i
    have d1 : c ≠ 'n' := by
      rcases hd with h | ⟨h48, h57⟩
      · subst h; decide
      · exact digit_ne c 'n' h48 h57 (by decide)
    have d2 : c ≠ 't' := by
      rcases hd with h | ⟨h48, h57⟩
      · subst h; decide
      · exact digit_ne c 't' h48 h57 (by decide)
    have d3 : c ≠ 'f' := by
      rcases hd with h | ⟨h48, h57⟩
      · subst h; decide
      · exact digit_ne c 'f' h48 h57 (by decide)
    have d4 : c ≠ '"' := by
      rcases hd with h | ⟨h48, h57⟩
      · subst h; decide
      · exact digit_ne c '"' h48 h57 (by decide)
    have d5 : c ≠ '[' := by
      rcases hd with h | ⟨h48, h57⟩
      · subst h; decide
      · exact digit_ne c '[' h48 h57 (by decide)
    have d6 : c ≠ '{' := by
      rcases hd with h | ⟨h48, h57⟩
      · subst h; decide
      · exact digit_ne c '{' h48 h57 (by decide)
    rw [serVal, hc, List.cons_append, pvCons]
    simp only [d1, d2, d3, d4, d5, d6, if_false]
    rw [show c :: (cs ++ rest) = intChars i ++ rest from by rw [hc]; rfl]
    rw [parseNumber_intChars i rest hr]
    rfl
  | str s =>
    rw [serVal, serStr]
    simp only [List.cons_append, List.append_assoc, List.singleton_append]
    rw [pvCons]
    simp [parseStr_flatMap]
  | arr xs =>
    cases xs with
    | nil =>
      rw [serVal, serItems]
      simp only [List.cons_append, List.nil_append, List.singleton_append]
      rw [pvCons]
      simp
    | cons x tl =>
      have hfi : sizeItems (JsonList.cons x tl) ≤ f := by
        rw [sizeVal] at hf
        omega
      obtain ⟨T, hT⟩ := serItems_shape x tl
      obtain ⟨c0, cs0, hc0, hne1, _, _⟩ := serVal_head x
      have hflat : serVal (Json.arr (JsonList.cons x tl)) ++ rest =
          '[' :: (serItems (JsonList.cons x tl) ++ (']' :: rest)) := by
        rw [serVal]
        simp [List.append_assoc]
      have hscr : serItems (JsonList.cons x tl) ++ (']' :: rest) =
          c0 :: (cs0 ++ (T ++ (']' :: rest))) := by
        rw [hT, hc0]
        simp [List.append_assoc]
      rw [hflat, pvCons, hscr]
      simp [hne1]
      rw [← hscr, parseItems_ser (JsonList.cons x tl) f rest (by simp) hfi]
  | obj fs =>
    cases fs with
    | nil =>
      rw [serVal, serFields]
      simp only [List.cons_append, List.nil_append, List.singleton_append]
      rw [pvCons]
      simp
    | cons k v tl =>
      have hfi : sizeFields (JsonFields.cons k v tl) ≤ f := by
        rw [sizeVal] at hf
        omega
      obtain ⟨T, hT⟩ := serFields_head k v tl
      have hflat : serVal (Json.obj (JsonFields.cons k v tl)) ++ rest =
          '{' :: (serFields (JsonFields.cons k v tl) ++ ('}' :: rest)) := by
        rw [serVal]
        simp [List.append_assoc]
      have hscr : serFields (JsonFields.cons k v tl) ++ ('}' :: rest) =
          '"' :: (T ++ ('}' :: rest)) := by
        rw [hT]
        simp
      rw [hflat, pvCons, hscr]
      simp
      rw [← hscr, parseFields_ser (JsonFields.cons k v tl) f rest (by simp)
        hfi]

theorem parseItems_ser (xs : JsonList) (fuel : Nat) (rest : List Char)
    (hne : xs ≠ JsonList.nil) (hf : sizeItems xs ≤ fuel) :
    parseItems fuel (serItems xs ++ (']' :: rest)) = some (xs, rest) := by
  cases xs with
  | nil => exact absurd rfl hne
  | cons x tl =>
    rw [sizeItems] at hf
    obtain ⟨f, rfl⟩ : ∃ f, fuel = f + 1 := ⟨fuel - 1, by omega⟩
    have hfx : sizeVal x ≤ f := by omega
    cases tl with
    | nil =>
      rw [serItems, piSucc]
      simp [parseVal_ser x f (']' :: rest) hfx (by rfl)]
    | cons y tl2 =>
      have hftl : sizeItems (JsonList.cons y tl2) ≤ f := by omega
      have hflat :
          serItems (JsonList.cons x (JsonList.cons y tl2)) ++ (']' :: rest) =
            serVal x ++
              (',' :: (serItems (JsonList.cons y tl2) ++ (']' :: rest))) := by
        rw [serItems]
        simp [List.append_assoc]
      rw [hflat, piSucc]
      simp [parseVal_ser x f
          (',' :: (serItems (JsonList.cons y tl2) ++ (']' :: rest))) hfx
          (by rfl),
        parseItems_ser (JsonList.cons y tl2) f rest (by simp) hftl]

theorem parseFields_ser (fs : JsonFields) (fuel : Nat) (rest : List Char)
    (hne : fs ≠ JsonFields.nil) (hf : sizeFields fs ≤ fuel) :
    parseFields fuel (serFields fs ++ ('}' :: rest)) = some (fs, rest) := by
  cases fs with
  | nil => exact absurd rfl hne
  | cons k v tl =>
    rw [sizeFields] at hf
    obtain ⟨f, rfl⟩ : ∃ f, fuel = f + 1 := ⟨fuel - 1, by omega⟩
    have hfv : sizeVal v ≤ f := by omega
    cases tl with
    | nil =>
      have hflat :
          serFields (JsonFields.cons k v JsonFields.nil) ++ ('}' :: rest) =
            '"' :: (k.flatMap escapeChar ++
              ('"' :: (':' :: (serVal v ++ ('}' :: rest))))) := by
        rw [serFields, serStr]
        simp [List.append_assoc]
      rw [hflat, pfSucc]
      simp [parseStr_flatMap,
        parseVal_ser v f ('}' :: rest) hfv (by rfl)]
    | cons k2 v2 tl2 =>
      have hftl : sizeFields (JsonFields.cons k2 v2 tl2) ≤ f := by omega
      have hflat :
          serFields (JsonFields.cons k v (JsonFields.cons k2 v2 tl2)) ++
              ('}' :: rest) =
            '"' :: (k.flatMap escapeChar ++
              ('"' :: (':' :: (serVal v ++
                (',' :: (serFields (JsonFields.cons k2 v2 tl2) ++
                  ('}' :: rest))))))) := by
        rw [serFields, serStr]
        simp [List.append_assoc]
      rw [hflat, pfSucc]
      simp [parseStr_flatMap,
        parseVal_ser v f
          (',' :: (serFields (JsonFields.cons k2 v2 tl2) ++ ('}' :: rest)))
          hfv (by rfl),
        parseFields_ser (JsonFields.cons k2 v2 tl2) f rest (by simp) hftl]

end

/-! ## Fuel bound and full-input parse -/

mutual

theorem sizeVal_le (v : Json) : sizeVal v ≤ (serVal v).length := by
  cases v with
  | null =>
    rw [sizeVal, serVal]
    simp
  | bool b =>
    cases b <;> rw [sizeVal, serVal] <;> simp
  | num i =>
    rw [sizeVal]
    have hne : intChars i ≠ [] := by
      rw [intChars]
      split
      · simp
      · exact natDigits_ne_nil _
    have hlen := List.length_pos.mpr hne
    rw [serVal]
    omega
  | str s =>
    rw [sizeVal, serVal, serStr]
    simp
  | arr xs =>
    have h := sizeItems_le xs
    rw [sizeVal, serVal]
    simp only [List.length_append, List.length_cons, List.length_singleton]
    omega
  | obj fs =>
    have h := sizeFields_le fs
    rw [sizeVal, serVal]
    simp only [List.length_append, List.length_cons, List.length_singleton]
    omega

theorem sizeItems_le (xs : JsonList) :
    sizeItems xs ≤ (serItems xs).length + 1 := by
  cases xs with
  | nil =>
    rw [sizeItems]
    simp
  | cons x tl =>
    cases tl with
    | nil =>
      have h := sizeVal_le x
      rw [sizeItems, sizeItems, serItems]
      omega
    | cons y tl2 =>
      have h1 := sizeVal_le x
      have h2 := sizeItems_le (JsonList.cons y tl2)
      rw [sizeItems, serItems]
      simp only [List.length_append, List.length_cons, List.length_singleton]
      omega

theorem sizeFields_le (fs : JsonFields) :
    sizeFields fs ≤ (serFields fs).length + 1 := by
  cases fs with
  | nil =>
    rw [sizeFields]
    simp
  | cons k v tl =>
    cases tl with
    | nil =>
      have h := sizeVal_le v
      rw [sizeFields, sizeFields, serFields]
      simp only [List.length_append, List.length_cons, List.length_singleton]
      omega
    | cons k2 v2 tl2 =>
      have h1 := sizeVal_le v
      have h2 := sizeFields_le (JsonFields.cons k2 v2 tl2)
      rw [sizeFields, serFields]
      simp only [List.length_append, List.length_cons, List.length_singleton]
      omega

end

theorem parseJson_serVal (v : Json) : parseJson (serVal v) = some v := by
  have h := parseVal_ser v ((serVal v).length + 1) []
    (by have := sizeVal_le v; omega) rfl
  rw [List.append_nil] at h
  rw [parseJson, h]

/-! ## UTF-8 roundtrip -/

theorem char_lt (c : Char) : c.toNat < 1114112 := by
  have hv : Nat.isValidChar c.toNat := c.valid
  rcases hv with h | h
  · omega
  · omega

theorem udCons (f : Nat) (b0 : Nat) (rest : List Nat) :
    utf8DecodeF (f + 1) (b0 :: rest) =
      (if b0 < 128 then
        (utf8DecodeF f rest).map (fun cs => Char.ofNat b0 :: cs)
      else if b0 < 192 then none
      else if b0 < 224 then
        (match rest with
         | b1 :: r =>
           if 128 ≤ b1 ∧ b1 < 192 then
             let n := (b0 - 192) * 64 + (b1 - 128)
             if 128 ≤ n ∧ Nat.isValidChar n then
               (utf8DecodeF f r).map (fun cs => Char.ofNat n :: cs)
             else none
           else none
         | [] => none)
      else if b0 < 240 then
        (match rest with
         | b1 :: b2 :: r =>
           if (128 ≤ b1 ∧ b1 < 192) ∧ (128 ≤ b2 ∧ b2 < 192) then
             let n := (b0 - 224) * 4096 + (b1 - 128) * 64 + (b2 - 128)
             if 2048 ≤ n ∧ Nat.isValidChar n then
               (utf8DecodeF f r).map (fun cs => Char.ofNat n :: cs)
             else none
           else none
         | _ => none)
      else if b0 < 248 then
        (match rest with
         | b1 :: b2 :: b3 :: r =>
           if (128 ≤ b1 ∧ b1 < 192) ∧ (128 ≤ b2 ∧ b2 < 192) ∧
               (128 ≤ b3 ∧ b3 < 192) then
             let n := (b0 - 240) * 262144 + (b1 - 128) * 4096 +
               (b2 - 128) * 64 + (b3 - 128)
             if 65536 ≤ n ∧ Nat.isValidChar n then
               (utf8DecodeF f r).map (fun cs => Char.ofNat n :: cs)
             else none
           else none
         | _ => none)
      else none) := rfl

theorem utf8CharF (f : Nat) (c : Char) (bs : List Nat) :
    utf8DecodeF (f + 1) (utf8EncodeChar c ++ bs) =
      (utf8DecodeF f bs).map (fun cs => c :: cs) := by
  have hv : Nat.isValidChar c.toNat := c.valid
  have hlt : c.toNat < 1114112 := char_lt c
  simp only [utf8EncodeChar]
  by_cases h1 : c.toNat < 128
  · rw [if_pos h1, List.singleton_append, udCons]
    simp [h1, Char.ofNat_toNat]
  · by_cases h2 : c.toNat < 2048
    · rw [if_neg h1, if_pos h2]
      simp only [List.cons_append, List.nil_append]
      rw [udCons]
      have c1 : ¬(192 + c.toNat / 64 < 128) := by omega
      have c2 : ¬(192 + c.toNat / 64 < 192) := by omega
      have c3 : 192 + c.toNat / 64 < 224 := by omega
      have c4 : 128 ≤ 128 + c.toNat % 64 := by omega
      have c5 : 128 + c.toNat % 64 < 192 := by omega
      have harith : (192 + c.toNat / 64 - 192) * 64 +
          (128 + c.toNat % 64 - 128) = c.toNat := by omega
      have c6 : 128 ≤ c.toNat := by omega
      simp [c1, c2, c3, c4, c5]
      rw [show c.toNat / 64 * 64 + c.toNat % 64 = c.toNat from by omega]
      rw [if_pos ⟨c6, hv⟩, Char.ofNat_toNat]
    · by_cases h3 : c.toNat < 65536
      · rw [if_neg h1, if_neg h2, if_pos h3]
        simp only [List.cons_append, List.nil_append]
        rw [udCons]
        have c1 : ¬(224 + c.toNat / 4096 < 128) := by omega
        have c2 : ¬(224 + c.toNat / 4096 < 192) := by omega
        have c3 : ¬(224 + c.toNat / 4096 < 224) := by omega
        have c4 : 224 + c.toNat / 4096 < 240 := by omega
        have c5 : 128 ≤ 128 + c.toNat / 64 % 64 := by omega
        have c6 : 128 + c.toNat / 64 % 64 < 192 := by omega
        have c7 : 128 ≤ 128 + c.toNat % 64 := by omega
        have c8 : 128 + c.toNat % 64 < 192 := by omega
        have harith : (224 + c.toNat / 4096 - 224) * 4096 +
            (128 + c.toNat / 64 % 64 - 128) * 64 +
            (128 + c.toNat % 64 - 128) = c.toNat := by omega
        have c9 : 2048 ≤ c.toNat := by omega
        simp [c1, c2, c3, c4, c5, c6, c7, c8]
        rw [show c.toNat / 4096 * 4096 + c.toNat / 64 % 64 * 64 +
          c.toNat % 64 = c.toNat from by omega]
        rw [if_pos ⟨c9, hv⟩, Char.ofNat_toNat]
      · rw [if_neg h1, if_neg h2, if_neg h3]
        simp only [List.cons_append, List.nil_append]
        rw [udCons]
        have c1 : ¬(240 + c.toNat / 262144 < 128) := by omega
        have c2 : ¬(240 + c.toNat / 262144 < 192) := by omega
        have c3 : ¬(240 + c.toNat / 262144 < 224) := by omega
        have c4 : ¬(240 + c.toNat / 262144 < 240) := by omega
        have c5 : 240 + c.toNat / 262144 < 248 := by omega
        have c6 : 128 ≤ 128 + c.toNat / 4096 % 64 := by omega
        have c7 : 128 + c.toNat / 4096 % 64 < 192 := by omega
        have c8 : 128 ≤ 128 + c.toNat / 64 % 64 := by omega
        have c9 : 128 + c.toNat / 64 % 64 < 192 := by omega
        have c10 : 128 ≤ 128 + c.toNat % 64 := by omega
        have c11 : 128 + c.toNat % 64 < 192 := by omega
        have harith : (240 + c.toNat / 262144 - 240) * 262144 +
            (128 + c.toNat / 4096 % 64 - 128) * 4096 +
            (128 + c.toNat / 64 % 64 - 128) * 64 +
            (128 + c.toNat % 64 - 128) = c.toNat := by omega
        have c12 : 65536 ≤ c.toNat := by omega
        simp [c1, c2, c3, c4, c5, c6, c7, c8, c9, c10, c11]
        rw [show c.toNat / 262144 * 262144 + c.toNat / 4096 % 64 * 4096 +
          c.toNat / 64 % 64 * 64 + c.toNat % 64 = c.toNat from by omega]
        rw [if_pos ⟨c12, hv⟩, Char.ofNat_toNat]

theorem utf8EncodeChar_len (c : Char) : 1 ≤ (utf8EncodeChar c).length := by
  simp only [utf8EncodeChar]
  split
  · simp
  · split
    · simp
    · split <;> simp

theorem utf8Encode_len (s : List Char) :
    s.length ≤ (utf8Encode s).length := by
  induction s with
  | nil => simp [utf8Encode]
  | cons c s ih =>
    rw [utf8Encode, List.flatMap_cons, List.length_append, List.length_cons]
    rw [utf8Encode] at ih
    have := utf8EncodeChar_len c
    omega

theorem utf8F_roundtrip (s : List Char) (f : Nat) (hf : s.length ≤ f) :
    utf8DecodeF f (utf8Encode s) = some s := by
  induction s generalizing f with
  | nil =>
    rw [show utf8Encode [] = [] from rfl]
    cases f <;> rfl
  | cons c s ih =>
    obtain ⟨g, rfl⟩ : ∃ g, f = g + 1 :=
      ⟨f - 1, by simp at hf; omega⟩
    rw [utf8Encode, List.flatMap_cons]
    rw [show s.flatMap utf8EncodeChar = utf8Encode s from rfl]
    rw [utf8CharF, ih g (by simp at hf; omega)]
    rfl

theorem utf8_roundtrip (s : List Char) :
    utf8Decode (utf8Encode s) = some s := by
  rw [utf8Decode]
  exact utf8F_roundtrip s _ (utf8Encode_len s)

theorem utf8EncodeChar_lt256 (c : Char) : ∀ b ∈ utf8EncodeChar c, b < 256 := by
  have hlt := char_lt c
  intro b hb
  simp only [utf8EncodeChar] at hb
  by_cases h1 : c.toNat < 128
  · rw [if_pos h1] at hb
    simp at hb
    omega
  · by_cases h2 : c.toNat < 2048
    · rw [if_neg h1, if_pos h2] at hb
      simp at hb
      rcases hb with h | h <;> omega
    · by_cases h3 : c.toNat < 65536
      · rw [if_neg h1, if_neg h2, if_pos h3] at hb
        simp at hb
        rcases hb with h | h | h <;> omega
      · rw [if_neg h1, if_neg h2, if_neg h3] at hb
        simp at hb
        rcases hb with h | h | h | h <;> omega

theorem utf8Encode_lt256 (s : List Char) : ∀ b ∈ utf8Encode s, b < 256 := by
  intro b hb
  rw [utf8Encode, List.mem_flatMap] at hb
  obtain ⟨c, _, hbc⟩ := hb
  exact utf8EncodeChar_lt256 c b hbc

/-! ## Base64 roundtrip and padding -/

theorem b64enc6_lt_ne : ∀ n, n < 64 → b64enc6 n ≠ '=' := by decide

theorem b64enc6_ne_pad (n : Nat) : b64enc6 n ≠ '=' := by
  by_cases h : n < 64
  · exact b64enc6_lt_ne n h
  · rw [b64enc6, List.getD_eq_default]
    · decide
    · have hlen : b64alpha.length = 64 := rfl
      omega

theorem b64dec6_enc6 : ∀ n, n < 64 → b64dec6 (b64enc6 n) = some n := by
  decide

theorem bdQuad (w x y z : Char) (rest : List Char) :
    b64decode (w :: x :: y :: z :: rest) =
      (match b64dec6 w, b64dec6 x with
       | some wv, some xv =>
         if y = '=' ∧ z = '=' ∧ rest = [] then
           some [wv * 4 + xv / 16]
         else
           match b64dec6 y with
           | some yv =>
             if z = '=' ∧ rest = [] then
               some [wv * 4 + xv / 16, xv % 16 * 16 + yv / 4]
             else
               match b64dec6 z with
               | some zv =>
                   (b64decode rest).map (fun bs =>
                     (wv * 4 + xv / 16) :: (xv % 16 * 16 + yv / 4) ::
                       (yv % 4 * 64 + zv) :: bs)
               | none => none
           | none => none
       | _, _ => none) := rfl

theorem b64_roundtrip : ∀ bs : List Nat, (∀ b ∈ bs, b < 256) →
    b64decode (b64encode bs) = some bs
  | [], _ => rfl
  | [a], h => by
      have ha : a < 256 := h a (by simp)
      rw [b64encode, bdQuad]
      rw [b64dec6_enc6 (a / 4) (by omega),
        b64dec6_enc6 (a % 4 * 16) (by omega)]
      simp
      omega
  | [a, b], h => by
      have ha : a < 256 := h a (by simp)
      have hb : b < 256 := h b (by simp)
      rw [b64encode, bdQuad]
      rw [b64dec6_enc6 (a / 4) (by omega),
        b64dec6_enc6 (a % 4 * 16 + b / 16) (by omega),
        b64dec6_enc6 (b % 16 * 4) (by omega)]
      simp [b64enc6_ne_pad]
      omega
  | a :: b :: c :: rest, h => by
      have ha : a < 256 := h a (by simp)
      have hb : b < 256 := h b (by simp)
      have hc : c < 256 := h c (by simp)
      rw [b64encode, bdQuad]
      rw [b64dec6_enc6 (a / 4) (by omega),
        b64dec6_enc6 (a % 4 * 16 + b / 16) (by omega),
        b64dec6_enc6 (b % 16 * 4 + c / 64) (by omega),
        b64dec6_enc6 (c % 64) (by omega)]
      rw [b64_roundtrip rest (fun x hx => h x (by simp [hx]))]
      simp [b64enc6_ne_pad]
      omega

theorem stripPadding_append (l m : List Char) :
    stripPadding (l ++ m) =
      if stripPadding m = [] then stripPadding l
      else l ++ stripPadding m := by
  induction l with
  | nil =>
    simp only [List.nil_append]
    by_cases hm : stripPadding m = []
    · rw [if_pos hm, hm]
      rfl
    · rw [if_neg hm]
  | cons c l ih =>
    by_cases hm : stripPadding m = []
    · rw [if_pos hm, List.cons_append, stripPadding, ih, if_pos hm,
        stripPadding]
    · rw [if_neg hm, List.cons_append, stripPadding, ih, if_neg hm]
      cases hsm : stripPadding m with
      | nil => exact absurd hsm hm
      | cons d r =>
        cases l with
        | nil => simp
        | cons e l2 => simp

theorem stripPadding_no_pad (l : List Char) (h : ∀ c ∈ l, c ≠ '=') :
    stripPadding l = l := by
  induction l with
  | nil => rfl
  | cons c l ih =>
    rw [stripPadding, ih (fun x hx => h x (by simp [hx]))]
    cases l with
    | nil => simp [h c (by simp)]
    | cons d r => rfl

theorem b64encodeRaw_ne_nil : ∀ bs : List Nat, bs ≠ [] →
    b64encodeRaw bs ≠ []
  | [], hne => absurd rfl hne
  | [a], _ => by rw [b64encodeRaw]; simp
  | [a, b], _ => by rw [b64encodeRaw]; simp
  | a :: b :: c :: rest, _ => by rw [b64encodeRaw]; simp

theorem strip_b64encode : ∀ bs : List Nat,
    stripPadding (b64encode bs) = b64encodeRaw bs
  | [] => rfl
  | [a] => by
      rw [b64encode, b64encodeRaw]
      rw [show ([b64enc6 (a / 4), b64enc6 (a % 4 * 16), '=', '='] :
          List Char) =
        [b64enc6 (a / 4), b64enc6 (a % 4 * 16)] ++ ['=', '='] from rfl]
      rw [stripPadding_append, if_pos (by rfl)]
      exact stripPadding_no_pad _ (by
        intro x hx
        simp at hx
        rcases hx with rfl | rfl <;> exact b64enc6_ne_pad _)
  | [a, b] => by
      rw [b64encode, b64encodeRaw]
      rw [show ([b64enc6 (a / 4), b64enc6 (a % 4 * 16 + b / 16),
          b64enc6 (b % 16 * 4), '='] : List Char) =
        [b64enc6 (a / 4), b64enc6 (a % 4 * 16 + b / 16),
          b64enc6 (b % 16 * 4)] ++ ['='] from rfl]
      rw [stripPadding_append, if_pos (by rfl)]
      exact stripPadding_no_pad _ (by
        intro x hx
        simp at hx
        rcases hx with rfl | rfl | rfl <;> exact b64enc6_ne_pad _)
  | a :: b :: c :: rest => by
      rw [b64encode, b64encodeRaw]
      rw [show (b64enc6 (a / 4) :: b64enc6 (a % 4 * 16 + b / 16) ::
          b64enc6 (b % 16 * 4 + c / 64) :: b64enc6 (c % 64) ::
            b64encode rest) =
        [b64enc6 (a / 4), b64enc6 (a % 4 * 16 + b / 16),
          b64enc6 (b % 16 * 4 + c / 64), b64enc6 (c % 64)] ++
            b64encode rest from rfl]
      rw [stripPadding_append, strip_b64encode rest]
      by_cases hrest : rest = []
      · subst hrest
        rw [show b64encodeRaw ([] : List Nat) = [] from rfl, if_pos rfl]
        rw [stripPadding_no_pad _ (by
          intro x hx
          simp at hx
          rcases hx with rfl | rfl | rfl | rfl <;> exact b64enc6_ne_pad _)]
      · rw [if_neg (b64encodeRaw_ne_nil rest hrest)]
        rfl

theorem padTo4_append (l m : List Char) (h : l.length % 4 = 0) :
    padTo4 (l ++ m) = l ++ padTo4 m := by
  simp only [padTo4, List.length_append]
  have hm : (l.length + m.length) % 4 = m.length % 4 := by omega
  rw [hm]
  by_cases h0 : m.length % 4 = 0
  · simp [h0]
  · rw [if_pos h0, if_pos h0, List.append_assoc]

theorem padTo4_raw : ∀ bs : List Nat,
    padTo4 (b64encodeRaw bs) = b64encode bs
  | [] => rfl
  | [a] => by
      rw [b64encodeRaw, b64encode]
      simp [padTo4]
  | [a, b] => by
      rw [b64encodeRaw, b64encode]
      simp [padTo4]
  | a :: b :: c :: rest => by
      rw [b64encodeRaw, b64encode]
      rw [show (b64enc6 (a / 4) :: b64enc6 (a % 4 * 16 + b / 16) ::
          b64enc6 (b % 16 * 4 + c / 64) :: b64enc6 (c % 64) ::
            b64encodeRaw rest) =
        [b64enc6 (a / 4), b64enc6 (a % 4 * 16 + b / 16),
          b64enc6 (b % 16 * 4 + c / 64), b64enc6 (c % 64)] ++
            b64encodeRaw rest from rfl]
      rw [padTo4_append _ _ (by simp), padTo4_raw rest]
      rfl

/-! ## The callback-data roundtrip -/

theorem parseCallbackData_some (str : String) :
    parseCallbackData ⟨some str⟩ =
      (if ['b', '6', '4', ':'].isPrefixOf str.data then
        (match b64decode (padTo4 (str.data.drop 4)) with
         | some bytes =>
           (match utf8Decode bytes with
            | some d => parseJson d
            | none => none)
         | none => none)
      else parseJson str.data) := rfl

/-- C10: `parse_callback_data` inverts the callback-data encoding
(`telegram_utils.py:7-16`): for every JSON value `v`, a callback query
whose `data` field is the compact JSON encoding of `v` parses back to
`v`; and a callback query whose `data` field is `"b64:"` followed by the
base64 encoding of the UTF-8 bytes of that JSON text, with the trailing
`=` padding stripped, also parses back to `v`, because the parser
re-pads the base64 text to a multiple of 4 before decoding. -/
theorem C10_parse_callback_data (v : Json) :
    parseCallbackData ⟨some (String.mk (serVal v))⟩ = some v ∧
    parseCallbackData ⟨some (String.mk (['b', '6', '4', ':'] ++
      stripPadding (b64encode (utf8Encode (serVal v)))))⟩ = some v := by
  constructor
  · rw [parseCallbackData_some]
    obtain ⟨c, cs, hc, _, _, hb⟩ := serVal_head v
    have hdata : (String.mk (serVal v)).data = serVal v := rfl
    rw [hdata, hc]
    have hpre : (['b', '6', '4', ':'].isPrefixOf (c :: cs)) = false := by
      simp [List.isPrefixOf, Ne.symm hb]
    rw [hpre]
    simp only [Bool.false_eq_true, if_false]
    rw [← hc]
    exact parseJson_serVal v
  · rw [parseCallbackData_some]
    have hdata : (String.mk (['b', '6', '4', ':'] ++
        stripPadding (b64encode (utf8Encode (serVal v))))).data =
      'b' :: '6' :: '4' :: ':' ::
        stripPadding (b64encode (utf8Encode (serVal v))) := rfl
    rw [hdata]
    have hpre : (['b', '6', '4', ':'].isPrefixOf
        ('b' :: '6' :: '4' :: ':' ::
          stripPadding (b64encode (utf8Encode (serVal v))))) = true := by
      simp [List.isPrefixOf]
    rw [hpre]
    simp only [if_true]
    have hdrop : ('b' :: '6' :: '4' :: ':' ::
        stripPadding (b64encode (utf8Encode (serVal v)))).drop 4 =
      stripPadding (b64encode (utf8Encode (serVal v))) := rfl
    rw [hdrop, strip_b64encode, padTo4_raw]
    rw [b64_roundtrip (utf8Encode (serVal v)) (utf8Encode_lt256 _)]
    simp only [utf8_roundtrip, parseJson_serVal]

end OVH
